import Mathlib

/-!
shbt: numeric formatter and signal registry.

A shallow embedding of `shbt_itoa` (src/shbt_utils.c) and of the signal
registration functions (src/shbt_signal.c), with the properties proved about
them.

Platform assumptions: `intptr_t`, `uintptr_t` and `size_t` are 64 bits wide
(LP64).  Characters are modelled by `Char`, the terminating byte by `NUL`.
The `size_t` counter `n` of `shbt_itoa` is incremented modulo `2^64`; it
cannot wrap when `size < SIZE_MAX`, which every buffer size satisfies (no
object occupies `SIZE_MAX` bytes), and the theorems are stated for such sizes.
-/

namespace Shbt

/-! ## Machine integers -/

/-- Number of values of a 64-bit word (`uintptr_t`, `size_t`). -/
def WORD : Nat := 2 ^ 64

/-- Largest `size_t`. -/
def SIZE_MAX : Nat := 2 ^ 64 - 1

/-- Smallest `intptr_t`. -/
def INTPTR_MIN : Int := -(2 ^ 63)

/-- Largest `intptr_t`. -/
def INTPTR_MAX : Int := 2 ^ 63 - 1

/-- Conversion of a signed value to `uintptr_t` (reduction modulo `2^64`). -/
def to_uintptr (i : Int) : Nat := (i % (WORD : Int)).toNat

/-! ## Character buffers -/

/-- The terminating character `'\000'`. -/
def NUL : Char := Char.ofNat 0

/-- Memory reachable from the pointer `buf`: `mem k` is the character at
`buf[k]`; `stores` records the offsets assigned to, most recent first. -/
structure Buffer where
  mem : Nat → Char
  stores : List Nat

/-- The assignment `buf[k] = c`. -/
def Buffer.store (b : Buffer) (k : Nat) (c : Char) : Buffer :=
  { mem := Function.update b.mem k c, stores := k :: b.stores }

/-- The characters `buf[0], ..., buf[len-1]`. -/
def Buffer.take (b : Buffer) (len : Nat) : List Char :=
  (List.range len).map b.mem

/-- The buffer holds the C string `s`: the characters of `s`, none of them
`NUL`, followed by `NUL`. -/
def Buffer.holds (b : Buffer) (s : List Char) : Prop :=
  b.take s.length = s ∧ b.mem s.length = NUL ∧ NUL ∉ s

/-! ## shbt_itoa (src/shbt_utils.c, lines 43-98) -/

/-- The digit table `"0123456789abcdef"` indexed at line 79. -/
def digit_table : List Char := "0123456789abcdef".toList

/-- The character `"0123456789abcdef"[d]`. -/
def digit_char (d : Nat) : Char := digit_table.getD d NUL

/-- Lines 82-84: `if (pad > 0) { --pad; }`. -/
def pad_step (pad : Nat) : Nat := if pad > 0 then pad - 1 else pad

/-- The `do ... while (j > 0 || pad > 0)` loop of lines 72-85.  `n` is the
`size_t` counter, `ptr` the offset of the write pointer.  The result is the
buffer together with the final `ptr`, or `none` when the space check failed
(the buffer has then been emptied by `buf[0] = NUL`). -/
def digit_loop (size base : Nat) (hb : 2 ≤ base) (b : Buffer) (n ptr j pad : Nat) :
    Buffer × Option Nat :=
  let n1 := (n + 1) % WORD
  if n1 > size then
    (b.store 0 NUL, none)
  else
    let b1 := b.store ptr (digit_char (j % base))
    let j1 := j / base
    let pad1 := pad_step pad
    if h : j1 > 0 ∨ pad1 > 0 then
      digit_loop size base hb b1 n1 (ptr + 1) j1 pad1
    else
      (b1, some (ptr + 1))
termination_by j + pad
decreasing_by
  have hj : j / base ≤ j := Nat.div_le_self j base
  have hlt : 0 < j → j / base < j := fun hpos => Nat.div_lt_self hpos hb
  have h0 : j = 0 → j / base = 0 := fun hz => by rw [hz]; exact Nat.zero_div base
  have hp : pad_step pad = pad - 1 := by
    unfold pad_step; split <;> omega
  have h1 : j / base > 0 ∨ pad_step pad > 0 := h
  rw [hp] at h1 ⊢
  omega

/-- The reversal loop `while (--ptr > start) { ... }` of lines 92-96. -/
def reverse_loop (b : Buffer) (start ptr : Nat) : Buffer :=
  let ptr1 := ptr - 1
  if ptr1 > start then
    let ch := b.mem ptr1
    let b1 := b.store ptr1 (b.mem start)
    let b2 := b1.store start ch
    reverse_loop b2 (start + 1) ptr1
  else
    b
termination_by ptr - start
decreasing_by omega

/-- Result of `shbt_itoa`: `ret` is true when `buf` was returned and false
when `NULL` was returned; `buf` is the buffer afterwards. -/
structure ItoaResult where
  ret : Bool
  buf : Buffer

/-- Lines 70-97: convert `j` starting at offset `start`, terminate the string
and reverse the digits. -/
def itoa_digits (size base : Nat) (hb : 2 ≤ base) (b : Buffer) (n start j pad : Nat) :
    ItoaResult :=
  match digit_loop size base hb b n start j pad with
  | (b1, none) => { ret := false, buf := b1 }
  | (b1, some ptr) =>
    let b2 := b1.store ptr NUL
    { ret := true, buf := reverse_loop b2 start ptr }

/-- Line 61: the magnitude `((uintptr_t) (-(i + 1))) + 1` of a negative `i`. -/
def neg_magnitude (i : Int) : Nat := (to_uintptr (-(i + 1)) + 1) % WORD

/-- The function `shbt_itoa(i, buf, size, base, pad)`. -/
def shbt_itoa (i : Int) (buf : Buffer) (size : Nat) (base : Int) (pad : Nat) : ItoaResult :=
  if size = 0 then
    { ret := false, buf := buf }
  else if hbase : base < 2 ∨ base > 16 then
    { ret := false, buf := buf.store 0 NUL }
  else
    have hb : 2 ≤ base.toNat := by omega
    if i < 0 ∧ base = 10 then
      let j := neg_magnitude i
      let n := (1 + 1) % WORD
      if n > size then
        { ret := false, buf := buf.store 0 NUL }
      else
        itoa_digits size base.toNat hb (buf.store 0 '-') n 1 j pad
    else
      itoa_digits size base.toNat hb buf 1 0 (to_uintptr i) pad

/-- A buffer filled with `'x'` on which nothing has been stored yet. -/
def fresh : Buffer := { mem := fun _ => 'x', stores := [] }

/-- The value of `j` the digit loop converts (lines 56-61). -/
def itoa_j (i base : Int) : Nat :=
  if i < 0 ∧ base = 10 then neg_magnitude i else to_uintptr i

/-- The offset `start` of the first digit: 1 after a `'-'`, else 0. -/
def itoa_start (i base : Int) : Nat :=
  if i < 0 ∧ base = 10 then 1 else 0

/-! ## Reference notions the output is compared with -/

/-- The digit values the conversion emits for the magnitude `j` with padding
`pad`, least significant first: the base-`base` digits of `j` followed by the
zeros that pad them to `max pad 1` digits. -/
def lsd_digits (base j pad : Nat) : List Nat :=
  Nat.digits base j ++ List.replicate (max pad 1 - (Nat.digits base j).length) 0

/-- The base-`base` digits of `j`, most significant first, written with the
characters `0-9a-f` (nothing for `j = 0`). -/
def msd_chars (base j : Nat) : List Char :=
  (Nat.digits base j).reverse.map Nat.digitChar

/-- Number of base-`base` digits of `j` (0 for `j = 0`). -/
def num_digits (base j : Nat) : Nat := (Nat.digits base j).length

/-- The sign written for `i` at base `base`: `"-"` for a negative value at
base 10, nothing otherwise. -/
def sign_chars (i base : Int) : List Char :=
  if i < 0 ∧ base = 10 then ['-'] else []

/-- Value of a digit character `0-9a-f`; `none` for any other character. -/
def digit_value (c : Char) : Option Nat :=
  if '0' ≤ c ∧ c ≤ '9' then some (c.toNat - '0'.toNat)
  else if 'a' ≤ c ∧ c ≤ 'f' then some (c.toNat - 'a'.toNat + 10)
  else none

/-- Reading base-`base` digits, most significant first, onto the accumulator
`acc`; `none` if a character is not a digit of that base. -/
def parse_digits (base : Nat) : List Char → Nat → Option Nat
  | [], acc => some acc
  | c :: cs, acc =>
    match digit_value c with
    | some d => if d < base then parse_digits base cs (acc * base + d) else none
    | none => none

/-- Parsing a base-`base` numeral: an optional leading `'-'` followed by at
least one digit `0-9a-f`, most significant digit first. -/
def parse_numeral (base : Nat) (s : List Char) : Option Int :=
  match s with
  | [] => none
  | c :: cs =>
    if c = '-' then
      if cs = [] then none else (parse_digits base cs 0).map (fun (v : Nat) => -(v : Int))
    else (parse_digits base (c :: cs) 0).map (fun (v : Nat) => (v : Int))

/-! ## Signal registry (src/shbt_signal.c) -/

/-- `SHBT_EXIT_ACTION_EXIT` of `shbt_exit_action_t`. -/
def SHBT_EXIT_ACTION_EXIT : Int := 0

/-- `SHBT_EXIT_ACTION_RETURN` of `shbt_exit_action_t`. -/
def SHBT_EXIT_ACTION_RETURN : Int := 1

/-- `SHBT_EXIT_ACTION_RERAISE` of `shbt_exit_action_t`. -/
def SHBT_EXIT_ACTION_RERAISE : Int := 2

/-- `struct shbt_signal_info`.  A `NULL` name or description is `none`; the
callback is `none` for `NULL` and otherwise identifies the function. -/
structure shbt_signal_info where
  sig_num : Int
  sig_name : Option String
  sig_desc : Option String
  exit_action : Int
  callback : Option Nat
deriving DecidableEq, Repr

/-- The handler slot of a `struct sigaction`. -/
inductive sa_handler_t where
  | SIG_DFL
  | shbt_sigaction_handler
deriving DecidableEq, Repr

/-- The parts of a `struct sigaction` the library sets: the handler, whether
`sa_mask` was filled with `sigfillset`, and the three flags it uses. -/
structure sigaction_t where
  handler : sa_handler_t
  mask_filled : Bool
  SA_RESTART : Bool
  SA_SIGINFO : Bool
  SA_ONSTACK : Bool
deriving DecidableEq, Repr

/-- State of the library and of the OS facilities it drives: the table
`sig_info` (with its terminating entry), whether `signal_handler_stack` is
non-`NULL`, whether an alternate stack has been registered by `sigaltstack`,
and the dispositions set by `sigaction`, most recent first. -/
structure SignalState where
  sig_info : List shbt_signal_info
  signal_handler_stack : Bool
  altstack_registered : Bool
  dispositions : List (Int × sigaction_t)
deriving DecidableEq, Repr

/-- What the environment and the OS answer during one registration call:
the value of `getenv("SHBT_SIGNAL_EXIT_ACTION")` and whether `malloc`,
`sigaltstack` and `sigaction` succeed if they are called. -/
structure OsCalls where
  env : Option String
  malloc_ok : Bool
  sigaltstack_ok : Bool
  sigaction_ok : Bool
deriving DecidableEq, Repr

/-- Lines 321-328: index of the first entry before the terminator whose number
is `sig_num`; `none` stands for `NULL`. -/
def shbt_get_signal_info (sig_num : Int) : List shbt_signal_info → Option Nat
  | [] => none
  | e :: rest =>
    if e.sig_name = none then none
    else if e.sig_num = sig_num then some 0
    else (shbt_get_signal_info sig_num rest).map (fun k => k + 1)

/-- Assignment through the pointer returned by `shbt_get_signal_info`. -/
def update_info (tbl : List shbt_signal_info) (idx : Nat)
    (f : shbt_signal_info → shbt_signal_info) : List shbt_signal_info :=
  match tbl[idx]? with
  | some e => tbl.set idx (f e)
  | none => tbl

/-- The descriptor `shbt_get_signal_info` returns for `sig_num`, if any. -/
def descriptor (st : SignalState) (sig_num : Int) : Option shbt_signal_info :=
  match shbt_get_signal_info sig_num st.sig_info with
  | some idx => st.sig_info[idx]?
  | none => none

/-- The test `strncmp(s, t, n) == 0` on strings without embedded `NUL`. -/
def strncmp_eq : List Char → List Char → Nat → Bool
  | _, _, 0 => true
  | [], [], _ + 1 => true
  | c :: cs, d :: ds, n + 1 => if c = d then strncmp_eq cs ds n else false
  | [], _ :: _, _ + 1 => false
  | _ :: _, [], _ + 1 => false

/-- Lines 608-622: the exit action to store, from the override if it is set;
`none` when the override is set to an unrecognised value. -/
def effective_exit_action (env : Option String) (exit_action : Int) : Option Int :=
  match env with
  | some v =>
    if strncmp_eq v.toList "EXIT".toList 4 then some SHBT_EXIT_ACTION_EXIT
    else if strncmp_eq v.toList "RETURN".toList 6 then some SHBT_EXIT_ACTION_RETURN
    else if strncmp_eq v.toList "RERAISE".toList 7 then some SHBT_EXIT_ACTION_RERAISE
    else none
  | none => some exit_action

/-- The `struct sigaction` of lines 648-651. -/
def shbt_sigaction : sigaction_t :=
  { handler := sa_handler_t.shbt_sigaction_handler, mask_filled := true,
    SA_RESTART := true, SA_SIGINFO := true, SA_ONSTACK := true }

/-- The function `shbt_register_signal_handler` (lines 602-656), in a build
without MPI. -/
def shbt_register_signal_handler (os : OsCalls) (st : SignalState) (sig_num : Int)
    (exit_action : Int) (callback : Option Nat) : Bool × SignalState :=
  match shbt_get_signal_info sig_num st.sig_info with
  | none => (false, st)
  | some idx =>
    match effective_exit_action os.env exit_action with
    | none => (false, st)
    | some a =>
      let tbl1 := update_info st.sig_info idx (fun e => { e with exit_action := a })
      let st1 := { st with sig_info := tbl1 }
      let tbl2 := update_info st1.sig_info idx (fun e => { e with callback := callback })
      let st2 := { st1 with sig_info := tbl2 }
      if st2.signal_handler_stack = false then
        if os.malloc_ok = false then (false, st2)
        else
          let st3 := { st2 with signal_handler_stack := true }
          if os.sigaltstack_ok = false then (false, st3)
          else
            let st4 := { st3 with altstack_registered := true }
            if os.sigaction_ok = false then (false, st4)
            else (true, { st4 with dispositions := (sig_num, shbt_sigaction) :: st4.dispositions })
      else
        if os.sigaction_ok = false then (false, st2)
        else (true, { st2 with dispositions := (sig_num, shbt_sigaction) :: st2.dispositions })

/-- The function `shbt_register_signal_callback` (lines 749-756). -/
def shbt_register_signal_callback (st : SignalState) (sig_num : Int)
    (callback : Option Nat) : Bool × SignalState :=
  match shbt_get_signal_info sig_num st.sig_info with
  | none => (false, st)
  | some idx =>
    let tbl1 := update_info st.sig_info idx (fun e => { e with callback := callback })
    (true, { st with sig_info := tbl1 })

/-- The function `shbt_register_signal_exit_action` (lines 758-766). -/
def shbt_register_signal_exit_action (st : SignalState) (sig_num : Int)
    (exit_action : Int) : Bool × SignalState :=
  match shbt_get_signal_info sig_num st.sig_info with
  | none => (false, st)
  | some idx =>
    let tbl1 := update_info st.sig_info idx (fun e => { e with exit_action := exit_action })
    (true, { st with sig_info := tbl1 })

/-- An entry of `sig_info` as initialised at lines 33-141: exit action 0, no
callback. -/
def mk_info (num : Int) (name desc : String) : shbt_signal_info :=
  { sig_num := num, sig_name := some name, sig_desc := some desc, exit_action := 0,
    callback := none }

/-- The table `sig_info` as compiled on Linux x86-64, where `SIGEMT`, `SIGINFO`
and `SIGLOST` are not defined; the last entry is the terminator
`{0, NULL, NULL, 0, NULL}`. -/
def sig_info_linux : List shbt_signal_info :=
  [ mk_info 6 "ABRT" "Abort signal",
    mk_info 14 "ALRM" "Timer signal",
    mk_info 7 "BUS" "Bus error",
    mk_info 17 "CHLD" "Child stopped or terminated",
    mk_info 17 "CLD" "Child stopped or terminated",
    mk_info 18 "CONT" "Continue if stopped",
    mk_info 8 "FPE" "Floating-point exception",
    mk_info 1 "HUP" "Hangup detected",
    mk_info 4 "ILL" "Illegal instruction",
    mk_info 2 "INT" "Interrupt",
    mk_info 29 "IO" "I/O now possible",
    mk_info 6 "IOT" "IOT trap (abort)",
    mk_info 9 "KILL" "Kill",
    mk_info 13 "PIPE" "Broken pipe",
    mk_info 29 "POLL" "Pollable event",
    mk_info 27 "PROF" "Profiling timer expired",
    mk_info 30 "PWR" "Power failure",
    mk_info 3 "QUIT" "Quit",
    mk_info 11 "SEGV" "Invalid memory reference",
    mk_info 16 "STKFLT" "Stack fault on coprocessor",
    mk_info 19 "STOP" "Stop process",
    mk_info 20 "TSTP" "Stop typed at terminal",
    mk_info 31 "SYS" "Bad system call",
    mk_info 15 "TERM" "Terminate",
    mk_info 5 "TRAP" "Trace/breakpoint trap",
    mk_info 21 "TTIN" "Terminal input for background process",
    mk_info 22 "TTOU" "Terminal output for background process",
    mk_info 23 "URG" "Urgent condition on socket",
    mk_info 10 "USR1" "User-defined signal 1",
    mk_info 12 "USR2" "User-defined signal 2",
    mk_info 26 "VTALRM" "Virtual alarm clock",
    mk_info 24 "XCPU" "CPU time limit exceeded",
    mk_info 25 "XFSZ" "File size limit exceeded",
    mk_info 28 "WINCH" "Window resize",
    { sig_num := 0, sig_name := none, sig_desc := none, exit_action := 0, callback := none } ]

/-- The state before any registration: the initial table, no handler stack,
no disposition set. -/
def initial_state (tbl : List shbt_signal_info) : SignalState :=
  { sig_info := tbl, signal_handler_stack := false, altstack_registered := false,
    dispositions := [] }

/-- OS answers with everything succeeding and the override set as given. -/
def os_ok (env : Option String) : OsCalls :=
  { env := env, malloc_ok := true, sigaltstack_ok := true, sigaction_ok := true }

/-- The function `shbt_register_signal_handlers` (lines 658-667) over the
array elements `sig_nums[0 .. num_sig-1]`, given as a list; `os i` is what the
environment and the OS answer during the call made for element `i`. -/
def shbt_register_signal_handlers (os : Nat → OsCalls) (st : SignalState)
    (sig_nums : List Int) (exit_action : Int) (callback : Option Nat) : Bool × SignalState :=
  match sig_nums with
  | [] => (true, st)
  | s :: rest =>
    let r := shbt_register_signal_handler (os 0) st s exit_action callback
    if r.1 = false then (false, r.2)
    else shbt_register_signal_handlers (fun k => os (k + 1)) r.2 rest exit_action callback

/-- The state in which `shbt_register_signal_handlers` makes the call for
element `i`: the one left by the calls for the elements before it. -/
def state_before (os : Nat → OsCalls) (st : SignalState) (sig_nums : List Int)
    (exit_action : Int) (callback : Option Nat) (i : Nat) : SignalState :=
  (shbt_register_signal_handlers os st (sig_nums.take i) exit_action callback).2

/-- The call of `shbt_register_signal_handler` for element `i` of the array,
made in the state the earlier elements left. -/
def call_at (os : Nat → OsCalls) (st : SignalState) (sig_nums : List Int)
    (exit_action : Int) (callback : Option Nat) (i : Nat) : Bool × SignalState :=
  shbt_register_signal_handler (os i) (state_before os st sig_nums exit_action callback i)
    (sig_nums.getD i 0) exit_action callback

/-- A platform: the value of each preprocessor macro that is defined (signal
numbers, signal codes), `none` for a macro that is not defined. -/
abbrev Platform := String → Option Int

/-- The initialiser of `sig_info` (lines 33-144) before preprocessing: the
macro guarding and numbering each entry, its name and its description. -/
def sig_info_source : List (String × String × String) :=
  [ ("SIGABRT", "ABRT", "Abort signal"),
    ("SIGALRM", "ALRM", "Timer signal"),
    ("SIGBUS", "BUS", "Bus error"),
    ("SIGCHLD", "CHLD", "Child stopped or terminated"),
    ("SIGCLD", "CLD", "Child stopped or terminated"),
    ("SIGCONT", "CONT", "Continue if stopped"),
    ("SIGEMT", "EMT", "Emulator trap"),
    ("SIGFPE", "FPE", "Floating-point exception"),
    ("SIGHUP", "HUP", "Hangup detected"),
    ("SIGILL", "ILL", "Illegal instruction"),
    ("SIGINFO", "INFO", "Power failure"),
    ("SIGINT", "INT", "Interrupt"),
    ("SIGIO", "IO", "I/O now possible"),
    ("SIGIOT", "IOT", "IOT trap (abort)"),
    ("SIGKILL", "KILL", "Kill"),
    ("SIGLOST", "LOST", "File lock lost"),
    ("SIGPIPE", "PIPE", "Broken pipe"),
    ("SIGPOLL", "POLL", "Pollable event"),
    ("SIGPROF", "PROF", "Profiling timer expired"),
    ("SIGPWR", "PWR", "Power failure"),
    ("SIGQUIT", "QUIT", "Quit"),
    ("SIGSEGV", "SEGV", "Invalid memory reference"),
    ("SIGSTKFLT", "STKFLT", "Stack fault on coprocessor"),
    ("SIGSTOP", "STOP", "Stop process"),
    ("SIGTSTP", "TSTP", "Stop typed at terminal"),
    ("SIGSYS", "SYS", "Bad system call"),
    ("SIGTERM", "TERM", "Terminate"),
    ("SIGTRAP", "TRAP", "Trace/breakpoint trap"),
    ("SIGTTIN", "TTIN", "Terminal input for background process"),
    ("SIGTTOU", "TTOU", "Terminal output for background process"),
    ("SIGURG", "URG", "Urgent condition on socket"),
    ("SIGUSR1", "USR1", "User-defined signal 1"),
    ("SIGUSR2", "USR2", "User-defined signal 2"),
    ("SIGVTALRM", "VTALRM", "Virtual alarm clock"),
    ("SIGXCPU", "XCPU", "CPU time limit exceeded"),
    ("SIGXFSZ", "XFSZ", "File size limit exceeded"),
    ("SIGWINCH", "WINCH", "Window resize") ]

/-- The terminating entry `{0, NULL, NULL, 0, NULL}` of `sig_info`. -/
def sig_info_end : shbt_signal_info :=
  { sig_num := 0, sig_name := none, sig_desc := none, exit_action := 0, callback := none }

/-- The table `sig_info` as compiled on platform `p`: the entries whose macro
is defined, then the terminating entry. -/
def sig_info_of (p : Platform) : List shbt_signal_info :=
  sig_info_source.filterMap (fun x => (p x.1).map (fun n => mk_info n x.2.1 x.2.2))
    ++ [sig_info_end]

/-- The initialiser of `sig_nums` in `shbt_register_fatal_handlers` (lines
670-743) before preprocessing, without its final `0`. -/
def fatal_source : List String :=
  [ "SIGABRT", "SIGALRM", "SIGBUS", "SIGEMT", "SIGFPE", "SIGHUP", "SIGILL", "SIGINT",
    "SIGIO", "SIGLOST", "SIGPIPE", "SIGPROF", "SIGPWR", "SIGQUIT", "SIGSEGV",
    "SIGSTKFLT", "SIGSYS", "SIGTERM", "SIGTRAP", "SIGUSR1", "SIGUSR2", "SIGVTALRM",
    "SIGXCPU", "SIGXFSZ" ]

/-- The array `sig_nums` of `shbt_register_fatal_handlers` on platform `p`,
with its final `0`. -/
def fatal_sig_nums (p : Platform) : List Int :=
  fatal_source.filterMap p ++ [0]

/-- The function `shbt_register_fatal_handlers` (lines 669-747): the first
`sizeof(sig_nums) / sizeof(int) - 1` elements are registered. -/
def shbt_register_fatal_handlers (p : Platform) (os : Nat → OsCalls) (st : SignalState) :
    Bool × SignalState :=
  shbt_register_signal_handlers os st
    ((fatal_sig_nums p).take ((fatal_sig_nums p).length - 1)) SHBT_EXIT_ACTION_EXIT none

/-- The fatal signals as listed in the documentation of
`shbt_register_fatal_handlers` (shbt.h, lines 138-143). -/
def documented_fatal_signals : List String :=
  [ "SIGABRT", "SIGALRM", "SIGBUS", "SIGEMT", "SIGFPE", "SIGHUP", "SIGILL", "SIGINT", "SIGIO",
    "SIGLOST", "SIGPIPE", "SIGPROF", "SIGPWR", "SIGQUIT", "SIGSEGV", "SIGSTKFLT", "SIGSYS",
    "SIGTERM", "SIGTRAP", "SIGUSR1", "SIGUSR2", "SIGVTALRM", "SIGXCPU", "SIGXFSZ" ]

/-- The macros of Linux x86-64 with their values; `SIGEMT`, `SIGINFO` and
`SIGLOST` are not defined there. -/
def linux_macros : List (String × Int) :=
  [ ("SIGHUP", 1), ("SIGINT", 2), ("SIGQUIT", 3), ("SIGILL", 4), ("SIGTRAP", 5),
    ("SIGABRT", 6), ("SIGIOT", 6), ("SIGBUS", 7), ("SIGFPE", 8), ("SIGKILL", 9),
    ("SIGUSR1", 10), ("SIGSEGV", 11), ("SIGUSR2", 12), ("SIGPIPE", 13), ("SIGALRM", 14),
    ("SIGTERM", 15), ("SIGSTKFLT", 16), ("SIGCHLD", 17), ("SIGCLD", 17), ("SIGCONT", 18),
    ("SIGSTOP", 19), ("SIGTSTP", 20), ("SIGTTIN", 21), ("SIGTTOU", 22), ("SIGURG", 23),
    ("SIGXCPU", 24), ("SIGXFSZ", 25), ("SIGVTALRM", 26), ("SIGPROF", 27), ("SIGWINCH", 28),
    ("SIGIO", 29), ("SIGPOLL", 29), ("SIGPWR", 30), ("SIGSYS", 31),
    ("SI_USER", 0), ("SI_KERNEL", 128), ("SI_QUEUE", -1), ("SI_TIMER", -2), ("SI_MESGQ", -3),
    ("SI_ASYNCIO", -4), ("SI_SIGIO", -5), ("SI_TKILL", -6),
    ("ILL_ILLOPC", 1), ("ILL_ILLOPN", 2), ("ILL_ILLADR", 3), ("ILL_ILLTRP", 4),
    ("ILL_PRVOPC", 5), ("ILL_PRVREG", 6), ("ILL_COPROC", 7), ("ILL_BADSTK", 8),
    ("FPE_INTDIV", 1), ("FPE_INTOVF", 2), ("FPE_FLTDIV", 3), ("FPE_FLTOVF", 4),
    ("FPE_FLTUND", 5), ("FPE_FLTRES", 6), ("FPE_FLTINV", 7), ("FPE_FLTSUB", 8),
    ("SEGV_MAPERR", 1), ("SEGV_ACCERR", 2), ("SEGV_BNDERR", 3), ("SEGV_PKUERR", 4),
    ("BUS_ADRALN", 1), ("BUS_ADRERR", 2), ("BUS_OBJERR", 3), ("BUS_MCEERR_AR", 4),
    ("BUS_MCEERR_AO", 5),
    ("TRAP_BRKPT", 1), ("TRAP_TRACE", 2), ("TRAP_BRANCH", 3), ("TRAP_HWBKPT", 4),
    ("POLL_IN", 1), ("POLL_OUT", 2), ("POLL_MSG", 3), ("POLL_ERR", 4), ("POLL_PRI", 5),
    ("POLL_HUP", 6), ("SYS_SECCOMP", 1) ]

/-- The platform Linux x86-64. -/
def linux : Platform := fun m => linux_macros.lookup m

/-- The states the library can be in on platform `p`: the initial state and
every state produced from a reachable one by a registration call, whatever
its arguments and whatever the environment and the OS answer. -/
inductive Reachable (p : Platform) : SignalState → Prop where
  | init : Reachable p (initial_state (sig_info_of p))
  | handler (st : SignalState) (os : OsCalls) (sig a : Int) (cb : Option Nat) :
      Reachable p st → Reachable p (shbt_register_signal_handler os st sig a cb).2
  | handlers (st : SignalState) (os : Nat → OsCalls) (sigs : List Int) (a : Int)
      (cb : Option Nat) :
      Reachable p st → Reachable p (shbt_register_signal_handlers os st sigs a cb).2
  | fatal (st : SignalState) (os : Nat → OsCalls) :
      Reachable p st → Reachable p (shbt_register_fatal_handlers p os st).2
  | callback (st : SignalState) (sig : Int) (cb : Option Nat) :
      Reachable p st → Reachable p (shbt_register_signal_callback st sig cb).2
  | exit_action (st : SignalState) (sig a : Int) :
      Reachable p st → Reachable p (shbt_register_signal_exit_action st sig a).2

/-! ## Signal description (shbt_print_signal) -/

/-- `struct shbt_signal_code_info`. -/
structure shbt_signal_code_info where
  code_num : Int
  code_name : Option String
  code_desc : Option String
deriving DecidableEq, Repr

/-- Lines 148-174: the initialiser of `generic_codes` before preprocessing. -/
def generic_codes_source : List (String × String × String) :=
  [ ("SI_USER", "USER", "Signal sent via kill"),
    ("SI_KERNEL", "KERNEL", "Signal sent by the kernel"),
    ("SI_QUEUE", "QUEUE", "Signal sent via sigqueue"),
    ("SI_TIMER", "TIMER", "POSIX timer expired"),
    ("SI_MESGQ", "MESGQ", "POSIX message queue state changed"),
    ("SI_ASYNCIO", "ASYNCIO", "AIO completed"),
    ("SI_SIGIO", "SIGIO", "Queued SIGIO"),
    ("SI_TKILL", "TKILL", "Signal sent via tkill/tgkill") ]

/-- Lines 178-204: the initialiser of `sigill_codes` before preprocessing. -/
def sigill_codes_source : List (String × String × String) :=
  [ ("ILL_ILLOPC", "ILLOPC", "Illegal opcode"),
    ("ILL_ILLOPN", "ILLOPN", "Illegal operand"),
    ("ILL_ILLADR", "ILLADR", "Illegal addressing mode"),
    ("ILL_ILLTRP", "ILLTRP", "Illegal trap"),
    ("ILL_PRVOPC", "PRVOPC", "Privileged opcode"),
    ("ILL_PRVREG", "PRVREG", "Privileged register"),
    ("ILL_COPROC", "COPROC", "Coprocessor error"),
    ("ILL_BADSTK", "BADSTK", "Internal stack error") ]

/-- Lines 207-233: the initialiser of `sigfpe_codes` before preprocessing. -/
def sigfpe_codes_source : List (String × String × String) :=
  [ ("FPE_INTDIV", "INTDIV", "Integer divide by zero"),
    ("FPE_INTOVF", "INTOVF", "Integer overflow"),
    ("FPE_FLTDIV", "FLTDIV", "Floating-point divide by zero"),
    ("FPE_FLTOVF", "FLTOVF", "Floating-point overflow"),
    ("FPE_FLTUND", "FLTUND", "Floating-point underflow"),
    ("FPE_FLTRES", "FLTRES", "Floating-point inexact result"),
    ("FPE_FLTINV", "FLTINV", "Floating-point invalid operation"),
    ("FPE_FLTSUB", "FLTSUB", "Subscript out of range") ]

/-- Lines 236-250: the initialiser of `sigsegv_codes` before preprocessing. -/
def sigsegv_codes_source : List (String × String × String) :=
  [ ("SEGV_MAPERR", "MAPERR", "Address not mapped to object"),
    ("SEGV_ACCERR", "ACCERR", "Invalid permissions for mapped object"),
    ("SEGV_BNDERR", "BNDERR", "Failed address bound checks"),
    ("SEGV_PKUERR", "PKUERR", "Access denied by memory protection keys") ]

/-- Lines 253-272: the initialiser of `sigbus_codes` before preprocessing. -/
def sigbus_codes_source : List (String × String × String) :=
  [ ("BUS_ADRALN", "ADRALN", "Invalid address alignment"),
    ("BUS_ADRERR", "ADRERR", "Nonexistent physical address"),
    ("BUS_OBJERR", "OBJERR", "Object-specific hardware error"),
    ("BUS_MCEERR_AR", "MCEERR_AR", "Hardware memory error consumed on a machine check"),
    ("BUS_MCEERR_AO", "MCEERR_AO", "Hardware memory error detected in process but not consumed") ]

/-- Lines 275-289: the initialiser of `sigtrap_codes` before preprocessing. -/
def sigtrap_codes_source : List (String × String × String) :=
  [ ("TRAP_BRKPT", "BRKPT", "Process breakpoint"),
    ("TRAP_TRACE", "TRACE", "Process trace trap"),
    ("TRAP_BRANCH", "BRANCH", "Process taken branch trap"),
    ("TRAP_HWBKPT", "HWBKPT", "Hardware breakpoint/watchpoint") ]

/-- Lines 292-312: the initialiser of `sigpoll_codes` before preprocessing. -/
def sigpoll_codes_source : List (String × String × String) :=
  [ ("POLL_IN", "IN", "Data input available"),
    ("POLL_OUT", "OUT", "Output buffers available"),
    ("POLL_MSG", "MSG", "Input message available"),
    ("POLL_ERR", "ERR", "I/O error"),
    ("POLL_PRI", "PRI", "High priority input available"),
    ("POLL_HUP", "HUP", "Device disconnected") ]

/-- Lines 315-320: the initialiser of `sigsys_codes` before preprocessing. -/
def sigsys_codes_source : List (String × String × String) :=
  [ ("SYS_SECCOMP", "SECCOMP", "Triggered by seccomp filter rule") ]

/-- A code table as compiled on platform `p`: the entries whose macro is
defined, then the terminating entry `{0, NULL, NULL}`. -/
def code_table (p : Platform) (source : List (String × String × String)) :
    List shbt_signal_code_info :=
  source.filterMap (fun x => (p x.1).map (fun n =>
      { code_num := n, code_name := some x.2.1, code_desc := some x.2.2 }))
    ++ [{ code_num := 0, code_name := none, code_desc := none }]

/-- Lines 330-338: the first entry before the terminator whose code is
`code_num`; `none` stands for `NULL`. -/
def shbt_get_signal_code_info (info_list : List shbt_signal_code_info) (code_num : Int) :
    Option shbt_signal_code_info :=
  match info_list with
  | [] => none
  | e :: rest =>
    if e.code_name = none then none
    else if e.code_num = code_num then some e
    else shbt_get_signal_code_info rest code_num

/-- The fields of `siginfo_t` the library reads; `si_addr` is the address as
an unsigned number. -/
structure siginfo_t where
  si_code : Int
  si_pid : Int
  si_uid : Int
  si_addr : Nat
deriving DecidableEq, Repr

/-- The cast `(intptr_t) ptr` of a 64-bit address. -/
def to_intptr (a : Nat) : Int :=
  if a % WORD < 2 ^ 63 then ((a % WORD : Nat) : Int) else ((a % WORD : Nat) : Int) - 2 ^ 64

/-- The newline character. -/
def NL : Char := Char.ofNat 10

/-- The buffer `char str_buf[128] = {0}`. -/
def zero_buf : Buffer := { mem := fun _ => NUL, stores := [] }

/-- The C string starting at offset `k` of the buffer, read over at most
`fuel` characters. -/
def read_cstr (b : Buffer) : Nat → Nat → List Char
  | 0, _ => []
  | fuel + 1, k => if b.mem k = NUL then [] else b.mem k :: read_cstr b fuel (k + 1)

/-- What `shbt_print_signal` has done so far: the text handed to
`shbt_print_to_stderr`, in order, and the contents of `str_buf`. -/
structure PrintState where
  out : List Char
  str_buf : Buffer

/-- The call `shbt_print_to_stderr(text)` for a string literal or a table string. -/
def PrintState.print (s : PrintState) (text : String) : PrintState :=
  { s with out := s.out ++ text.toList }

/-- The call `shbt_print_to_stderr(ptr)` for a name or description of a
table entry; nothing is modelled for `NULL`, which no entry found carries. -/
def PrintState.print_opt (s : PrintState) (text : Option String) : PrintState :=
  match text with
  | some t => s.print t
  | none => s

/-- The call `shbt_itoa(i, str_buf, sizeof(str_buf), base, pad)`. -/
def PrintState.itoa (s : PrintState) (i base : Int) (pad : Nat) : PrintState :=
  { s with str_buf := (shbt_itoa i s.str_buf 128 base pad).buf }

/-- The call `shbt_print_to_stderr(str_buf)`. -/
def PrintState.print_buf (s : PrintState) : PrintState :=
  { s with out := s.out ++ read_cstr s.str_buf 128 0 }

/-- The block printed for a signal of a family (lines 412-429, repeated for
each family up to line 553): two spaces, the code of the family table or
`Unknown signal code`, the fault address if the family has one, a newline. -/
def family_section (s : PrintState) (codes : List shbt_signal_code_info) (info : siginfo_t)
    (was_code_generic : Bool) (fault_addr : Bool) : PrintState :=
  let s1 := s.print "  "
  let s2 :=
    match shbt_get_signal_code_info codes info.si_code with
    | some ci => ((s1.print_opt ci.code_name).print " - ").print_opt ci.code_desc
    | none =>
      if was_code_generic = false then
        ((s1.print "Unknown signal code ").itoa info.si_code 10 0).print_buf
      else s1
  let s3 :=
    if fault_addr = true then
      ((s2.print " - Fault occurred at address 0x").itoa (to_intptr info.si_addr) 16 12).print_buf
    else s2
  s3.print "\n"

/-- The entry a pointer returned by `shbt_get_signal_info` points to. -/
def info_at (tbl : List shbt_signal_info) (idx : Nat) : shbt_signal_info :=
  tbl.getD idx sig_info_end

/-- Lines 377-410 of `shbt_print_signal`: the newline after the header, the
generic code if the table has it, and the sender for `SI_USER` and
`SI_QUEUE`. -/
def generic_section (p : Platform) (s : PrintState) (info : siginfo_t) : PrintState :=
  let s1 :=
    match shbt_get_signal_code_info (code_table p generic_codes_source) info.si_code with
    | some ci => (((s.print "\n  ").print_opt ci.code_name).print " - ").print_opt ci.code_desc
    | none => s.print "\n"
  if p "SI_USER" = some info.si_code ∨ p "SI_QUEUE" = some info.si_code then
    (((((s1.print " - Source PID: ").itoa info.si_pid 10 0).print_buf).print
      " - UID: ").itoa info.si_uid 10 0).print_buf
  else s1

/-- Lines 375-561 of `shbt_print_signal`: what is printed after the header
when the extended info is present. -/
def print_signal_info (p : Platform) (s : PrintState) (sig_num : Int) (info : siginfo_t) :
    PrintState :=
  let was_code_generic :=
    (shbt_get_signal_code_info (code_table p generic_codes_source) info.si_code).isSome
  let s2 := generic_section p s info
  if p "SIGILL" = some sig_num then
    family_section s2 (code_table p sigill_codes_source) info was_code_generic true
  else if p "SIGFPE" = some sig_num then
    family_section s2 (code_table p sigfpe_codes_source) info was_code_generic true
  else if p "SIGSEGV" = some sig_num then
    family_section s2 (code_table p sigsegv_codes_source) info was_code_generic true
  else if p "SIGBUS" = some sig_num then
    family_section s2 (code_table p sigbus_codes_source) info was_code_generic true
  else if p "SIGTRAP" = some sig_num then
    family_section s2 (code_table p sigtrap_codes_source) info was_code_generic true
  else if p "SIGIO" = some sig_num ∨ p "SIGPOLL" = some sig_num then
    family_section s2 (code_table p sigpoll_codes_source) info was_code_generic false
  else if p "SIGSYS" = some sig_num then
    family_section s2 (code_table p sigsys_codes_source) info was_code_generic false
  else if was_code_generic = true then s2.print "\n"
  else s2

/-- The function `shbt_print_signal` (lines 340-562) in a build without MPI:
the text it hands to `shbt_print_to_stderr`, in order. -/
def shbt_print_signal (p : Platform) (tbl : List shbt_signal_info) (sig_num : Int)
    (info : Option siginfo_t) : List Char :=
  let s0 : PrintState := { out := [], str_buf := zero_buf }
  let s1 := s0.itoa sig_num 10 0
  match shbt_get_signal_info sig_num tbl with
  | none => (((s1.print "Received unknown signal ").print_buf).print "\n").out
  | some idx =>
    let s2 := (((((s1.print "Received signal ").print_buf).print " ").print_opt
      (info_at tbl idx).sig_name).print " - ").print_opt (info_at tbl idx).sig_desc
    match info with
    | none => s2.out
    | some i => (print_signal_info p s2 sig_num i).out

/-- The text of a table string contains no newline (`NULL` has no text). -/
def clean_text (o : Option String) : Prop :=
  ∀ t, o = some t → NL ∉ t.toList

/-- Every name and description of the signal table is free of newlines. -/
def table_clean (tbl : List shbt_signal_info) : Prop :=
  ∀ e ∈ tbl, clean_text e.sig_name ∧ clean_text e.sig_desc

/-- Every name and description of a code table is free of newlines. -/
def codes_clean (codes : List shbt_signal_code_info) : Prop :=
  ∀ e ∈ codes, clean_text e.code_name ∧ clean_text e.code_desc

/-- The printing state `s1` continues `s` with text that has no newline. -/
def clean_ext (s s1 : PrintState) : Prop :=
  ∃ T, NL ∉ T ∧ s1.out = s.out ++ T

/-- The text has no two consecutive newline characters. -/
def no_blank_line : List Char → Bool
  | [] => true
  | [_] => true
  | a :: b :: rest => (!(a == NL && b == NL)) && no_blank_line (b :: rest)

/-- The decimal numeral of `n`: a `'-'` for a negative number, then the
digits of `|n|`, most significant first (`"0"` for zero). -/
def decimal_chars (n : Int) : List Char :=
  (if n < 0 then ['-'] else []) ++ (if n = 0 then ['0'] else msd_chars 10 n.natAbs)

/-! ## Signal handler (shbt_sigaction_handler) -/

/-- What the handler does, as seen from outside: text handed to
`shbt_print_to_stderr`, the call `shbt_print_backtrace_fd(fd)`, a call of the
registered callback, `sigaction` with `SIG_DFL`, `raise`, and
`_exit(EXIT_FAILURE)`. -/
inductive Event where
  | stderr (text : List Char)
  | print_backtrace_fd (fd : Int)
  | callback (cb : Nat) (sig_num : Int)
  | sigaction_default (sig_num : Int)
  | raise (sig_num : Int)
  | exit_failure
deriving DecidableEq, Repr

/-- Result of running the handler: the events in order, whether the process
was terminated by `_exit`, and the state afterwards. -/
structure HandlerResult where
  events : List Event
  terminated : Bool
  st : SignalState

/-- The `struct sigaction` of lines 586-589: default handler, full mask,
`SA_RESTART`. -/
def default_sigaction : sigaction_t :=
  { handler := sa_handler_t.SIG_DFL, mask_filled := true, SA_RESTART := true,
    SA_SIGINFO := false, SA_ONSTACK := false }

/-- Lines 574-579: the description, the backtrace and the callback. -/
def handler_report (p : Platform) (st : SignalState) (idx : Nat) (sig_num : Int)
    (info : Option siginfo_t) : List Event :=
  [Event.stderr (shbt_print_signal p st.sig_info sig_num info),
   Event.stderr "Backtrace:\n".toList,
   Event.print_backtrace_fd 2]
  ++ (match (info_at st.sig_info idx).callback with
      | some cb => [Event.callback cb sig_num]
      | none => [])

/-- Lines 580-599: the exit action; `restore_ok` tells whether `sigaction`
succeeds when the default handler is restored. -/
def apply_exit_action (st : SignalState) (restore_ok : Bool) (exit_action sig_num : Int) :
    HandlerResult :=
  if exit_action = SHBT_EXIT_ACTION_EXIT then
    { events := [Event.exit_failure], terminated := true, st := st }
  else if exit_action = SHBT_EXIT_ACTION_RETURN then
    { events := [], terminated := false, st := st }
  else if exit_action = SHBT_EXIT_ACTION_RERAISE then
    if restore_ok = false then
      { events := [Event.sigaction_default sig_num,
          Event.stderr "SHBT: Error trying to restore default signal handler\n".toList,
          Event.exit_failure],
        terminated := true, st := st }
    else
      { events := [Event.sigaction_default sig_num, Event.raise sig_num],
        terminated := false,
        st := { st with dispositions := (sig_num, default_sigaction) :: st.dispositions } }
  else
    { events := [Event.stderr "SHBT: Unknown exit action\n".toList, Event.exit_failure],
      terminated := true, st := st }

/-- The function `shbt_sigaction_handler` (lines 565-600). -/
def shbt_sigaction_handler (p : Platform) (st : SignalState) (restore_ok : Bool)
    (sig_num : Int) (info : Option siginfo_t) : HandlerResult :=
  match shbt_get_signal_info sig_num st.sig_info with
  | none =>
    { events := [Event.stderr "SHBT: Could not get signal info in signal handler\n".toList,
        Event.exit_failure],
      terminated := true, st := st }
  | some idx =>
    let r := apply_exit_action st restore_ok (info_at st.sig_info idx).exit_action sig_num
    { r with events := handler_report p st idx sig_num info ++ r.events }

/-! ## Raw output (shbt_safe_print, src/shbt_utils.c) -/

/-- The value of `errno` after an interrupted call. -/
def EINTR : Int := 4

/-- Answer of one call `write(fd, output, count)`: `accepted r` is the return
value `r ≥ 0`, the first `r` bytes having been taken; `failed errno` is the
return value `-1` with `errno` set. -/
inductive write_result where
  | accepted (r : Nat)
  | failed (errno : Int)
deriving DecidableEq, Repr

/-- What `shbt_safe_print` has done when it returns: the bytes the file
descriptor took, in order, and the number of calls of `write` it made. -/
structure SafePrintResult where
  written : List Char
  calls : Nat
deriving DecidableEq, Repr

/-- The function `shbt_safe_print(output, fd)` (lines 30-35) run against the
successive answers of `write`; every call passes the whole string and
`strlen(output)`. The result is `none` when the listed answers are used up
and the loop is still retrying. -/
def shbt_safe_print (output : List Char) : List write_result → Option SafePrintResult
  | [] => none
  | write_result.accepted r :: _ => some { written := output.take r, calls := 1 }
  | write_result.failed errno :: rest =>
    if errno = EINTR then
      (shbt_safe_print output rest).map (fun x => { x with calls := x.calls + 1 })
    else some { written := [], calls := 1 }

/-! ## Backtrace (src/shbt_backtrace.c) -/

/-- `shbt_frame_t`: the address, and the symbol as the C string the array
`symbol[1024]` holds. -/
structure shbt_frame_t where
  addr : Nat
  symbol : List Char
deriving DecidableEq, Repr

/-- The array `trace`: `mem k` is `trace[k]`; `stores` records the indices
written to, most recent first. -/
structure Trace where
  mem : Nat → shbt_frame_t
  stores : List Nat

/-- Writing the C string `s` into `trace[k].symbol`. -/
def Trace.set_symbol (t : Trace) (k : Nat) (s : List Char) : Trace :=
  { mem := Function.update t.mem k { addr := (t.mem k).addr, symbol := s },
    stores := k :: t.stores }

/-- A stack frame as libunwind presents it: what `unw_get_proc_name` yields
there, the name when it returns 0 and `none` when it fails. -/
structure unw_frame where
  proc_name : Option (List Char)
deriving DecidableEq, Repr

/-- A cursor of libunwind: the frame it points at, followed by the callers of
that frame up to the outermost one. -/
abbrev unw_cursor_t := List unw_frame

/-- The calls `unw_getcontext` and `unw_init_local`: the cursor points at the
frame of the function that captured the context; `stack` lists that frame
first. -/
def unw_init_local (stack : List unw_frame) : unw_cursor_t := stack

/-- The call `unw_step(&cursor)`: `some c` for a positive return, `c`
pointing at the caller of the previous frame; `none` for a return that is not
positive, the previous frame being the outermost one. -/
def unw_step (cursor : unw_cursor_t) : Option unw_cursor_t :=
  match cursor with
  | _ :: c :: rest => some (c :: rest)
  | _ => none

/-- The call `unw_get_proc_name` at the frame the cursor points at. -/
def unw_get_proc_name (cursor : unw_cursor_t) : Option (List Char) :=
  match cursor with
  | f :: _ => f.proc_name
  | [] => none

/-- The string `unknown_symbol_str` of line 34. -/
def unknown_symbol_str : List Char := "(unknown symbol)".toList

/-- The loop of lines 35-44. The counter `cur_frame` is a `size_t`. -/
def collect_loop (num_frames : Nat) (trace : Trace) (cursor : unw_cursor_t) (cur_frame : Nat) :
    Trace × Nat :=
  if cur_frame < num_frames then
    match h : unw_step cursor with
    | some c =>
      let symbol :=
        match unw_get_proc_name c with
        | some name => name
        | none => unknown_symbol_str
      collect_loop num_frames (trace.set_symbol cur_frame symbol) c ((cur_frame + 1) % WORD)
    | none => (trace, cur_frame)
  else (trace, cur_frame)
termination_by cursor.length
decreasing_by
  unfold unw_step at h
  split at h
  · injection h with h
    rw [← h]
    simp
  · exact absurd h (by simp)

/-- Result of `shbt_collect_backtrace`: the return value, the array and
`*num_valid_frames`. -/
structure CollectResult where
  ret : Bool
  trace : Trace
  num_valid_frames : Nat

/-- The function `shbt_collect_backtrace(trace, num_frames, &num_valid_frames)`
(lines 27-47) called with the stack `stack`, whose first frame is the frame of
`shbt_collect_backtrace` itself. -/
def shbt_collect_backtrace (stack : List unw_frame) (trace : Trace) (num_frames : Nat) :
    CollectResult :=
  let r := collect_loop num_frames trace (unw_init_local stack) 0
  { ret := true, trace := r.1, num_valid_frames := r.2 }

/-- The loop of line 102; the counter `cur_frame` is a `size_t`. -/
def depth_loop (cursor : unw_cursor_t) (cur_frame : Nat) : Nat :=
  match h : unw_step cursor with
  | some c => depth_loop c ((cur_frame + 1) % WORD)
  | none => cur_frame
termination_by cursor.length
decreasing_by
  unfold unw_step at h
  split at h
  · injection h with h
    rw [← h]
    simp
  · exact absurd h (by simp)

/-- The function `shbt_get_stack_depth()` (lines 96-104) called with the stack
`stack`, whose first frame is the frame of `shbt_get_stack_depth` itself. -/
def shbt_get_stack_depth (stack : List unw_frame) : Nat :=
  depth_loop (unw_init_local stack) 0

/-! ## Demangling through the compiler ABI (src/demangle_abi.cpp) -/

/-- What `abi::__cxa_demangle(mangled, NULL, &abi_out_size, &abi_status)`
answers: the string returned (read only when the status is 0, where it is not
`NULL`), the length of the buffer that contains it, and the status. -/
structure cxa_result where
  abi_out : List Char
  abi_out_size : Nat
  abi_status : Int
deriving DecidableEq, Repr

/-- The call `strncpy(dst, src, n)`: `n` characters are stored, those of
`src` and then `NUL`s. -/
def strncpy (dst : Buffer) (src : List Char) (n : Nat) : Buffer :=
  (List.range n).foldl (fun b k => b.store k (src.getD k NUL)) dst

/-- Result of `shbt_demangle`: the return value and the buffer `out`. -/
structure DemangleResult where
  ret : Bool
  out : Buffer

/-- The function `shbt_demangle(mangled, out, out_size)` (lines 34-58) of the
build with `SHBT_USE_ABI_DEMANGLER`, over the answers `cxa` of
`abi::__cxa_demangle`. -/
def shbt_demangle (cxa : List Char → cxa_result) (mangled : List Char) (out : Buffer)
    (out_size : Nat) : DemangleResult :=
  if out_size = 0 then { ret := false, out := out }
  else if (cxa mangled).abi_status ≠ 0 then { ret := false, out := out }
  else if (cxa mangled).abi_out_size > out_size then { ret := false, out := out.store 0 NUL }
  else { ret := true, out := strncpy out (cxa mangled).abi_out (cxa mangled).abi_out_size }

/-! ## Printing a collected backtrace (shbt_print_collected_backtrace_fd) -/

/-- What `shbt_print_collected_backtrace_fd` has done so far: the text handed
to `shbt_safe_print`, in order, and the contents of `str_buf` and of
`demangled_symbol`. -/
structure BtPrintState where
  out : List Char
  str_buf : Buffer
  demangled_symbol : Buffer

/-- The call `shbt_safe_print(text, fd)`, as the text handed over. -/
def BtPrintState.print (s : BtPrintState) (text : List Char) : BtPrintState :=
  { s with out := s.out ++ text }

/-- The body of the loop of lines 53-79 for the frame `cur_frame`, in a build
without `SHBT_USE_BUILTIN_IA64_DEMANGLER`. -/
def print_frame (cxa : List Char → cxa_result) (trace : Nat → shbt_frame_t)
    (s : BtPrintState) (cur_frame : Nat) : BtPrintState :=
  let s1 :=
    if cur_frame < 10 then s.print "   ".toList
    else if cur_frame < 100 then s.print "  ".toList
    else if cur_frame < 1000 then s.print " ".toList
    else s
  let s2 : BtPrintState :=
    { s1 with str_buf := (shbt_itoa (to_intptr cur_frame) s1.str_buf 128 10 0).buf }
  let s3 := s2.print (read_cstr s2.str_buf 128 0)
  let s4 := s3.print ": ".toList
  let d := shbt_demangle cxa (trace cur_frame).symbol s4.demangled_symbol 1024
  let s5 : BtPrintState := { s4 with demangled_symbol := d.out }
  let s6 :=
    if d.ret = true then s5.print (read_cstr s5.demangled_symbol 1024 0)
    else s5.print (trace cur_frame).symbol
  s6.print "\n".toList

/-- Result of `shbt_print_collected_backtrace_fd`: the return value and the
text handed to `shbt_safe_print`. -/
structure BtPrintResult where
  ret : Bool
  out : List Char

/-- The function `shbt_print_collected_backtrace_fd(trace, num_frames, fd)`
(lines 49-81): the loop runs `cur_frame` over `0, ..., num_frames - 1`. -/
def shbt_print_collected_backtrace_fd (cxa : List Char → cxa_result)
    (trace : Nat → shbt_frame_t) (num_frames : Nat) : BtPrintResult :=
  let s0 : BtPrintState := { out := [], str_buf := zero_buf, demangled_symbol := zero_buf }
  { ret := true, out := ((List.range num_frames).foldl (print_frame cxa trace) s0).out }

/-! ## Reference notions for the printed text -/

/-- The text of a table string (`NULL` has none). -/
def opt_text (o : Option String) : List Char :=
  match o with
  | some t => t.toList
  | none => []

/-- The address in lowercase hexadecimal, zero-padded to 12 digits. -/
def hex12 (a : Nat) : List Char :=
  List.replicate (12 - (Nat.digits 16 (a % WORD)).length) '0' ++ msd_chars 16 (a % WORD)

/-- The families of signals that have a code table of their own. -/
inductive signal_family where
  | ill
  | fpe
  | segv
  | bus
  | trap
  | poll
  | sys
deriving DecidableEq, Repr

/-- The source of the code table of a family. -/
def signal_family.source : signal_family → List (String × String × String)
  | signal_family.ill => sigill_codes_source
  | signal_family.fpe => sigfpe_codes_source
  | signal_family.segv => sigsegv_codes_source
  | signal_family.bus => sigbus_codes_source
  | signal_family.trap => sigtrap_codes_source
  | signal_family.poll => sigpoll_codes_source
  | signal_family.sys => sigsys_codes_source

/-- Whether the signals of the family carry a fault address: ILL, FPE, SEGV,
BUS and TRAP do, IO/POLL and SYS do not. -/
def signal_family.has_fault_addr : signal_family → Bool
  | signal_family.poll => false
  | signal_family.sys => false
  | _ => true

/-- The family the signal `sig_num` belongs to on platform `p`, if any. -/
def family_of (p : Platform) (sig_num : Int) : Option signal_family :=
  if p "SIGILL" = some sig_num then some signal_family.ill
  else if p "SIGFPE" = some sig_num then some signal_family.fpe
  else if p "SIGSEGV" = some sig_num then some signal_family.segv
  else if p "SIGBUS" = some sig_num then some signal_family.bus
  else if p "SIGTRAP" = some sig_num then some signal_family.trap
  else if p "SIGIO" = some sig_num ∨ p "SIGPOLL" = some sig_num then some signal_family.poll
  else if p "SIGSYS" = some sig_num then some signal_family.sys
  else none

/-- The generic part of the description: the newline ending the header, the
generic code on the next line if `si_code` is in `generic_codes`, and the
sender for `SI_USER` and `SI_QUEUE`. -/
def described_generic (p : Platform) (info : siginfo_t) : List Char :=
  (match shbt_get_signal_code_info (code_table p generic_codes_source) info.si_code with
    | some ci => "\n  ".toList ++ opt_text ci.code_name ++ " - ".toList ++ opt_text ci.code_desc
    | none => "\n".toList)
  ++ (if p "SI_USER" = some info.si_code ∨ p "SI_QUEUE" = some info.si_code then
        " - Source PID: ".toList ++ decimal_chars info.si_pid ++ " - UID: ".toList
          ++ decimal_chars info.si_uid
      else [])

/-- The code of a signal of family `f`: name and description from the table
of that family; `Unknown signal code` and the number when the code is
neither in that table nor in `generic_codes`; nothing when it is in
`generic_codes` only. -/
def described_code (p : Platform) (f : signal_family) (info : siginfo_t) : List Char :=
  match shbt_get_signal_code_info (code_table p f.source) info.si_code with
  | some ci => opt_text ci.code_name ++ " - ".toList ++ opt_text ci.code_desc
  | none =>
    if (shbt_get_signal_code_info (code_table p generic_codes_source) info.si_code).isSome
    then []
    else "Unknown signal code ".toList ++ decimal_chars info.si_code

/-- The fault address as printed for the families that carry one. -/
def described_fault (a : Nat) : List Char :=
  " - Fault occurred at address 0x".toList ++ hex12 a

/-- The family part of the description: for a signal of a family two spaces,
the code, the fault address if the family carries one, and a newline; for
any other signal only the newline that ends a generic code line. -/
def described_family (p : Platform) (sig_num : Int) (info : siginfo_t) : List Char :=
  match family_of p sig_num with
  | some f =>
    "  ".toList ++ described_code p f info
      ++ (if f.has_fault_addr = true then described_fault info.si_addr else [])
      ++ "\n".toList
  | none =>
    if (shbt_get_signal_code_info (code_table p generic_codes_source) info.si_code).isSome
    then "\n".toList
    else []

/-- The integer fields of `siginfo_t` hold values of their C types (`int`,
`pid_t`, `uid_t`), all of which `intptr_t` represents. -/
def siginfo_t.in_range (info : siginfo_t) : Prop :=
  (INTPTR_MIN ≤ info.si_code ∧ info.si_code ≤ INTPTR_MAX) ∧
  (INTPTR_MIN ≤ info.si_pid ∧ info.si_pid ≤ INTPTR_MAX) ∧
  (INTPTR_MIN ≤ info.si_uid ∧ info.si_uid ≤ INTPTR_MAX)

/-- The frame index as printed at the start of a line: the decimal numeral,
right-justified with spaces in a field of minimum width 4. -/
def index_field (i : Nat) : List Char :=
  List.replicate (4 - (decimal_chars i).length) ' ' ++ decimal_chars i

/-- The demangled name of a symbol when `shbt_demangle` succeeds with a
1024-byte buffer: status 0 and a result buffer of at most 1024 bytes. -/
def demangled_name (cxa : List Char → cxa_result) (symbol : List Char) : Option (List Char) :=
  if (cxa symbol).abi_status = 0 ∧ (cxa symbol).abi_out_size ≤ 1024 then
    some (cxa symbol).abi_out
  else none

/-- The line of the frame `i` with symbol `symbol`. -/
def described_line (cxa : List Char → cxa_result) (i : Nat) (symbol : List Char) : List Char :=
  index_field i ++ ": ".toList
    ++ (match demangled_name cxa symbol with
        | some name => name
        | none => symbol)
    ++ "\n".toList

/-- The answers of `abi::__cxa_demangle` respect its contract: on status 0
the string returned has no `NUL` in it and is shorter than the buffer length
reported. -/
def cxa_contract (cxa : List Char → cxa_result) : Prop :=
  ∀ m, (cxa m).abi_status = 0 →
    NUL ∉ (cxa m).abi_out ∧ (cxa m).abi_out.length < (cxa m).abi_out_size

/-! ## Auxiliary facts -/

theorem lsd_digits_length (base j pad : Nat) :
    (lsd_digits base j pad).length = max (Nat.digits base j).length (max pad 1) := by
  simp only [lsd_digits, List.length_append, List.length_replicate]
  omega

theorem lsd_digits_step (base j pad : Nat) (hb : 2 ≤ base)
    (h : j / base > 0 ∨ pad - 1 > 0) :
    lsd_digits base j pad = (j % base) :: lsd_digits base (j / base) (pad - 1) := by
  rcases Nat.eq_zero_or_pos j with hj | hj
  · subst hj
    have hp : 2 ≤ pad := by
      rcases h with h | h
      · simp at h
      · omega
    have e : max pad 1 = (max (pad - 1) 1) + 1 := by omega
    simp [lsd_digits, e, List.replicate_succ]
  · have hd : Nat.digits base j = (j % base) :: Nat.digits base (j / base) :=
      Nat.digits_def' hb hj
    have hlen : max pad 1 - ((Nat.digits base (j / base)).length + 1)
        = max (pad - 1) 1 - (Nat.digits base (j / base)).length := by
      rcases h with h | h
      · have : Nat.digits base (j / base) ≠ [] :=
          Nat.digits_ne_nil_iff_ne_zero.mpr (by omega)
        have : 0 < (Nat.digits base (j / base)).length := List.length_pos.mpr this
        omega
      · omega
    simp only [lsd_digits, hd, List.length_cons, List.cons_append, hlen]

theorem lsd_digits_last (base j pad : Nat) (hb : 2 ≤ base)
    (h : ¬ (j / base > 0 ∨ pad - 1 > 0)) :
    lsd_digits base j pad = [j % base] := by
  obtain ⟨ha, hc⟩ := not_or.mp h
  have h1 : j / base = 0 := Nat.le_zero.mp (not_lt.mp ha)
  have h2 : pad ≤ 1 := by omega
  have hlt : j < base := (Nat.div_eq_zero_iff (by omega)).mp h1
  rcases Nat.eq_zero_or_pos j with hj | hj
  · subst hj
    have e : max pad 1 = 1 := by omega
    simp [lsd_digits, e]
  · have hd : Nat.digits base j = [j] := Nat.digits_of_lt base j (by omega) hlt
    simp [lsd_digits, hd, Nat.mod_eq_of_lt hlt]
    omega

theorem pad_step_eq (pad : Nat) : pad_step pad = pad - 1 := by
  unfold pad_step; split <;> omega

theorem store_mem (b : Buffer) (k : Nat) (c : Char) (x : Nat) :
    (b.store k c).mem x = if x = k then c else b.mem x := by
  simp [Buffer.store, Function.update_apply]

theorem store_stores (b : Buffer) (k : Nat) (c : Char) :
    (b.store k c).stores = k :: b.stores := rfl

/-- Behaviour of the digit loop entered with `n = ptr + 1`: it succeeds exactly
when the emitted digits and the terminator fit, and then has written the
digits of `lsd_digits` from `ptr` on. -/
theorem digit_loop_spec (size base : Nat) (hb : 2 ≤ base) (hsz : size < SIZE_MAX) :
    ∀ (m : Nat) (b : Buffer) (ptr j pad : Nat), j + pad ≤ m → ptr + 1 ≤ size →
      (ptr + 1 + (lsd_digits base j pad).length ≤ size →
        (digit_loop size base hb b (ptr + 1) ptr j pad).2
            = some (ptr + (lsd_digits base j pad).length) ∧
        (∀ k, (digit_loop size base hb b (ptr + 1) ptr j pad).1.mem k
            = if ptr ≤ k ∧ k < ptr + (lsd_digits base j pad).length
              then digit_char ((lsd_digits base j pad).getD (k - ptr) 0) else b.mem k) ∧
        (∀ x ∈ (digit_loop size base hb b (ptr + 1) ptr j pad).1.stores,
            x ∈ b.stores ∨ (ptr ≤ x ∧ x < ptr + (lsd_digits base j pad).length))) ∧
      (size < ptr + 1 + (lsd_digits base j pad).length →
        (digit_loop size base hb b (ptr + 1) ptr j pad).2 = none ∧
        (digit_loop size base hb b (ptr + 1) ptr j pad).1.mem 0 = NUL ∧
        (∀ x ∈ (digit_loop size base hb b (ptr + 1) ptr j pad).1.stores,
            x ∈ b.stores ∨ x < size)) := by
  intro m
  induction m using Nat.strong_induction_on with
  | _ m ih =>
    intro b ptr j pad hm hn
    have hW : (ptr + 1 + 1) % WORD = ptr + 2 :=
      Nat.mod_eq_of_lt (by simp only [SIZE_MAX, WORD] at *; omega)
    have hlen := lsd_digits_length base j pad
    rw [digit_loop]
    simp only [hW, pad_step_eq]
    by_cases h1 : ptr + 2 > size
    · simp only [h1, if_true]
      refine ⟨fun h => by omega, fun _ => ⟨trivial, ?_, ?_⟩⟩
      · simp [store_mem]
      · intro x hx
        simp only [store_stores, List.mem_cons] at hx
        rcases hx with hx | hx
        · right; omega
        · left; exact hx
    · simp only [h1, if_false]
      by_cases h2 : j / base > 0 ∨ pad - 1 > 0
      · simp only [h2, dite_true]
        have hstep := lsd_digits_step base j pad hb h2
        have hdec : j / base + (pad - 1) < j + pad := by
          have hj : j / base ≤ j := Nat.div_le_self j base
          have hlt : 0 < j → j / base < j := fun hpos => Nat.div_lt_self hpos hb
          have h0 : j = 0 → j / base = 0 := fun hz => by rw [hz]; exact Nat.zero_div base
          omega
        obtain ⟨IH1, IH2⟩ := ih (j / base + (pad - 1)) (by omega)
          (b.store ptr (digit_char (j % base))) (ptr + 1) (j / base) (pad - 1) le_rfl (by omega)
        rw [hstep]
        simp only [List.length_cons]
        refine ⟨fun h => ?_, fun h => ?_⟩
        · obtain ⟨a1, a2, a3⟩ := IH1 (by omega)
          refine ⟨by rw [a1]; congr 1; omega, fun k => ?_, fun x hx => ?_⟩
          · rw [a2 k, store_mem]
            by_cases hk : k = ptr
            · subst hk; simp
            · by_cases hk2 : ptr + 1 ≤ k ∧ k < ptr + 1 + (lsd_digits base (j / base) (pad - 1)).length
              · have e : k - ptr = (k - (ptr + 1)) + 1 := by omega
                have hk3 : ptr ≤ k ∧ k < ptr + ((lsd_digits base (j / base) (pad - 1)).length + 1) := by
                  omega
                rw [if_pos hk2, if_pos hk3, e]
                rfl
              · have hk3 : ¬ (ptr ≤ k ∧ k < ptr + ((lsd_digits base (j / base) (pad - 1)).length + 1)) := by
                  omega
                rw [if_neg hk2, if_neg hk3, if_neg hk]
          · rcases a3 x hx with h3 | h3
            · simp only [store_stores, List.mem_cons] at h3
              rcases h3 with h3 | h3
              · right; omega
              · left; exact h3
            · right; omega
        · obtain ⟨a1, a2, a3⟩ := IH2 (by omega)
          refine ⟨a1, a2, fun x hx => ?_⟩
          rcases a3 x hx with h3 | h3
          · simp only [store_stores, List.mem_cons] at h3
            rcases h3 with h3 | h3
            · right; omega
            · left; exact h3
          · right; exact h3
      · simp only [h2, dite_false]
        have hlast := lsd_digits_last base j pad hb h2
        rw [hlast]
        simp only [List.length_singleton]
        refine ⟨fun _ => ⟨trivial, fun k => ?_, fun x hx => ?_⟩, fun h => by omega⟩
        · rw [store_mem]
          by_cases hk : k = ptr
          · subst hk; simp
          · have hk3 : ¬ (ptr ≤ k ∧ k < ptr + 1) := by omega
            rw [if_neg hk, if_neg hk3]
        · simp only [store_stores, List.mem_cons] at hx
          rcases hx with hx | hx
          · right; omega
          · left; exact hx

/-- The reversal loop mirrors the characters at offsets `start .. ptr-1` and
touches nothing else. -/
theorem reverse_loop_spec :
    ∀ (m : Nat) (b : Buffer) (start ptr : Nat), ptr - start ≤ m →
      (∀ k, (reverse_loop b start ptr).mem k
          = if start ≤ k ∧ k < ptr then b.mem (start + ptr - 1 - k) else b.mem k) ∧
      (∀ x ∈ (reverse_loop b start ptr).stores, x ∈ b.stores ∨ (start ≤ x ∧ x < ptr)) := by
  intro m
  induction m using Nat.strong_induction_on with
  | _ m ih =>
    intro b start ptr hm
    rw [reverse_loop]
    simp only []
    by_cases h1 : ptr - 1 > start
    · simp only [h1, if_true]
      obtain ⟨a1, a2⟩ := ih (ptr - 1 - (start + 1)) (by omega)
        ((b.store (ptr - 1) (b.mem start)).store start (b.mem (ptr - 1))) (start + 1) (ptr - 1)
        le_rfl
      refine ⟨fun k => ?_, fun x hx => ?_⟩
      · rw [a1 k]
        by_cases hk : start + 1 ≤ k ∧ k < ptr - 1
        · have hk2 : start ≤ k ∧ k < ptr := by omega
          rw [if_pos hk, if_pos hk2, store_mem, store_mem]
          have e1 : ¬ (start + 1 + (ptr - 1) - 1 - k = start) := by omega
          have e2 : ¬ (start + 1 + (ptr - 1) - 1 - k = ptr - 1) := by omega
          rw [if_neg e1, if_neg e2]
          congr 1
          omega
        · rw [if_neg hk, store_mem, store_mem]
          by_cases hs : k = start
          · have hk2 : start ≤ k ∧ k < ptr := by omega
            rw [if_pos hs, if_pos hk2]
            congr 1
            omega
          · rw [if_neg hs]
            by_cases hp : k = ptr - 1
            · have hk2 : start ≤ k ∧ k < ptr := by omega
              rw [if_pos hp, if_pos hk2]
              congr 1
              omega
            · have hk2 : ¬ (start ≤ k ∧ k < ptr) := by omega
              rw [if_neg hp, if_neg hk2]
      · rcases a2 x hx with h3 | h3
        · simp only [store_stores, List.mem_cons] at h3
          rcases h3 with h3 | h3 | h3
          · right; omega
          · right; omega
          · left; exact h3
        · right; omega
    · simp only [h1, if_false]
      refine ⟨fun k => ?_, fun x hx => Or.inl hx⟩
      by_cases hk : start ≤ k ∧ k < ptr
      · rw [if_pos hk]
        congr 1
        omega
      · rw [if_neg hk]

theorem getD_reverse (L : List Nat) (i : Nat) (h : i < L.length) :
    L.reverse.getD i 0 = L.getD (L.length - 1 - i) 0 := by
  simp only [List.getD_eq_getElem?_getD, List.getElem?_reverse h]

/-- Behaviour of lines 70-97 entered with `n = start + 1`. -/
theorem itoa_digits_spec (size base : Nat) (hb : 2 ≤ base) (hsz : size < SIZE_MAX)
    (b : Buffer) (start j pad : Nat) (hn : start + 1 ≤ size) :
    (start + 1 + (lsd_digits base j pad).length ≤ size →
      (itoa_digits size base hb b (start + 1) start j pad).ret = true ∧
      (∀ k, (itoa_digits size base hb b (start + 1) start j pad).buf.mem k
          = if start ≤ k ∧ k < start + (lsd_digits base j pad).length
            then digit_char ((lsd_digits base j pad).reverse.getD (k - start) 0)
            else if k = start + (lsd_digits base j pad).length then NUL else b.mem k) ∧
      (∀ x ∈ (itoa_digits size base hb b (start + 1) start j pad).buf.stores,
          x ∈ b.stores ∨ (start ≤ x ∧ x ≤ start + (lsd_digits base j pad).length))) ∧
    (size < start + 1 + (lsd_digits base j pad).length →
      (itoa_digits size base hb b (start + 1) start j pad).ret = false ∧
      (itoa_digits size base hb b (start + 1) start j pad).buf.mem 0 = NUL ∧
      (∀ x ∈ (itoa_digits size base hb b (start + 1) start j pad).buf.stores,
          x ∈ b.stores ∨ x < size)) := by
  obtain ⟨S1, S2⟩ := digit_loop_spec size base hb hsz (j + pad) b start j pad le_rfl hn
  unfold itoa_digits
  rcases hdl : digit_loop size base hb b (start + 1) start j pad with ⟨b1, o⟩
  rw [hdl] at S1 S2
  simp only at S1 S2
  refine ⟨fun h => ?_, fun h => ?_⟩
  · obtain ⟨a1, a2, a3⟩ := S1 h
    subst a1
    simp only
    obtain ⟨r1, r2⟩ := reverse_loop_spec _
      (b1.store (start + (lsd_digits base j pad).length) NUL) start
      (start + (lsd_digits base j pad).length) le_rfl
    refine ⟨trivial, fun k => ?_, fun x hx => ?_⟩
    · rw [r1 k]
      by_cases hk : start ≤ k ∧ k < start + (lsd_digits base j pad).length
      · rw [if_pos hk, if_pos hk, store_mem, a2]
        have e1 : ¬ (start + (start + (lsd_digits base j pad).length) - 1 - k
            = start + (lsd_digits base j pad).length) := by omega
        have e2 : start ≤ start + (start + (lsd_digits base j pad).length) - 1 - k ∧
            start + (start + (lsd_digits base j pad).length) - 1 - k
              < start + (lsd_digits base j pad).length := by omega
        rw [if_neg e1, if_pos e2, getD_reverse _ _ (by omega)]
        congr 2
        omega
      · rw [if_neg hk, if_neg hk, store_mem]
        by_cases hk2 : k = start + (lsd_digits base j pad).length
        · rw [if_pos hk2, if_pos hk2]
        · rw [if_neg hk2, if_neg hk2, a2, if_neg hk]
    · rcases r2 x hx with h3 | h3
      · simp only [store_stores, List.mem_cons] at h3
        rcases h3 with h3 | h3
        · right; omega
        · rcases a3 x h3 with h4 | h4
          · left; exact h4
          · right; omega
      · right; omega
  · obtain ⟨a1, a2, a3⟩ := S2 h
    subst a1
    exact ⟨rfl, a2, a3⟩

/-- Behaviour of `shbt_itoa` for a base in range and a non-empty buffer. -/
theorem shbt_itoa_spec (i : Int) (buf : Buffer) (size : Nat) (base : Int) (pad : Nat)
    (hsz : size < SIZE_MAX) (hb2 : 2 ≤ base) (hb16 : base ≤ 16) (hpos : 0 < size) :
    (itoa_start i base + (lsd_digits base.toNat (itoa_j i base) pad).length + 1 ≤ size →
      (shbt_itoa i buf size base pad).ret = true ∧
      (∀ k, (shbt_itoa i buf size base pad).buf.mem k
          = if k < itoa_start i base then '-'
            else if k < itoa_start i base + (lsd_digits base.toNat (itoa_j i base) pad).length
            then digit_char ((lsd_digits base.toNat (itoa_j i base) pad).reverse.getD
                  (k - itoa_start i base) 0)
            else if k = itoa_start i base + (lsd_digits base.toNat (itoa_j i base) pad).length
            then NUL else buf.mem k) ∧
      (∀ x ∈ (shbt_itoa i buf size base pad).buf.stores,
          x ∈ buf.stores ∨
            x ≤ itoa_start i base + (lsd_digits base.toNat (itoa_j i base) pad).length)) ∧
    (size < itoa_start i base + (lsd_digits base.toNat (itoa_j i base) pad).length + 1 →
      (shbt_itoa i buf size base pad).ret = false ∧
      (shbt_itoa i buf size base pad).buf.mem 0 = NUL ∧
      (∀ x ∈ (shbt_itoa i buf size base pad).buf.stores, x ∈ buf.stores ∨ x < size)) := by
  have hb : 2 ≤ base.toNat := by omega
  have hbase : ¬ (base < 2 ∨ base > 16) := by omega
  have hlen := lsd_digits_length base.toNat (itoa_j i base) pad
  unfold shbt_itoa
  rw [if_neg (by omega : ¬ size = 0), dif_neg hbase]
  by_cases hneg : i < 0 ∧ base = 10
  · have hs : itoa_start i base = 1 := by simp [itoa_start, hneg]
    have hj : itoa_j i base = neg_magnitude i := by simp [itoa_j, hneg]
    have hW : (1 + 1) % WORD = 2 := by simp [WORD]
    rw [hs, hj] at *
    simp only [if_pos hneg, hW]
    by_cases h2 : 2 > size
    · simp only [if_pos h2]
      refine ⟨fun h => by omega, fun _ => ⟨trivial, by simp [store_mem], fun x hx => ?_⟩⟩
      simp only [store_stores, List.mem_cons] at hx
      rcases hx with hx | hx
      · right; omega
      · left; exact hx
    · simp only [if_neg h2]
      obtain ⟨S1, S2⟩ := itoa_digits_spec size base.toNat hb hsz (buf.store 0 '-') 1
        (neg_magnitude i) pad (by omega)
      refine ⟨fun h => ?_, fun h => ?_⟩
      · obtain ⟨a1, a2, a3⟩ := S1 (by omega)
        refine ⟨a1, fun k => ?_, fun x hx => ?_⟩
        · rw [a2 k]
          by_cases hk0 : k < 1
          · have e1 : ¬ (1 ≤ k ∧ k < 1 + (lsd_digits base.toNat (neg_magnitude i) pad).length) := by
              omega
            have e2 : ¬ (k = 1 + (lsd_digits base.toNat (neg_magnitude i) pad).length) := by omega
            have e3 : k = 0 := by omega
            rw [if_neg e1, if_neg e2, if_pos hk0, store_mem, if_pos e3]
          · rw [if_neg hk0]
            by_cases hk1 : k < 1 + (lsd_digits base.toNat (neg_magnitude i) pad).length
            · have e1 : 1 ≤ k ∧ k < 1 + (lsd_digits base.toNat (neg_magnitude i) pad).length := by
                omega
              rw [if_pos e1, if_pos hk1]
            · have e1 : ¬ (1 ≤ k ∧ k < 1 + (lsd_digits base.toNat (neg_magnitude i) pad).length) := by
                omega
              rw [if_neg e1, if_neg hk1]
              by_cases hk2 : k = 1 + (lsd_digits base.toNat (neg_magnitude i) pad).length
              · rw [if_pos hk2, if_pos hk2]
              · have e3 : ¬ k = 0 := by omega
                rw [if_neg hk2, if_neg hk2, store_mem, if_neg e3]
        · rcases a3 x hx with h3 | h3
          · simp only [store_stores, List.mem_cons] at h3
            rcases h3 with h3 | h3
            · right; omega
            · left; exact h3
          · right; omega
      · obtain ⟨a1, a2, a3⟩ := S2 (by omega)
        refine ⟨a1, a2, fun x hx => ?_⟩
        rcases a3 x hx with h3 | h3
        · simp only [store_stores, List.mem_cons] at h3
          rcases h3 with h3 | h3
          · right; omega
          · left; exact h3
        · right; exact h3
  · have hs : itoa_start i base = 0 := by simp [itoa_start, hneg]
    have hj : itoa_j i base = to_uintptr i := by simp [itoa_j, hneg]
    rw [hs, hj] at *
    simp only [if_neg hneg]
    obtain ⟨S1, S2⟩ := itoa_digits_spec size base.toNat hb hsz buf 0 (to_uintptr i) pad
      (by omega)
    refine ⟨fun h => ?_, fun h => ?_⟩
    · obtain ⟨a1, a2, a3⟩ := S1 (by omega)
      refine ⟨a1, fun k => ?_, fun x hx => ?_⟩
      · rw [a2 k]
        simp only [Nat.not_lt_zero, if_false, Nat.zero_le, true_and, Nat.zero_add, Nat.sub_zero]
      · rcases a3 x hx with h3 | h3
        · left; exact h3
        · right; omega
    · exact S2 (by omega)

theorem digit_char_eq (d : Nat) (h : d < 16) : digit_char d = Nat.digitChar d := by
  interval_cases d <;> rfl

theorem digitChar_ne_NUL (d : Nat) (h : d < 16) : Nat.digitChar d ≠ NUL := by
  interval_cases d <;> decide

theorem take_eq (b : Buffer) (s : List Char)
    (h : ∀ k, k < s.length → s[k]? = some (b.mem k)) : b.take s.length = s := by
  apply List.ext_getElem?
  intro k
  by_cases hk : k < s.length
  · rw [h k hk]
    simp [Buffer.take, List.getElem?_range hk, hk]
  · have hk1 : s.length ≤ k := not_lt.mp hk
    have e1 : s[k]? = none := List.getElem?_eq_none hk1
    have e2 : (b.take s.length)[k]? = none :=
      List.getElem?_eq_none (by simp [Buffer.take, hk1])
    rw [e1, e2]

/-- The characters written for the digits, most significant first: zero
padding followed by the digits of `j`. -/
theorem lsd_digits_chars (base j pad : Nat) (hb : 2 ≤ base) (hb16 : base ≤ 16) :
    (lsd_digits base j pad).reverse.map digit_char
      = List.replicate (max pad 1 - (Nat.digits base j).length) '0' ++ msd_chars base j := by
  have h1 : ∀ d ∈ (Nat.digits base j).reverse, digit_char d = Nat.digitChar d := by
    intro d hd
    have := Nat.digits_lt_base hb (List.mem_reverse.mp hd)
    exact digit_char_eq d (by omega)
  simp only [lsd_digits, msd_chars, List.reverse_append, List.reverse_replicate, List.map_append,
    List.map_replicate]
  rw [List.map_congr_left h1]
  rfl

theorem msd_chars_no_NUL (base j : Nat) (hb : 2 ≤ base) (hb16 : base ≤ 16) :
    NUL ∉ msd_chars base j := by
  intro h
  simp only [msd_chars, List.mem_map, List.mem_reverse] at h
  obtain ⟨d, hd, he⟩ := h
  have := Nat.digits_lt_base hb hd
  exact digitChar_ne_NUL d (by omega) he

theorem sign_chars_length (i base : Int) : (sign_chars i base).length = itoa_start i base := by
  unfold sign_chars itoa_start
  split <;> rfl

theorem holds_nil (b : Buffer) (h : b.mem 0 = NUL) : b.holds [] := by
  refine ⟨rfl, h, ?_⟩
  simp

/-- The string a successful call leaves in the buffer: sign, zero padding and
the digits of the converted magnitude, most significant first. -/
theorem shbt_itoa_holds (i : Int) (buf : Buffer) (size : Nat) (base : Int) (pad : Nat)
    (hsz : size < SIZE_MAX) (hb2 : 2 ≤ base) (hb16 : base ≤ 16)
    (hfit : itoa_start i base
      + max (Nat.digits base.toNat (itoa_j i base)).length (max pad 1) + 1 ≤ size) :
    (shbt_itoa i buf size base pad).ret = true ∧
    (shbt_itoa i buf size base pad).buf.holds
      (sign_chars i base
        ++ (List.replicate (max pad 1 - (Nat.digits base.toNat (itoa_j i base)).length) '0'
        ++ msd_chars base.toNat (itoa_j i base))) ∧
    (∀ x ∈ (shbt_itoa i buf size base pad).buf.stores, x ∈ buf.stores ∨ x < size) := by
  have hb : 2 ≤ base.toNat := by omega
  have hb16n : base.toNat ≤ 16 := by omega
  have hlen := lsd_digits_length base.toNat (itoa_j i base) pad
  obtain ⟨a1, a2, a3⟩ := (shbt_itoa_spec i buf size base pad hsz hb2 hb16 (by omega)).1
    (by omega)
  have hchars := lsd_digits_chars base.toNat (itoa_j i base) pad hb hb16n
  rw [← hchars]
  have hslen := sign_chars_length i base
  have htot : (sign_chars i base
      ++ (lsd_digits base.toNat (itoa_j i base) pad).reverse.map digit_char).length
      = itoa_start i base + (lsd_digits base.toNat (itoa_j i base) pad).length := by
    simp [hslen]
  refine ⟨a1, ⟨?_, ?_, ?_⟩, fun x hx => ?_⟩
  · apply take_eq
    intro k hk
    rw [htot] at hk
    rw [a2 k]
    by_cases hk0 : k < itoa_start i base
    · rw [if_pos hk0, List.getElem?_append_left (by omega)]
      unfold sign_chars itoa_start at *
      split at hk0
      · have : k = 0 := by omega
        subst this
        simp [*]
      · omega
    · rw [if_neg hk0, if_pos hk, List.getElem?_append_right (by omega), hslen]
      rw [List.getElem?_map, List.getD_eq_getElem?_getD]
      have hlt : k - itoa_start i base < (lsd_digits base.toNat (itoa_j i base) pad).reverse.length := by
        simp only [List.length_reverse]; omega
      rw [List.getElem?_eq_getElem hlt]
      rfl
  · rw [htot, a2]
    have e1 : ¬ (itoa_start i base + (lsd_digits base.toNat (itoa_j i base) pad).length
        < itoa_start i base) := by omega
    rw [if_neg e1, if_neg (lt_irrefl _), if_pos rfl]
  · rw [hchars]
    intro hmem
    simp only [List.mem_append, List.mem_replicate] at hmem
    rcases hmem with h | h | h
    · unfold sign_chars at h
      split at h
      · simp only [List.mem_singleton] at h
        exact absurd h (by decide)
      · simp at h
    · exact absurd h.2 (by decide)
    · exact msd_chars_no_NUL _ _ hb hb16n h
  · rcases a3 x hx with h | h
    · left; exact h
    · right; omega

theorem to_uintptr_nonneg (i : Int) (h0 : 0 ≤ i) (h1 : i ≤ INTPTR_MAX) :
    to_uintptr i = i.toNat := by
  unfold to_uintptr
  simp only [INTPTR_MAX, WORD] at *
  rw [Int.emod_eq_of_lt h0 (by push_cast; omega)]

theorem to_uintptr_neg (i : Int) (h0 : INTPTR_MIN ≤ i) (h1 : i < 0) :
    (to_uintptr i : Int) = i + 2 ^ 64 := by
  unfold to_uintptr
  simp only [INTPTR_MIN, WORD] at *
  have e : i % ((2 ^ 64 : Nat) : Int) = i + 2 ^ 64 := by
    push_cast
    omega
  rw [e]
  exact Int.toNat_of_nonneg (by omega)

theorem neg_magnitude_eq (i : Int) (h0 : INTPTR_MIN ≤ i) (h1 : i < 0) :
    neg_magnitude i = i.natAbs := by
  unfold neg_magnitude to_uintptr
  simp only [INTPTR_MIN, WORD] at *
  have e : (-(i + 1)) % ((2 ^ 64 : Nat) : Int) = -(i + 1) := by
    push_cast
    omega
  rw [e]
  omega

theorem digitChar_eq_zero (d : Nat) (h : d < 16) (h0 : Nat.digitChar d = '0') : d = 0 := by
  interval_cases d <;> first | rfl | exact absurd h0 (by decide)

theorem msd_chars_head (base j : Nat) (hb : 2 ≤ base) (hb16 : base ≤ 16) (hj : j ≠ 0) :
    (msd_chars base j).head? ≠ some '0' := by
  have hne : Nat.digits base j ≠ [] := Nat.digits_ne_nil_iff_ne_zero.mpr hj
  have hlast := Nat.getLast_digit_ne_zero base hj
  have hmem : (Nat.digits base j).getLast hne ∈ Nat.digits base j := List.getLast_mem hne
  have hlt := Nat.digits_lt_base hb hmem
  have hh : (Nat.digits base j).reverse.head? = some ((Nat.digits base j).getLast hne) := by
    rw [List.head?_reverse, List.getLast?_eq_getLast _ hne]
  unfold msd_chars
  rw [List.head?_map, hh]
  intro h
  simp only [Option.map_some', Option.some.injEq] at h
  exact hlast (digitChar_eq_zero _ (by omega) h)

theorem msd_chars_length (base j : Nat) : (msd_chars base j).length = num_digits base j := by
  simp [msd_chars, num_digits]

theorem shbt_itoa_size_zero (i : Int) (buf : Buffer) (base : Int) (pad : Nat) :
    shbt_itoa i buf 0 base pad = { ret := false, buf := buf } := by
  unfold shbt_itoa
  rw [if_pos rfl]

theorem shbt_itoa_bad_base (i : Int) (buf : Buffer) (size : Nat) (base : Int) (pad : Nat)
    (hpos : 0 < size) (hbase : base < 2 ∨ base > 16) :
    shbt_itoa i buf size base pad = { ret := false, buf := buf.store 0 NUL } := by
  unfold shbt_itoa
  rw [if_neg (by omega : ¬ size = 0), dif_pos hbase]

theorem out_length (i base : Int) (pad : Nat) :
    (sign_chars i base
      ++ (List.replicate (max pad 1 - (Nat.digits base.toNat (itoa_j i base)).length) '0'
      ++ msd_chars base.toNat (itoa_j i base))).length
    = itoa_start i base + max (Nat.digits base.toNat (itoa_j i base)).length (max pad 1) := by
  rw [List.length_append, List.length_append, List.length_replicate, msd_chars_length,
    sign_chars_length]
  unfold num_digits
  omega

/-- Success criterion of `shbt_itoa` in terms of the converted value. -/
theorem shbt_itoa_ret_iff (i : Int) (buf : Buffer) (size : Nat) (base : Int) (pad : Nat)
    (hsz : size < SIZE_MAX) :
    (shbt_itoa i buf size base pad).ret = true ↔
      (2 ≤ base ∧ base ≤ 16 ∧
        itoa_start i base + max (num_digits base.toNat (itoa_j i base)) (max pad 1) + 1
          ≤ size) := by
  rcases Nat.eq_zero_or_pos size with h0 | hpos
  · subst h0
    rw [shbt_itoa_size_zero]
    constructor
    · intro h; simp at h
    · intro h; omega
  · by_cases hbase : base < 2 ∨ base > 16
    · rw [shbt_itoa_bad_base i buf size base pad hpos hbase]
      constructor
      · intro h; simp at h
      · intro h; omega
    · have hb2 : 2 ≤ base := by omega
      have hb16 : base ≤ 16 := by omega
      have hlen := lsd_digits_length base.toNat (itoa_j i base) pad
      obtain ⟨S1, S2⟩ := shbt_itoa_spec i buf size base pad hsz hb2 hb16 hpos
      unfold num_digits
      constructor
      · intro h
        refine ⟨hb2, hb16, ?_⟩
        by_contra hc
        have := (S2 (by omega)).1
        rw [h] at this
        exact absurd this (by decide)
      · intro h
        exact (S1 (by omega)).1

theorem take_getElem (b : Buffer) (n k : Nat) (h : k < n) :
    (b.take n)[k]? = some (b.mem k) := by
  simp [Buffer.take, List.getElem?_range h, h]

/-- A buffer holds at most one C string. -/
theorem holds_unique (b : Buffer) (s t : List Char) (hs : b.holds s) (ht : b.holds t) :
    s = t := by
  obtain ⟨s1, s2, s3⟩ := hs
  obtain ⟨t1, t2, t3⟩ := ht
  have key : ∀ (u v : List Char), b.take v.length = v → b.mem u.length = NUL → NUL ∉ v →
      ¬ u.length < v.length := by
    intro u v hv hu hn hlt
    have h1 := take_getElem b v.length u.length hlt
    rw [hv, hu] at h1
    exact hn (List.getElem?_mem h1)
  have hlen : s.length = t.length := by
    have h1 := key s t t1 s2 t3
    have h2 := key t s s1 t2 s3
    omega
  rw [← s1, ← t1, hlen]

theorem digit_value_digitChar (d : Nat) (h : d < 16) :
    digit_value (Nat.digitChar d) = some d := by
  interval_cases d <;> decide

theorem digitChar_ne_minus (d : Nat) (h : d < 16) : Nat.digitChar d ≠ '-' := by
  interval_cases d <;> decide

theorem parse_digits_map (base : Nat) (hb16 : base ≤ 16) :
    ∀ (ds : List Nat) (acc : Nat), (∀ d ∈ ds, d < base) →
      parse_digits base (ds.map Nat.digitChar) acc
        = some (ds.foldl (fun a d => a * base + d) acc) := by
  intro ds
  induction ds with
  | nil => intro acc _; rfl
  | cons d ds ih =>
    intro acc h
    have hd : d < base := h d (List.mem_cons_self d ds)
    simp only [List.map_cons, parse_digits, digit_value_digitChar d (by omega), if_pos hd,
      List.foldl_cons]
    exact ih _ (fun x hx => h x (List.mem_cons_of_mem d hx))

theorem foldl_reverse_ofDigits (base : Nat) (L : List Nat) :
    L.reverse.foldl (fun a d => a * base + d) 0 = Nat.ofDigits base L := by
  induction L with
  | nil => rfl
  | cons d L ih =>
    rw [List.reverse_cons, List.foldl_append, ih, Nat.ofDigits_cons]
    simp only [List.foldl_cons, List.foldl_nil]
    ring

theorem lsd_digits_lt (base j pad : Nat) (hb : 2 ≤ base) :
    ∀ d ∈ lsd_digits base j pad, d < base := by
  intro d hd
  simp only [lsd_digits, List.mem_append, List.mem_replicate] at hd
  rcases hd with hd | hd
  · exact Nat.digits_lt_base hb hd
  · omega

theorem ofDigits_lsd_digits (base j pad : Nat) :
    Nat.ofDigits base (lsd_digits base j pad) = j := by
  have hz : ∀ n : Nat, Nat.ofDigits base (List.replicate n 0) = 0 := by
    intro n
    induction n with
    | zero => rfl
    | succ n ih => rw [List.replicate_succ, Nat.ofDigits_cons, ih]; simp
  rw [lsd_digits, Nat.ofDigits_append, hz, Nat.ofDigits_digits]
  simp

theorem lsd_digits_digitChars (base j pad : Nat) :
    (lsd_digits base j pad).reverse.map Nat.digitChar
      = List.replicate (max pad 1 - (Nat.digits base j).length) '0' ++ msd_chars base j := by
  simp only [lsd_digits, msd_chars, List.reverse_append, List.reverse_replicate, List.map_append,
    List.map_replicate]
  rfl

/-- Parsing the digits written for `j` gives `j` back. -/
theorem parse_digits_out (base j pad : Nat) (hb : 2 ≤ base) (hb16 : base ≤ 16) :
    parse_digits base
      (List.replicate (max pad 1 - (Nat.digits base j).length) '0' ++ msd_chars base j) 0
      = some j := by
  rw [← lsd_digits_digitChars, parse_digits_map base hb16 _ 0
    (fun d hd => lsd_digits_lt base j pad hb d (List.mem_reverse.mp hd)),
    foldl_reverse_ofDigits, ofDigits_lsd_digits]

theorem out_digits_ne_nil (base j pad : Nat) :
    List.replicate (max pad 1 - (Nat.digits base j).length) '0' ++ msd_chars base j ≠ [] := by
  intro h
  have hl := congrArg List.length h
  rw [List.length_append, List.length_replicate, msd_chars_length] at hl
  unfold num_digits at hl
  simp only [List.length_nil] at hl
  omega

theorem out_digits_head_ne_minus (base j pad : Nat) (hb : 2 ≤ base) (hb16 : base ≤ 16)
    (c : Char) (cs : List Char)
    (h : List.replicate (max pad 1 - (Nat.digits base j).length) '0' ++ msd_chars base j
      = c :: cs) : c ≠ '-' := by
  have hc : c ∈ (lsd_digits base j pad).reverse.map Nat.digitChar := by
    rw [lsd_digits_digitChars, h]
    exact List.mem_cons_self c cs
  obtain ⟨d, hd, rfl⟩ := List.mem_map.mp hc
  have := lsd_digits_lt base j pad hb d (List.mem_reverse.mp hd)
  exact digitChar_ne_minus d (by omega)

/-- Parsing the whole output: the sign, if any, negates the value of the digits. -/
theorem parse_numeral_out (i base : Int) (pad : Nat) (hb2 : 2 ≤ base) (hb16 : base ≤ 16) :
    parse_numeral base.toNat
      (sign_chars i base
        ++ (List.replicate (max pad 1 - (Nat.digits base.toNat (itoa_j i base)).length) '0'
        ++ msd_chars base.toNat (itoa_j i base)))
      = some (if i < 0 ∧ base = 10 then -(itoa_j i base : Int) else (itoa_j i base : Int)) := by
  have hb : 2 ≤ base.toNat := by omega
  have hb16n : base.toNat ≤ 16 := by omega
  have hp := parse_digits_out base.toNat (itoa_j i base) pad hb hb16n
  have hne := out_digits_ne_nil base.toNat (itoa_j i base) pad
  by_cases hneg : i < 0 ∧ base = 10
  · rw [if_pos hneg]
    unfold sign_chars
    rw [if_pos hneg, List.singleton_append]
    unfold parse_numeral
    simp only [if_true, if_neg hne, hp, Option.map_some']
  · rw [if_neg hneg]
    unfold sign_chars
    rw [if_neg hneg, List.nil_append]
    rcases hout : (List.replicate (max pad 1 - (Nat.digits base.toNat (itoa_j i base)).length) '0'
        ++ msd_chars base.toNat (itoa_j i base)) with _ | ⟨c, cs⟩
    · exact absurd hout hne
    · have hc := out_digits_head_ne_minus base.toNat (itoa_j i base) pad hb hb16n c cs hout
      rw [hout] at hp
      unfold parse_numeral
      simp only [if_neg hc, hp, Option.map_some']

/-- The value of the converted `j`, read with its sign. -/
theorem itoa_j_value (i base : Int) (hmin : INTPTR_MIN ≤ i) (hmax : i ≤ INTPTR_MAX) :
    (if i < 0 ∧ base = 10 then -(itoa_j i base : Int) else (itoa_j i base : Int))
      = if i < 0 ∧ base ≠ 10 then i + 2 ^ 64 else i := by
  unfold itoa_j
  by_cases hneg : i < 0 ∧ base = 10
  · rw [if_pos hneg, if_pos hneg, if_neg (by omega), neg_magnitude_eq i hmin hneg.1]
    omega
  · rw [if_neg hneg, if_neg hneg]
    by_cases hi : i < 0
    · rw [if_pos ⟨hi, fun h => hneg ⟨hi, h⟩⟩]
      exact to_uintptr_neg i hmin hi
    · rw [if_neg (fun h => hi h.1), to_uintptr_nonneg i (by omega) hmax]
      omega

/-- With a buffer that fits, the call succeeds and the string it leaves parses
to the value of `i`, read modulo `2^64` when no sign is written. -/
theorem shbt_itoa_parse (i : Int) (buf : Buffer) (size : Nat) (base : Int) (pad : Nat)
    (hmin : INTPTR_MIN ≤ i) (hmax : i ≤ INTPTR_MAX) (hb2 : 2 ≤ base) (hb16 : base ≤ 16)
    (hsz : size < SIZE_MAX)
    (hfit : itoa_start i base
      + max (Nat.digits base.toNat (itoa_j i base)).length (max pad 1) + 1 ≤ size) :
    (shbt_itoa i buf size base pad).ret = true ∧
    (∃ s, (shbt_itoa i buf size base pad).buf.holds s) ∧
    (∀ s, (shbt_itoa i buf size base pad).buf.holds s →
      parse_numeral base.toNat s = some (if i < 0 ∧ base ≠ 10 then i + 2 ^ 64 else i)) := by
  obtain ⟨a1, a2, _⟩ := shbt_itoa_holds i buf size base pad hsz hb2 hb16 hfit
  refine ⟨a1, ⟨_, a2⟩, fun s hs => ?_⟩
  rw [holds_unique _ _ _ hs a2, parse_numeral_out i base pad hb2 hb16,
    itoa_j_value i base hmin hmax]

theorem itoa_j_eq (i base : Int) (hmin : INTPTR_MIN ≤ i) :
    (if i < 0 ∧ base = 10 then i.natAbs else to_uintptr i) = itoa_j i base := by
  unfold itoa_j
  split
  · next h => rw [neg_magnitude_eq i hmin h.1]
  · rfl

/-! ## shbt_itoa: the claims -/

/-- C2: for a non-negative `i`, a base in 2..16, any pad `k` and a sufficient
size (below `SIZE_MAX`), `shbt_itoa` succeeds and leaves exactly the base-`base` digits of `i`
(characters 0-9a-f, most significant first, no sign) left-padded with `'0'`
to `max k (max d 1)` characters, `d` being the number of digits of `i`; the
output has at least `k` digits, and with `k = 0` it is `"0"` for `i = 0` and
has no leading zero otherwise. -/
theorem itoa_nonneg_digits (i : Int) (buf : Buffer) (size : Nat) (base : Int) (k : Nat)
    (h0 : 0 ≤ i) (hi : i ≤ INTPTR_MAX) (hb2 : 2 ≤ base) (hb16 : base ≤ 16)
    (hsz : size < SIZE_MAX)
    (hfit : max k (max (num_digits base.toNat i.toNat) 1) + 1 ≤ size) :
    (shbt_itoa i buf size base k).ret = true ∧
    (shbt_itoa i buf size base k).buf.holds
      (List.replicate (max k (max (num_digits base.toNat i.toNat) 1)
          - num_digits base.toNat i.toNat) '0' ++ msd_chars base.toNat i.toNat) ∧
    (List.replicate (max k (max (num_digits base.toNat i.toNat) 1)
          - num_digits base.toNat i.toNat) '0' ++ msd_chars base.toNat i.toNat).length
      = max k (max (num_digits base.toNat i.toNat) 1) ∧
    k ≤ (List.replicate (max k (max (num_digits base.toNat i.toNat) 1)
          - num_digits base.toNat i.toNat) '0' ++ msd_chars base.toNat i.toNat).length ∧
    (k = 0 → i = 0 →
      List.replicate (max k (max (num_digits base.toNat i.toNat) 1)
          - num_digits base.toNat i.toNat) '0' ++ msd_chars base.toNat i.toNat = ['0']) ∧
    (k = 0 → i ≠ 0 →
      (List.replicate (max k (max (num_digits base.toNat i.toNat) 1)
          - num_digits base.toNat i.toNat) '0' ++ msd_chars base.toNat i.toNat).head?
        ≠ some '0') := by
  have hb : 2 ≤ base.toNat := by omega
  have hb16n : base.toNat ≤ 16 := by omega
  have hneg : ¬ (i < 0 ∧ base = 10) := by omega
  have hs : itoa_start i base = 0 := by simp [itoa_start, hneg]
  have hj : itoa_j i base = i.toNat := by
    simp only [itoa_j, if_neg hneg]
    exact to_uintptr_nonneg i h0 hi
  have hsign : sign_chars i base = [] := by simp [sign_chars, hneg]
  have hpad : max k (max (num_digits base.toNat i.toNat) 1) - num_digits base.toNat i.toNat
      = max k 1 - (Nat.digits base.toNat i.toNat).length := by
    unfold num_digits; omega
  obtain ⟨a1, a2, _⟩ := shbt_itoa_holds i buf size base k hsz hb2 hb16
    (by rw [hs, hj]; unfold num_digits at hfit; omega)
  rw [hsign, hj, List.nil_append] at a2
  rw [hpad]
  have hlen : (List.replicate (max k 1 - (Nat.digits base.toNat i.toNat).length) '0'
      ++ msd_chars base.toNat i.toNat).length
      = max k (max (num_digits base.toNat i.toNat) 1) := by
    rw [List.length_append, List.length_replicate, msd_chars_length]
    unfold num_digits; omega
  refine ⟨a1, a2, hlen, by rw [hlen]; omega, fun hk hi0 => ?_, fun hk hi0 => ?_⟩
  · subst hk; subst hi0
    simp [msd_chars]
  · subst hk
    have hj0 : i.toNat ≠ 0 := by omega
    have hd : 0 < (Nat.digits base.toNat i.toNat).length :=
      List.length_pos.mpr (Nat.digits_ne_nil_iff_ne_zero.mpr hj0)
    have e : max 0 1 - (Nat.digits base.toNat i.toNat).length = 0 := by omega
    rw [e, List.replicate_zero, List.nil_append]
    exact msd_chars_head _ _ hb hb16n hj0

/-- Witness for C2: 255 at base 16 with pad 12 in a 13-byte buffer. -/
theorem itoa_nonneg_digits_witness :
    (shbt_itoa 255 fresh 13 16 12).ret = true ∧
    (shbt_itoa 255 fresh 13 16 12).buf.holds "0000000000ff".toList := by
  have h := itoa_nonneg_digits 255 fresh 13 16 12 (by decide) (by decide) (by decide)
    (by decide) (by decide)
    (by rw [show (16 : Int).toNat = 16 from rfl, show (255 : Int).toNat = 255 from rfl]
        norm_num [num_digits])
  refine ⟨h.1, ?_⟩
  have h2 := h.2.1
  have e : List.replicate (max 12 (max (num_digits (16 : Int).toNat (255 : Int).toNat) 1)
      - num_digits (16 : Int).toNat (255 : Int).toNat) '0'
      ++ msd_chars (16 : Int).toNat (255 : Int).toNat = "0000000000ff".toList := by
    rw [show (16 : Int).toNat = 16 from rfl, show (255 : Int).toNat = 255 from rfl]
    norm_num [num_digits, msd_chars]
    decide
  rw [e] at h2
  exact h2

/-- C3: for a negative `i` at base 10 (any pad, sufficient size below
`SIZE_MAX`) the magnitude
`((uintptr_t) (-(i + 1))) + 1` is computed without signed overflow and equals
`|i|`, and `shbt_itoa` leaves `'-'` followed by the decimal digits of `|i|`
zero-padded to at least `pad` digits; `INTPTR_MIN` gives
`"-9223372036854775808"`. -/
theorem itoa_negative_decimal (i : Int) (buf : Buffer) (size pad : Nat)
    (hi : INTPTR_MIN ≤ i) (hneg : i < 0) (hsz : size < SIZE_MAX)
    (hfit : 1 + max pad (num_digits 10 i.natAbs) + 1 ≤ size) :
    (INTPTR_MIN ≤ i + 1 ∧ i + 1 ≤ INTPTR_MAX) ∧
    (INTPTR_MIN ≤ -(i + 1) ∧ -(i + 1) ≤ INTPTR_MAX) ∧
    neg_magnitude i = i.natAbs ∧
    (shbt_itoa i buf size 10 pad).ret = true ∧
    (shbt_itoa i buf size 10 pad).buf.holds
      ('-' :: (List.replicate (max pad (num_digits 10 i.natAbs) - num_digits 10 i.natAbs) '0'
        ++ msd_chars 10 i.natAbs)) ∧
    pad ≤ (List.replicate (max pad (num_digits 10 i.natAbs) - num_digits 10 i.natAbs) '0'
        ++ msd_chars 10 i.natAbs).length ∧
    (i = INTPTR_MIN → pad ≤ 19 →
      (shbt_itoa i buf size 10 pad).buf.holds "-9223372036854775808".toList) := by
  have hcond : i < 0 ∧ (10 : Int) = 10 := ⟨hneg, rfl⟩
  have hmag := neg_magnitude_eq i hi hneg
  have hs : itoa_start i 10 = 1 := by simp [itoa_start, hneg]
  have hj : itoa_j i 10 = i.natAbs := by
    unfold itoa_j
    rw [if_pos hcond]
    exact hmag
  have hsign : sign_chars i 10 = ['-'] := by simp [sign_chars, hneg]
  have hd : 0 < num_digits 10 i.natAbs := by
    unfold num_digits
    exact List.length_pos.mpr (Nat.digits_ne_nil_iff_ne_zero.mpr (by omega))
  have hpad : max pad (num_digits 10 i.natAbs) - num_digits 10 i.natAbs
      = max pad 1 - (Nat.digits 10 i.natAbs).length := by
    unfold num_digits at hd ⊢; omega
  obtain ⟨a1, a2, _⟩ := shbt_itoa_holds i buf size 10 pad hsz (by decide) (by decide)
    (by rw [hs, hj, show (10 : Int).toNat = 10 from rfl]; unfold num_digits at hfit hd; omega)
  rw [hsign, hj, show (10 : Int).toNat = 10 from rfl, ← hpad, List.singleton_append] at a2
  have hrange : (INTPTR_MIN ≤ i + 1 ∧ i + 1 ≤ INTPTR_MAX) ∧
      (INTPTR_MIN ≤ -(i + 1) ∧ -(i + 1) ≤ INTPTR_MAX) := by
    simp only [INTPTR_MIN, INTPTR_MAX] at *
    omega
  refine ⟨hrange.1, hrange.2, hmag, a1, a2, ?_, fun hmin hp => ?_⟩
  · rw [List.length_append, List.length_replicate, msd_chars_length]
    omega
  · subst hmin
    have e : ('-' :: (List.replicate
        (max pad (num_digits 10 INTPTR_MIN.natAbs) - num_digits 10 INTPTR_MIN.natAbs) '0'
        ++ msd_chars 10 INTPTR_MIN.natAbs)) = "-9223372036854775808".toList := by
      have hn : INTPTR_MIN.natAbs = 9223372036854775808 := by
        unfold INTPTR_MIN; norm_num
      have hnd : num_digits 10 9223372036854775808 = 19 := by norm_num [num_digits]
      have hz : max pad 19 - 19 = 0 := by omega
      rw [hn, hnd, hz]
      norm_num [msd_chars]
      decide
    rw [e] at a2
    exact a2

/-- Witness for C3: `INTPTR_MIN` at base 10 in a 64-byte buffer. -/
theorem itoa_negative_decimal_witness :
    neg_magnitude INTPTR_MIN = 9223372036854775808 ∧
    (shbt_itoa INTPTR_MIN fresh 64 10 0).ret = true ∧
    (shbt_itoa INTPTR_MIN fresh 64 10 0).buf.holds "-9223372036854775808".toList := by
  have hn : INTPTR_MIN.natAbs = 9223372036854775808 := by
    unfold INTPTR_MIN; norm_num
  have h := itoa_negative_decimal INTPTR_MIN fresh 64 0 (le_refl _)
    (by unfold INTPTR_MIN; norm_num) (by unfold SIZE_MAX; norm_num)
    (by rw [hn, show num_digits 10 9223372036854775808 = 19 from by norm_num [num_digits]]
        decide)
  exact ⟨h.2.2.1.trans hn, h.2.2.2.1, h.2.2.2.2.2.2 rfl (by norm_num)⟩

/-- C4: for every size below `SIZE_MAX`, `shbt_itoa` returns `buf` if and
only if the base is in 2..16 and
`size >= s + max(d, pad, 1) + 1`, with `s = 1` for a negative `i` at base 10
and `s = 0` otherwise, and `d` the number of digits of the magnitude written
(`|i|` after a sign, `i` as `uintptr_t` otherwise); in every other case it
returns `NULL`. -/
theorem itoa_success_iff (i : Int) (buf : Buffer) (size : Nat) (base : Int) (pad : Nat)
    (hi : INTPTR_MIN ≤ i) (hsz : size < SIZE_MAX) :
    ((shbt_itoa i buf size base pad).ret = true ↔
      (2 ≤ base ∧ base ≤ 16 ∧
        (if i < 0 ∧ base = 10 then 1 else 0)
          + max (num_digits base.toNat
              (if i < 0 ∧ base = 10 then i.natAbs else to_uintptr i)) (max pad 1) + 1
          ≤ size)) ∧
    (¬ (2 ≤ base ∧ base ≤ 16 ∧
        (if i < 0 ∧ base = 10 then 1 else 0)
          + max (num_digits base.toNat
              (if i < 0 ∧ base = 10 then i.natAbs else to_uintptr i)) (max pad 1) + 1
          ≤ size) →
      (shbt_itoa i buf size base pad).ret = false) := by
  have hj : (if i < 0 ∧ base = 10 then i.natAbs else to_uintptr i) = itoa_j i base := by
    unfold itoa_j
    split
    · next h => rw [neg_magnitude_eq i hi h.1]
    · rfl
  have hs : (if i < 0 ∧ base = 10 then 1 else 0) = itoa_start i base := rfl
  rw [hj, hs]
  have key := shbt_itoa_ret_iff i buf size base pad hsz
  refine ⟨key, fun h => ?_⟩
  cases hr : (shbt_itoa i buf size base pad).ret
  · rfl
  · exact absurd (key.mp hr) h

/-- Witness for C4: -5 at base 10 needs three bytes; a 3-byte buffer succeeds. -/
theorem itoa_success_iff_witness :
    (shbt_itoa (-5) fresh 3 10 0).ret = true := by
  have h := (itoa_success_iff (-5) fresh 3 10 0 (by unfold INTPTR_MIN; norm_num)
    (by unfold SIZE_MAX; norm_num)).1
  apply h.mpr
  refine ⟨by decide, by decide, ?_⟩
  rw [if_pos (by decide), if_pos (by decide), show (10 : Int).toNat = 10 from rfl,
    show (-5 : Int).natAbs = 5 from rfl,
    show num_digits 10 5 = 1 from by norm_num [num_digits]]
  decide

/-- C5, counterexample: with `size = 0` the call fails and `buf[0]` keeps its
old character, so the buffer is not left empty. -/
theorem itoa_fail_size_zero_counterexample :
    (shbt_itoa 5 fresh 0 10 0).ret = false ∧ (shbt_itoa 5 fresh 0 10 0).buf.mem 0 = 'x' ∧
    (shbt_itoa 5 fresh 0 10 0).buf.mem 0 ≠ NUL := by
  rw [shbt_itoa_size_zero]
  exact ⟨rfl, rfl, by decide⟩

/-- C5, amended: whenever `shbt_itoa` fails with `1 <= size < SIZE_MAX` the
buffer is left
holding the empty string (`buf[0] = NUL`); with `size = 0` it fails without
touching the buffer. -/
theorem itoa_fail_empty (i : Int) (buf : Buffer) (size : Nat) (base : Int) (pad : Nat)
    (hsz : size < SIZE_MAX) (hfail : (shbt_itoa i buf size base pad).ret = false) :
    (0 < size → (shbt_itoa i buf size base pad).buf.holds [] ∧
      (shbt_itoa i buf size base pad).buf.mem 0 = NUL) ∧
    (size = 0 → (shbt_itoa i buf size base pad).buf = buf) := by
  refine ⟨fun hpos => ?_, fun h0 => ?_⟩
  · have hm : (shbt_itoa i buf size base pad).buf.mem 0 = NUL := by
      by_cases hbase : base < 2 ∨ base > 16
      · rw [shbt_itoa_bad_base i buf size base pad hpos hbase]
        simp [store_mem]
      · obtain ⟨S1, S2⟩ := shbt_itoa_spec i buf size base pad hsz (by omega) (by omega) hpos
        by_cases hfit : itoa_start i base
            + (lsd_digits base.toNat (itoa_j i base) pad).length + 1 ≤ size
        · have := (S1 hfit).1
          rw [hfail] at this
          exact absurd this (by decide)
        · exact (S2 (by omega)).2.1
    exact ⟨holds_nil _ hm, hm⟩
  · subst h0
    rw [shbt_itoa_size_zero]

/-- Witness for C5 (amended): 255 at base 16 with pad 12 does not fit 12 bytes. -/
theorem itoa_fail_empty_witness :
    (shbt_itoa 255 fresh 12 16 12).ret = false ∧
    (shbt_itoa 255 fresh 12 16 12).buf.mem 0 = NUL := by
  have hr : (shbt_itoa 255 fresh 12 16 12).ret = false := by
    cases hc : (shbt_itoa 255 fresh 12 16 12).ret
    · rfl
    · have h := ((shbt_itoa_ret_iff 255 fresh 12 16 12
        (by unfold SIZE_MAX; norm_num)).mp hc).2.2
      omega
  exact ⟨hr, ((itoa_fail_empty 255 fresh 12 16 12 (by unfold SIZE_MAX; norm_num) hr).1
    (by decide)).2⟩

/-- C6: for every value, base, pad and size below `SIZE_MAX`, `shbt_itoa`
stores only at offsets below `size`
(nothing at or past `buf[size]`), stores nothing when `size = 0`, and on
success leaves a NUL-terminated string of length strictly less than `size`. -/
theorem itoa_writes_in_bounds (i : Int) (buf : Buffer) (size : Nat) (base : Int) (pad : Nat)
    (hsz : size < SIZE_MAX) :
    (∀ x ∈ (shbt_itoa i buf size base pad).buf.stores, x ∈ buf.stores ∨ x < size) ∧
    (buf.stores = [] → ∀ x ∈ (shbt_itoa i buf size base pad).buf.stores, x < size) ∧
    (size = 0 → (shbt_itoa i buf size base pad).buf = buf) ∧
    ((shbt_itoa i buf size base pad).ret = true →
      ∃ s, (shbt_itoa i buf size base pad).buf.holds s ∧ s.length < size) := by
  have h1 : ∀ x ∈ (shbt_itoa i buf size base pad).buf.stores, x ∈ buf.stores ∨ x < size := by
    rcases Nat.eq_zero_or_pos size with h0 | hpos
    · subst h0
      rw [shbt_itoa_size_zero]
      intro x hx
      exact Or.inl hx
    · by_cases hbase : base < 2 ∨ base > 16
      · rw [shbt_itoa_bad_base i buf size base pad hpos hbase]
        intro x hx
        simp only [store_stores, List.mem_cons] at hx
        rcases hx with hx | hx
        · right; omega
        · left; exact hx
      · obtain ⟨S1, S2⟩ := shbt_itoa_spec i buf size base pad hsz (by omega) (by omega) hpos
        by_cases hfit : itoa_start i base
            + (lsd_digits base.toNat (itoa_j i base) pad).length + 1 ≤ size
        · intro x hx
          rcases (S1 hfit).2.2 x hx with h | h
          · left; exact h
          · right; omega
        · exact (S2 (by omega)).2.2
  refine ⟨h1, fun he x hx => ?_, fun h0 => ?_, fun hr => ?_⟩
  · rcases h1 x hx with h | h
    · rw [he] at h
      simp at h
    · exact h
  · subst h0
    rw [shbt_itoa_size_zero]
  · obtain ⟨hb2, hb16, hfit⟩ := (shbt_itoa_ret_iff i buf size base pad hsz).mp hr
    unfold num_digits at hfit
    refine ⟨_, (shbt_itoa_holds i buf size base pad hsz hb2 hb16 hfit).2.1, ?_⟩
    rw [out_length]
    omega

/-- Witness for C6: a failing call on a 2-byte buffer stores below offset 2,
and a call with `size = 0` leaves the buffer as it was. -/
theorem itoa_writes_in_bounds_witness :
    (shbt_itoa (-5) fresh 2 10 0).buf.stores.all (fun x => decide (x < 2)) = true ∧
    (shbt_itoa (-5) fresh 0 10 0).buf = fresh :=
  ⟨List.all_eq_true.mpr (fun x hx => decide_eq_true
      ((itoa_writes_in_bounds (-5) fresh 2 10 0 (by unfold SIZE_MAX; norm_num)).2.1 rfl x hx)),
    (itoa_writes_in_bounds (-5) fresh 0 10 0 (by unfold SIZE_MAX; norm_num)).2.2.1 rfl⟩

theorem digits16_max : Nat.digits 16 18446744073709551615
    = [15, 15, 15, 15, 15, 15, 15, 15, 15, 15, 15, 15, 15, 15, 15, 15] := by norm_num

theorem itoa_j_minus_one : itoa_j (-1) 16 = 18446744073709551615 := by
  have h := to_uintptr_neg (-1) (by unfold INTPTR_MIN; norm_num) (by norm_num)
  have e : itoa_j (-1) 16 = to_uintptr (-1) := by
    unfold itoa_j
    rw [if_neg (by decide)]
  rw [e]
  omega

theorem itoa_minus_one_fit :
    itoa_start (-1) 16
      + max (Nat.digits (16 : Int).toNat (itoa_j (-1) 16)).length (max 0 1) + 1 ≤ 32 := by
  have hs : itoa_start (-1) 16 = 0 := by
    unfold itoa_start
    rw [if_neg (by decide)]
  rw [hs, itoa_j_minus_one, show (16 : Int).toNat = 16 from rfl, digits16_max]
  decide

theorem itoa_minus_one_out :
    sign_chars (-1) 16
      ++ (List.replicate (max 0 1 - (Nat.digits (16 : Int).toNat (itoa_j (-1) 16)).length) '0'
      ++ msd_chars (16 : Int).toNat (itoa_j (-1) 16)) = "ffffffffffffffff".toList := by
  rw [itoa_j_minus_one, show (16 : Int).toNat = 16 from rfl]
  unfold msd_chars sign_chars
  rw [digits16_max]
  decide

/-- C1, counterexample: -1 at base 16 is written as `ffffffffffffffff`, and no
string held by the buffer parses to -1. -/
theorem itoa_roundtrip_counterexample :
    (shbt_itoa (-1) fresh 32 16 0).ret = true ∧
    (shbt_itoa (-1) fresh 32 16 0).buf.holds "ffffffffffffffff".toList ∧
    ¬ ∃ s, (shbt_itoa (-1) fresh 32 16 0).buf.holds s ∧ parse_numeral 16 s = some (-1) := by
  obtain ⟨a1, _, a3⟩ := shbt_itoa_parse (-1) fresh 32 16 0 (by unfold INTPTR_MIN; norm_num)
    (by unfold INTPTR_MAX; norm_num) (by decide) (by decide) (by unfold SIZE_MAX; norm_num)
    itoa_minus_one_fit
  have a2 := (shbt_itoa_holds (-1) fresh 32 16 0 (by unfold SIZE_MAX; norm_num) (by decide)
    (by decide) itoa_minus_one_fit).2.1
  rw [itoa_minus_one_out] at a2
  refine ⟨a1, a2, ?_⟩
  rintro ⟨s, h1, h2⟩
  have h3 := a3 s h1
  rw [show (16 : Int).toNat = 16 from rfl, h2] at h3
  rw [if_pos (by decide)] at h3
  norm_num at h3

/-- C1, amended: for every `intptr_t` value `i` and base in 2..16, with
`pad = 0` and a buffer large enough for the result (of a size below
`SIZE_MAX`), `shbt_itoa` succeeds and
parsing its output as a base-`base` numeral gives `i` when `i >= 0` or the base
is 10, and `i + 2^64` (the value of `i` as `uintptr_t`) for a negative `i` at
another base. -/
theorem itoa_parse_roundtrip (i : Int) (buf : Buffer) (size : Nat) (base : Int)
    (hmin : INTPTR_MIN ≤ i) (hmax : i ≤ INTPTR_MAX) (hb2 : 2 ≤ base) (hb16 : base ≤ 16)
    (hsz : size < SIZE_MAX)
    (hfit : (if i < 0 ∧ base = 10 then 1 else 0)
      + max (num_digits base.toNat (if i < 0 ∧ base = 10 then i.natAbs else to_uintptr i)) 1
      + 1 ≤ size) :
    (shbt_itoa i buf size base 0).ret = true ∧
    (∃ s, (shbt_itoa i buf size base 0).buf.holds s ∧
      parse_numeral base.toNat s = some (if i < 0 ∧ base ≠ 10 then i + 2 ^ 64 else i)) ∧
    ((0 ≤ i ∨ base = 10) →
      ∃ s, (shbt_itoa i buf size base 0).buf.holds s ∧ parse_numeral base.toNat s = some i) := by
  rw [itoa_j_eq i base hmin] at hfit
  have hfit2 : itoa_start i base
      + max (Nat.digits base.toNat (itoa_j i base)).length (max 0 1) + 1 ≤ size := by
    have : itoa_start i base = (if i < 0 ∧ base = 10 then 1 else 0) := rfl
    unfold num_digits at hfit
    omega
  obtain ⟨a1, ⟨s, hs⟩, a3⟩ := shbt_itoa_parse i buf size base 0 hmin hmax hb2 hb16 hsz hfit2
  refine ⟨a1, ⟨s, hs, a3 s hs⟩, fun h => ⟨s, hs, ?_⟩⟩
  rw [a3 s hs, if_neg (by omega)]

/-- Witness for C1 (amended): `INTPTR_MIN` at base 10 in a 21-byte buffer. -/
theorem itoa_parse_roundtrip_witness :
    (shbt_itoa INTPTR_MIN fresh 21 10 0).ret = true ∧
    ∃ s, (shbt_itoa INTPTR_MIN fresh 21 10 0).buf.holds s ∧
      parse_numeral 10 s = some INTPTR_MIN := by
  have hn : INTPTR_MIN.natAbs = 9223372036854775808 := by
    unfold INTPTR_MIN; norm_num
  have hneg : INTPTR_MIN < 0 ∧ (10 : Int) = 10 := ⟨by unfold INTPTR_MIN; norm_num, rfl⟩
  have h := itoa_parse_roundtrip INTPTR_MIN fresh 21 10 (le_refl _)
    (by unfold INTPTR_MIN INTPTR_MAX; norm_num) (by decide) (by decide)
    (by unfold SIZE_MAX; norm_num)
    (by rw [if_pos hneg, if_pos hneg, hn, show (10 : Int).toNat = 10 from rfl,
          show num_digits 10 9223372036854775808 = 19 from by norm_num [num_digits]]
        decide)
  exact ⟨h.1, h.2.2 (Or.inr rfl)⟩


/-! ## Signal registry: auxiliary facts -/

theorem update_info_nil (idx : Nat) (f : shbt_signal_info → shbt_signal_info) :
    update_info [] idx f = [] := by
  simp [update_info]

theorem update_info_zero (e : shbt_signal_info) (rest : List shbt_signal_info)
    (f : shbt_signal_info → shbt_signal_info) :
    update_info (e :: rest) 0 f = f e :: rest := by
  simp [update_info]

theorem update_info_succ (e : shbt_signal_info) (rest : List shbt_signal_info) (k : Nat)
    (f : shbt_signal_info → shbt_signal_info) :
    update_info (e :: rest) (k + 1) f = e :: update_info rest k f := by
  unfold update_info
  simp only [List.getElem?_cons_succ]
  cases rest[k]? <;> simp

/-- Updating a field other than the number and the name does not change what
`shbt_get_signal_info` finds. -/
theorem get_update_info (sig : Int) (f : shbt_signal_info → shbt_signal_info)
    (hnum : ∀ e, (f e).sig_num = e.sig_num) (hname : ∀ e, (f e).sig_name = e.sig_name) :
    ∀ (tbl : List shbt_signal_info) (idx : Nat),
      shbt_get_signal_info sig (update_info tbl idx f) = shbt_get_signal_info sig tbl := by
  intro tbl
  induction tbl with
  | nil => intro idx; rw [update_info_nil]
  | cons e rest ih =>
    intro idx
    cases idx with
    | zero =>
      rw [update_info_zero]
      simp only [shbt_get_signal_info, hnum, hname]
    | succ k =>
      rw [update_info_succ]
      simp only [shbt_get_signal_info, ih k]

theorem update_info_get_same (f : shbt_signal_info → shbt_signal_info) :
    ∀ (tbl : List shbt_signal_info) (idx : Nat),
      (update_info tbl idx f)[idx]? = (tbl[idx]?).map f := by
  intro tbl
  induction tbl with
  | nil => intro idx; rw [update_info_nil]; simp
  | cons e rest ih =>
    intro idx
    cases idx with
    | zero => rw [update_info_zero]; simp
    | succ k => rw [update_info_succ]; simp [ih k]

theorem update_info_get_other (f : shbt_signal_info → shbt_signal_info) :
    ∀ (tbl : List shbt_signal_info) (idx k : Nat), k ≠ idx →
      (update_info tbl idx f)[k]? = tbl[k]? := by
  intro tbl
  induction tbl with
  | nil => intro idx k _; rw [update_info_nil]
  | cons e rest ih =>
    intro idx k hk
    cases idx with
    | zero =>
      rw [update_info_zero]
      cases k with
      | zero => exact absurd rfl hk
      | succ k => simp
    | succ i =>
      rw [update_info_succ]
      cases k with
      | zero => simp
      | succ k => simp [ih i k (by omega)]

/-- The index `shbt_get_signal_info` returns is that of an entry before the
terminator carrying the requested number. -/
theorem get_signal_info_some (sig : Int) :
    ∀ (tbl : List shbt_signal_info) (idx : Nat), shbt_get_signal_info sig tbl = some idx →
      ∃ e, tbl[idx]? = some e ∧ e.sig_num = sig ∧ e.sig_name ≠ none := by
  intro tbl
  induction tbl with
  | nil => intro idx h; simp [shbt_get_signal_info] at h
  | cons e rest ih =>
    intro idx h
    unfold shbt_get_signal_info at h
    by_cases hn : e.sig_name = none
    · rw [if_pos hn] at h; exact absurd h (by simp)
    · rw [if_neg hn] at h
      by_cases hs : e.sig_num = sig
      · rw [if_pos hs] at h
        have : idx = 0 := by injection h with h; exact h.symm
        subst this
        exact ⟨e, by simp, hs, hn⟩
      · rw [if_neg hs] at h
        rcases hr : shbt_get_signal_info sig rest with _ | k
        · rw [hr] at h; simp at h
        · rw [hr] at h
          have : idx = k + 1 := by
            simp only [Option.map_some', Option.some.injEq] at h
            exact h.symm
          subst this
          obtain ⟨e1, h1, h2, h3⟩ := ih k hr
          exact ⟨e1, by simpa using h1, h2, h3⟩

theorem strncmp_eq_iff :
    ∀ (t s : List Char), strncmp_eq s t t.length = true ↔ t <+: s := by
  intro t
  induction t with
  | nil => intro s; simp [strncmp_eq]
  | cons d ds ih =>
    intro s
    cases s with
    | nil => simp [strncmp_eq]
    | cons c cs =>
      simp only [List.length_cons, strncmp_eq, List.cons_prefix_cons]
      by_cases hc : c = d
      · rw [if_pos hc, ih cs]
        constructor
        · intro h; exact ⟨hc.symm, h⟩
        · intro h; exact h.2
      · rw [if_neg hc]
        constructor
        · intro h; exact absurd h (by simp)
        · intro h; exact absurd h.1.symm hc

theorem descriptor_update_same (st st1 : SignalState) (sig : Int) (idx : Nat)
    (f : shbt_signal_info → shbt_signal_info)
    (hnum : ∀ e, (f e).sig_num = e.sig_num) (hname : ∀ e, (f e).sig_name = e.sig_name)
    (h : shbt_get_signal_info sig st.sig_info = some idx)
    (h1 : st1.sig_info = update_info st.sig_info idx f) :
    shbt_get_signal_info sig st1.sig_info = some idx ∧
    descriptor st1 sig = (descriptor st sig).map f := by
  have hg : shbt_get_signal_info sig st1.sig_info = some idx := by
    rw [h1, get_update_info sig f hnum hname, h]
  refine ⟨hg, ?_⟩
  unfold descriptor
  rw [hg, h]
  simp only
  rw [h1, update_info_get_same]

theorem descriptor_update_other (st st1 : SignalState) (sig sig1 : Int) (idx : Nat)
    (f : shbt_signal_info → shbt_signal_info)
    (hnum : ∀ e, (f e).sig_num = e.sig_num) (hname : ∀ e, (f e).sig_name = e.sig_name)
    (h : shbt_get_signal_info sig st.sig_info = some idx)
    (h1 : st1.sig_info = update_info st.sig_info idx f) (hne : sig1 ≠ sig) :
    descriptor st1 sig1 = descriptor st sig1 := by
  have hg : shbt_get_signal_info sig1 st1.sig_info = shbt_get_signal_info sig1 st.sig_info := by
    rw [h1, get_update_info sig1 f hnum hname]
  unfold descriptor
  rw [hg]
  rcases hk : shbt_get_signal_info sig1 st.sig_info with _ | k
  · rfl
  · simp only
    obtain ⟨e, he, hs, _⟩ := get_signal_info_some sig st.sig_info idx h
    obtain ⟨e1, he1, hs1, _⟩ := get_signal_info_some sig1 st.sig_info k hk
    have hki : k ≠ idx := by
      intro hki
      rw [hki, he] at he1
      injection he1 with he1
      rw [he1] at hs
      exact hne (hs1.symm.trans hs)
    rw [h1, update_info_get_other f _ idx k hki]

theorem descriptor_of_get (st : SignalState) (sig : Int) (idx : Nat)
    (h : shbt_get_signal_info sig st.sig_info = some idx) :
    ∃ e, descriptor st sig = some e ∧ e.sig_num = sig := by
  obtain ⟨e, he, hs, _⟩ := get_signal_info_some sig st.sig_info idx h
  refine ⟨e, ?_, hs⟩
  unfold descriptor
  rw [h]
  exact he

theorem descriptor_none (st : SignalState) (sig : Int)
    (h : shbt_get_signal_info sig st.sig_info = none) : descriptor st sig = none := by
  unfold descriptor
  rw [h]

theorem register_handler_unknown (os : OsCalls) (st : SignalState) (sig a : Int)
    (cb : Option Nat) (h : shbt_get_signal_info sig st.sig_info = none) :
    shbt_register_signal_handler os st sig a cb = (false, st) := by
  unfold shbt_register_signal_handler
  rw [h]

theorem register_handler_rejected (os : OsCalls) (st : SignalState) (sig a : Int)
    (cb : Option Nat) (h : effective_exit_action os.env a = none) :
    shbt_register_signal_handler os st sig a cb = (false, st) := by
  unfold shbt_register_signal_handler
  rcases shbt_get_signal_info sig st.sig_info with _ | idx
  · rfl
  · simp only [h]

/-- The table after a registration whose signal is known and whose override,
if any, is accepted: both fields have been assigned, whatever the OS calls
answer afterwards. -/
theorem register_handler_sig_info (os : OsCalls) (st : SignalState) (sig a0 a : Int)
    (cb : Option Nat) (idx : Nat) (h : shbt_get_signal_info sig st.sig_info = some idx)
    (ha : effective_exit_action os.env a0 = some a) :
    (shbt_register_signal_handler os st sig a0 cb).2.sig_info
      = update_info (update_info st.sig_info idx (fun e => { e with exit_action := a })) idx
          (fun e => { e with callback := cb }) := by
  unfold shbt_register_signal_handler
  rw [h]
  simp only [ha]
  split_ifs <;> rfl

theorem register_handler_descriptor (os : OsCalls) (st : SignalState) (sig a0 a : Int)
    (cb : Option Nat) (idx : Nat) (h : shbt_get_signal_info sig st.sig_info = some idx)
    (ha : effective_exit_action os.env a0 = some a) :
    (∃ e, descriptor st sig = some e ∧
      descriptor (shbt_register_signal_handler os st sig a0 cb).2 sig
        = some { e with exit_action := a, callback := cb }) ∧
    shbt_get_signal_info sig (shbt_register_signal_handler os st sig a0 cb).2.sig_info
      = some idx ∧
    (∀ sig1, sig1 ≠ sig →
      descriptor (shbt_register_signal_handler os st sig a0 cb).2 sig1 = descriptor st sig1) := by
  have hinfo := register_handler_sig_info os st sig a0 a cb idx h ha
  obtain ⟨g1, d1⟩ := descriptor_update_same st
    { st with sig_info := update_info st.sig_info idx (fun e => { e with exit_action := a }) }
    sig idx (fun e => { e with exit_action := a }) (fun _ => rfl) (fun _ => rfl) h rfl
  obtain ⟨g2, d2⟩ := descriptor_update_same
    { st with sig_info := update_info st.sig_info idx (fun e => { e with exit_action := a }) }
    (shbt_register_signal_handler os st sig a0 cb).2
    sig idx (fun e => { e with callback := cb }) (fun _ => rfl) (fun _ => rfl) g1 hinfo
  obtain ⟨e, he, _⟩ := descriptor_of_get st sig idx h
  refine ⟨⟨e, he, ?_⟩, g2, fun sig1 hne => ?_⟩
  · rw [d2, d1, he]
    rfl
  · rw [descriptor_update_other
      { st with sig_info := update_info st.sig_info idx (fun e => { e with exit_action := a }) }
      (shbt_register_signal_handler os st sig a0 cb).2
      sig sig1 idx (fun e => { e with callback := cb }) (fun _ => rfl) (fun _ => rfl) g1 hinfo hne]
    exact descriptor_update_other st _ sig sig1 idx (fun e => { e with exit_action := a })
      (fun _ => rfl) (fun _ => rfl) h rfl hne

theorem register_callback_descriptor (st : SignalState) (sig : Int) (cb : Option Nat)
    (idx : Nat) (h : shbt_get_signal_info sig st.sig_info = some idx) :
    (shbt_register_signal_callback st sig cb).1 = true ∧
    (∃ e, descriptor st sig = some e ∧
      descriptor (shbt_register_signal_callback st sig cb).2 sig
        = some { e with callback := cb }) ∧
    shbt_get_signal_info sig (shbt_register_signal_callback st sig cb).2.sig_info = some idx := by
  have hr : shbt_register_signal_callback st sig cb
      = (true, { st with sig_info :=
                  (update_info st.sig_info idx (fun e => { e with callback := cb })) }) := by
    unfold shbt_register_signal_callback
    rw [h]
  rw [hr]
  obtain ⟨g1, d1⟩ := descriptor_update_same st
    { st with sig_info := update_info st.sig_info idx (fun e => { e with callback := cb }) }
    sig idx (fun e => { e with callback := cb }) (fun _ => rfl) (fun _ => rfl) h rfl
  obtain ⟨e, he, _⟩ := descriptor_of_get st sig idx h
  refine ⟨rfl, ⟨e, he, ?_⟩, g1⟩
  rw [d1, he]
  rfl

theorem register_exit_action_descriptor (st : SignalState) (sig a : Int)
    (idx : Nat) (h : shbt_get_signal_info sig st.sig_info = some idx) :
    (shbt_register_signal_exit_action st sig a).1 = true ∧
    (∃ e, descriptor st sig = some e ∧
      descriptor (shbt_register_signal_exit_action st sig a).2 sig
        = some { e with exit_action := a }) ∧
    shbt_get_signal_info sig (shbt_register_signal_exit_action st sig a).2.sig_info
      = some idx := by
  have hr : shbt_register_signal_exit_action st sig a
      = (true, { st with sig_info :=
                  (update_info st.sig_info idx (fun e => { e with exit_action := a })) }) := by
    unfold shbt_register_signal_exit_action
    rw [h]
  rw [hr]
  obtain ⟨g1, d1⟩ := descriptor_update_same st
    { st with sig_info := update_info st.sig_info idx (fun e => { e with exit_action := a }) }
    sig idx (fun e => { e with exit_action := a }) (fun _ => rfl) (fun _ => rfl) h rfl
  obtain ⟨e, he, _⟩ := descriptor_of_get st sig idx h
  refine ⟨rfl, ⟨e, he, ?_⟩, g1⟩
  rw [d1, he]
  rfl

/-- A registration never changes which entry `shbt_get_signal_info` finds. -/
theorem register_handler_get (os : OsCalls) (st : SignalState) (sig a0 : Int)
    (cb : Option Nat) (s : Int) :
    shbt_get_signal_info s (shbt_register_signal_handler os st sig a0 cb).2.sig_info
      = shbt_get_signal_info s st.sig_info := by
  rcases h : shbt_get_signal_info sig st.sig_info with _ | idx
  · rw [register_handler_unknown os st sig a0 cb h]
  · rcases ha : effective_exit_action os.env a0 with _ | a
    · rw [register_handler_rejected os st sig a0 cb ha]
    · rw [register_handler_sig_info os st sig a0 a cb idx h ha,
        get_update_info s (fun e => { e with callback := cb }) (fun _ => rfl) (fun _ => rfl),
        get_update_info s (fun e => { e with exit_action := a }) (fun _ => rfl) (fun _ => rfl)]

theorem effective_exit_action_unset (a : Int) : effective_exit_action none a = some a := rfl

theorem effective_exit_action_EXIT (a : Int) :
    effective_exit_action (some "EXIT") a = some SHBT_EXIT_ACTION_EXIT := by
  simp only [effective_exit_action]
  rw [if_pos (by decide)]

theorem effective_exit_action_RETURN (a : Int) :
    effective_exit_action (some "RETURN") a = some SHBT_EXIT_ACTION_RETURN := by
  simp only [effective_exit_action]
  rw [if_neg (by decide), if_pos (by decide)]

theorem effective_exit_action_RERAISE (a : Int) :
    effective_exit_action (some "RERAISE") a = some SHBT_EXIT_ACTION_RERAISE := by
  simp only [effective_exit_action]
  rw [if_neg (by decide), if_neg (by decide), if_pos (by decide)]

theorem effective_exit_action_none (v : String) (a : Int)
    (h1 : ¬ "EXIT".toList <+: v.toList) (h2 : ¬ "RETURN".toList <+: v.toList)
    (h3 : ¬ "RERAISE".toList <+: v.toList) :
    effective_exit_action (some v) a = none := by
  have e1 : strncmp_eq v.toList "EXIT".toList 4 = false := by
    rw [Bool.eq_false_iff]
    exact fun h => h1 ((strncmp_eq_iff "EXIT".toList v.toList).mp h)
  have e2 : strncmp_eq v.toList "RETURN".toList 6 = false := by
    rw [Bool.eq_false_iff]
    exact fun h => h2 ((strncmp_eq_iff "RETURN".toList v.toList).mp h)
  have e3 : strncmp_eq v.toList "RERAISE".toList 7 = false := by
    rw [Bool.eq_false_iff]
    exact fun h => h3 ((strncmp_eq_iff "RERAISE".toList v.toList).mp h)
  simp only [effective_exit_action, e1, e2, e3]
  rfl

theorem register_handler_stored (os : OsCalls) (st : SignalState) (sig a0 a : Int)
    (cb : Option Nat) (idx : Nat) (h : shbt_get_signal_info sig st.sig_info = some idx)
    (ha : effective_exit_action os.env a0 = some a) :
    (descriptor (shbt_register_signal_handler os st sig a0 cb).2 sig).map
        (fun e => e.exit_action) = some a ∧
    (descriptor (shbt_register_signal_handler os st sig a0 cb).2 sig).map
        (fun e => e.callback) = some cb := by
  obtain ⟨⟨e, _, he⟩, _, _⟩ := register_handler_descriptor os st sig a0 a cb idx h ha
  rw [he]
  exact ⟨rfl, rfl⟩

/-! ## Signal registry: the claims -/

/-- C7: for a signal number without a descriptor, `shbt_register_signal_handler`,
`shbt_register_signal_callback` and `shbt_register_signal_exit_action` each
return false and leave the whole state unchanged: the table, the installed
handlers and the alternate stack. -/
theorem register_unknown_signal_unchanged (os : OsCalls) (st : SignalState) (sig a : Int)
    (cb : Option Nat) (h : shbt_get_signal_info sig st.sig_info = none) :
    shbt_register_signal_handler os st sig a cb = (false, st) ∧
    shbt_register_signal_callback st sig cb = (false, st) ∧
    shbt_register_signal_exit_action st sig a = (false, st) := by
  refine ⟨register_handler_unknown os st sig a cb h, ?_, ?_⟩
  · unfold shbt_register_signal_callback
    rw [h]
  · unfold shbt_register_signal_exit_action
    rw [h]

/-- Witness for C7: signal number 0 and a negative number on the Linux table. -/
theorem register_unknown_signal_unchanged_witness :
    shbt_get_signal_info 0 sig_info_linux = none ∧
    shbt_get_signal_info (-3) sig_info_linux = none ∧
    shbt_register_signal_handler (os_ok none) (initial_state sig_info_linux) 0
        SHBT_EXIT_ACTION_RETURN (some 1) = (false, initial_state sig_info_linux) ∧
    shbt_register_signal_callback (initial_state sig_info_linux) (-3) (some 1)
      = (false, initial_state sig_info_linux) :=
  ⟨by decide, by decide,
    (register_unknown_signal_unchanged (os_ok none) (initial_state sig_info_linux) 0
      SHBT_EXIT_ACTION_RETURN (some 1) (by decide)).1,
    (register_unknown_signal_unchanged (os_ok none) (initial_state sig_info_linux) (-3)
      SHBT_EXIT_ACTION_RETURN (some 1) (by decide)).2.1⟩

/-- C8: for a signal with a descriptor, a registration made while
SHBT_SIGNAL_EXIT_ACTION is EXIT, RETURN or RERAISE stores that exit action
whatever the argument is, and one made while it is unset stores the argument;
the variable is read on each call, so a later registration made with the
variable unset stores its own argument, and the descriptors of other signals
are not affected. -/
theorem register_handler_override (os : OsCalls) (st : SignalState) (sig a : Int)
    (cb : Option Nat) (idx : Nat) (h : shbt_get_signal_info sig st.sig_info = some idx) :
    (os.env = some "EXIT" →
      (descriptor (shbt_register_signal_handler os st sig a cb).2 sig).map
        (fun e => e.exit_action) = some SHBT_EXIT_ACTION_EXIT) ∧
    (os.env = some "RETURN" →
      (descriptor (shbt_register_signal_handler os st sig a cb).2 sig).map
        (fun e => e.exit_action) = some SHBT_EXIT_ACTION_RETURN) ∧
    (os.env = some "RERAISE" →
      (descriptor (shbt_register_signal_handler os st sig a cb).2 sig).map
        (fun e => e.exit_action) = some SHBT_EXIT_ACTION_RERAISE) ∧
    (os.env = none →
      (descriptor (shbt_register_signal_handler os st sig a cb).2 sig).map
        (fun e => e.exit_action) = some a) ∧
    (∀ (os2 : OsCalls) (a2 : Int) (cb2 : Option Nat), os2.env = none →
      (descriptor (shbt_register_signal_handler os2
          (shbt_register_signal_handler os st sig a cb).2 sig a2 cb2).2 sig).map
        (fun e => e.exit_action) = some a2) ∧
    (∀ sig1, sig1 ≠ sig →
      descriptor (shbt_register_signal_handler os st sig a cb).2 sig1 = descriptor st sig1) := by
  refine ⟨fun he => ?_, fun he => ?_, fun he => ?_, fun he => ?_, fun os2 a2 cb2 he => ?_,
    fun sig1 hne => ?_⟩
  · exact (register_handler_stored os st sig a _ cb idx h
      (by rw [he]; exact effective_exit_action_EXIT a)).1
  · exact (register_handler_stored os st sig a _ cb idx h
      (by rw [he]; exact effective_exit_action_RETURN a)).1
  · exact (register_handler_stored os st sig a _ cb idx h
      (by rw [he]; exact effective_exit_action_RERAISE a)).1
  · exact (register_handler_stored os st sig a _ cb idx h
      (by rw [he]; exact effective_exit_action_unset a)).1
  · have hg := register_handler_get os st sig a cb sig
    rw [h] at hg
    exact (register_handler_stored os2 _ sig a2 _ cb2 idx hg
      (by rw [he]; exact effective_exit_action_unset a2)).1
  · rcases ha : effective_exit_action os.env a with _ | a1
    · rw [register_handler_rejected os st sig a cb ha]
    · exact (register_handler_descriptor os st sig a a1 cb idx h ha).2.2 sig1 hne

/-- Witness for C8: SIGSEGV registered with RETURN while the override is
RERAISE; the call succeeds and RERAISE is stored. -/
theorem register_handler_override_witness :
    (shbt_register_signal_handler (os_ok (some "RERAISE")) (initial_state sig_info_linux) 11
        SHBT_EXIT_ACTION_RETURN none).1 = true ∧
    (descriptor (shbt_register_signal_handler (os_ok (some "RERAISE"))
        (initial_state sig_info_linux) 11 SHBT_EXIT_ACTION_RETURN none).2 11).map
      (fun e => e.exit_action) = some SHBT_EXIT_ACTION_RERAISE :=
  ⟨by decide,
    (register_handler_override (os_ok (some "RERAISE")) (initial_state sig_info_linux) 11
      SHBT_EXIT_ACTION_RETURN none 18 (by decide)).2.2.1 rfl⟩

/-- C9, counterexample: the value RETURNED is none of EXIT, RETURN, RERAISE,
yet registering SIGSEGV under it succeeds, allocates the stack, installs the
handler and stores the exit action RETURN. -/
theorem register_handler_bad_override_counterexample :
    ("RETURNED" ≠ "EXIT" ∧ "RETURNED" ≠ "RETURN" ∧ "RETURNED" ≠ "RERAISE") ∧
    shbt_get_signal_info 11 sig_info_linux = some 18 ∧
    (shbt_register_signal_handler (os_ok (some "RETURNED")) (initial_state sig_info_linux) 11
        SHBT_EXIT_ACTION_EXIT none).1 = true ∧
    (shbt_register_signal_handler (os_ok (some "RETURNED")) (initial_state sig_info_linux) 11
        SHBT_EXIT_ACTION_EXIT none).2.dispositions = [(11, shbt_sigaction)] ∧
    (shbt_register_signal_handler (os_ok (some "RETURNED")) (initial_state sig_info_linux) 11
        SHBT_EXIT_ACTION_EXIT none).2.signal_handler_stack = true ∧
    (descriptor (initial_state sig_info_linux) 11).map (fun e => e.exit_action)
      = some SHBT_EXIT_ACTION_EXIT ∧
    (descriptor (shbt_register_signal_handler (os_ok (some "RETURNED"))
        (initial_state sig_info_linux) 11 SHBT_EXIT_ACTION_EXIT none).2 11).map
      (fun e => e.exit_action) = some SHBT_EXIT_ACTION_RETURN := by
  decide

/-- C9, amended: for every value of SHBT_SIGNAL_EXIT_ACTION that is set and
does not begin with EXIT, RETURN or RERAISE, `shbt_register_signal_handler`
returns false and leaves the state as it was: no handler installed, no
alternate stack allocated, stored exit action and callback unchanged. -/
theorem register_handler_bad_override (os : OsCalls) (st : SignalState) (sig a : Int)
    (cb : Option Nat) (v : String) (hv : os.env = some v)
    (h1 : ¬ "EXIT".toList <+: v.toList) (h2 : ¬ "RETURN".toList <+: v.toList)
    (h3 : ¬ "RERAISE".toList <+: v.toList) :
    shbt_register_signal_handler os st sig a cb = (false, st) ∧
    (shbt_register_signal_handler os st sig a cb).1 = false ∧
    (shbt_register_signal_handler os st sig a cb).2.dispositions = st.dispositions ∧
    (shbt_register_signal_handler os st sig a cb).2.signal_handler_stack
      = st.signal_handler_stack ∧
    descriptor (shbt_register_signal_handler os st sig a cb).2 sig = descriptor st sig := by
  have hr : shbt_register_signal_handler os st sig a cb = (false, st) :=
    register_handler_rejected os st sig a cb
      (by rw [hv]; exact effective_exit_action_none v a h1 h2 h3)
  rw [hr]
  exact ⟨rfl, rfl, rfl, rfl, rfl⟩

/-- Witness for C9 (amended): the lowercase value `exit` is rejected. -/
theorem register_handler_bad_override_witness :
    shbt_register_signal_handler (os_ok (some "exit")) (initial_state sig_info_linux) 11
        SHBT_EXIT_ACTION_RETURN (some 1) = (false, initial_state sig_info_linux) :=
  (register_handler_bad_override (os_ok (some "exit")) (initial_state sig_info_linux) 11
    SHBT_EXIT_ACTION_RETURN (some 1) "exit" rfl (by decide) (by decide) (by decide)).1

/-- C10: `shbt_register_signal_callback` and `shbt_register_signal_exit_action`
return true exactly when the signal has a descriptor, in every state (a
handler need not be installed), and afterwards `shbt_get_signal_info` yields
the value written: a later write replaces an earlier one, also one made by
`shbt_register_signal_handler`. -/
theorem register_callback_exit_action (st : SignalState) (sig a : Int) (cb : Option Nat) :
    ((shbt_register_signal_callback st sig cb).1 = true
      ↔ (shbt_get_signal_info sig st.sig_info).isSome = true) ∧
    ((shbt_register_signal_exit_action st sig a).1 = true
      ↔ (shbt_get_signal_info sig st.sig_info).isSome = true) ∧
    ((shbt_get_signal_info sig st.sig_info).isSome = true →
      (descriptor (shbt_register_signal_callback st sig cb).2 sig).map
          (fun e => e.callback) = some cb ∧
      (descriptor (shbt_register_signal_exit_action st sig a).2 sig).map
          (fun e => e.exit_action) = some a ∧
      (∀ cb0, (descriptor (shbt_register_signal_callback
            (shbt_register_signal_callback st sig cb0).2 sig cb).2 sig).map
          (fun e => e.callback) = some cb) ∧
      (∀ a0, (descriptor (shbt_register_signal_exit_action
            (shbt_register_signal_exit_action st sig a0).2 sig a).2 sig).map
          (fun e => e.exit_action) = some a) ∧
      (∀ os a0 cb0, (descriptor (shbt_register_signal_callback
            (shbt_register_signal_handler os st sig a0 cb0).2 sig cb).2 sig).map
          (fun e => e.callback) = some cb) ∧
      (∀ os a0 cb0, (descriptor (shbt_register_signal_exit_action
            (shbt_register_signal_handler os st sig a0 cb0).2 sig a).2 sig).map
          (fun e => e.exit_action) = some a)) := by
  have hcb : ∀ (s : SignalState) (c : Option Nat) (idx : Nat),
      shbt_get_signal_info sig s.sig_info = some idx →
      (descriptor (shbt_register_signal_callback s sig c).2 sig).map
        (fun e => e.callback) = some c := by
    intro s c idx hs
    obtain ⟨_, ⟨e, _, he⟩, _⟩ := register_callback_descriptor s sig c idx hs
    rw [he]
    rfl
  have hea : ∀ (s : SignalState) (x : Int) (idx : Nat),
      shbt_get_signal_info sig s.sig_info = some idx →
      (descriptor (shbt_register_signal_exit_action s sig x).2 sig).map
        (fun e => e.exit_action) = some x := by
    intro s x idx hs
    obtain ⟨_, ⟨e, _, he⟩, _⟩ := register_exit_action_descriptor s sig x idx hs
    rw [he]
    rfl
  rcases h : shbt_get_signal_info sig st.sig_info with _ | idx
  · refine ⟨?_, ?_, fun hs => absurd hs (by simp)⟩
    · unfold shbt_register_signal_callback
      rw [h]
      simp
    · unfold shbt_register_signal_exit_action
      rw [h]
      simp
  · refine ⟨?_, ?_, fun _ => ⟨hcb st cb idx h, hea st a idx h, fun cb0 => ?_, fun a0 => ?_,
      fun os a0 cb0 => ?_, fun os a0 cb0 => ?_⟩⟩
    · simp [(register_callback_descriptor st sig cb idx h).1]
    · simp [(register_exit_action_descriptor st sig a idx h).1]
    · exact hcb _ cb idx (register_callback_descriptor st sig cb0 idx h).2.2
    · exact hea _ a idx (register_exit_action_descriptor st sig a0 idx h).2.2
    · have hg := register_handler_get os st sig a0 cb0 sig
      rw [h] at hg
      exact hcb _ cb idx hg
    · have hg := register_handler_get os st sig a0 cb0 sig
      rw [h] at hg
      exact hea _ a idx hg

/-- Witness for C10: on the initial Linux table, with no handler installed,
setting the exit action of SIGUSR1 succeeds and is read back, and setting a
callback for signal 0 fails. -/
theorem register_callback_exit_action_witness :
    (shbt_register_signal_exit_action (initial_state sig_info_linux) 10
        SHBT_EXIT_ACTION_RERAISE).1 = true ∧
    (descriptor (shbt_register_signal_exit_action (initial_state sig_info_linux) 10
        SHBT_EXIT_ACTION_RERAISE).2 10).map (fun e => e.exit_action)
      = some SHBT_EXIT_ACTION_RERAISE ∧
    ¬ (shbt_register_signal_callback (initial_state sig_info_linux) 0 (some 1)).1 = true :=
  ⟨(register_callback_exit_action (initial_state sig_info_linux) 10 SHBT_EXIT_ACTION_RERAISE
      none).2.1.mpr (by decide),
    ((register_callback_exit_action (initial_state sig_info_linux) 10 SHBT_EXIT_ACTION_RERAISE
      none).2.2 (by decide)).2.1,
    fun h => absurd ((register_callback_exit_action (initial_state sig_info_linux) 0
      SHBT_EXIT_ACTION_EXIT (some 1)).1.mp h) (by decide)⟩

/-! ## Registration order, batches and reachable states: the claims -/

/-- C11, counterexample: the exit action RETURN is set for SIGSEGV with
`shbt_register_signal_exit_action`, then the handler is registered while the
override is EXIT; the stored exit action is EXIT, not RETURN. -/
theorem exit_action_precedence_counterexample :
    (shbt_register_signal_exit_action (initial_state sig_info_linux) 11
        SHBT_EXIT_ACTION_RETURN).1 = true ∧
    (shbt_register_signal_handler (os_ok (some "EXIT"))
        (shbt_register_signal_exit_action (initial_state sig_info_linux) 11
          SHBT_EXIT_ACTION_RETURN).2 11 SHBT_EXIT_ACTION_RETURN none).1 = true ∧
    (descriptor (shbt_register_signal_handler (os_ok (some "EXIT"))
        (shbt_register_signal_exit_action (initial_state sig_info_linux) 11
          SHBT_EXIT_ACTION_RETURN).2 11 SHBT_EXIT_ACTION_RETURN none).2 11).map
      (fun e => e.exit_action) = some SHBT_EXIT_ACTION_EXIT ∧
    SHBT_EXIT_ACTION_EXIT ≠ SHBT_EXIT_ACTION_RETURN := by
  decide

/-- C11, amended: for a signal with a descriptor and an accepted override
value, an exit action set with `shbt_register_signal_exit_action` after the
handler was registered is the stored one, whatever the override was; set
before the registration, it is replaced by the override's action when the
handler is registered. -/
theorem exit_action_precedence (os : OsCalls) (st : SignalState) (sig a a0 x : Int)
    (cb : Option Nat) (idx : Nat) (h : shbt_get_signal_info sig st.sig_info = some idx)
    (hx : effective_exit_action os.env a0 = some x) :
    (descriptor (shbt_register_signal_exit_action
        (shbt_register_signal_handler os st sig a0 cb).2 sig a).2 sig).map
      (fun e => e.exit_action) = some a ∧
    (descriptor (shbt_register_signal_handler os
        (shbt_register_signal_exit_action st sig a).2 sig a0 cb).2 sig).map
      (fun e => e.exit_action) = some x := by
  constructor
  · have hg := register_handler_get os st sig a0 cb sig
    rw [h] at hg
    obtain ⟨_, ⟨e, _, he⟩, _⟩ := register_exit_action_descriptor _ sig a idx hg
    rw [he]
    rfl
  · have hg := (register_exit_action_descriptor st sig a idx h).2.2
    exact (register_handler_stored os _ sig a0 x cb idx hg hx).1

/-- Witness for C11 (amended): SIGSEGV registered under the override EXIT,
then set to RETURN; RETURN is stored. -/
theorem exit_action_precedence_witness :
    (descriptor (shbt_register_signal_exit_action
        (shbt_register_signal_handler (os_ok (some "EXIT")) (initial_state sig_info_linux) 11
          SHBT_EXIT_ACTION_RERAISE none).2 11 SHBT_EXIT_ACTION_RETURN).2 11).map
      (fun e => e.exit_action) = some SHBT_EXIT_ACTION_RETURN :=
  (exit_action_precedence (os_ok (some "EXIT")) (initial_state sig_info_linux) 11
    SHBT_EXIT_ACTION_RETURN SHBT_EXIT_ACTION_RERAISE SHBT_EXIT_ACTION_EXIT none 18
    (by decide) (by decide)).1

/-! ## Batches of registrations: auxiliary facts -/

theorem register_handlers_nil (os : Nat → OsCalls) (st : SignalState) (a : Int)
    (cb : Option Nat) : shbt_register_signal_handlers os st [] a cb = (true, st) := by
  unfold shbt_register_signal_handlers
  rfl

theorem register_handlers_cons (os : Nat → OsCalls) (st : SignalState) (s : Int)
    (rest : List Int) (a : Int) (cb : Option Nat) :
    shbt_register_signal_handlers os st (s :: rest) a cb
      = if (shbt_register_signal_handler (os 0) st s a cb).1 = false
        then (false, (shbt_register_signal_handler (os 0) st s a cb).2)
        else shbt_register_signal_handlers (fun k => os (k + 1))
          (shbt_register_signal_handler (os 0) st s a cb).2 rest a cb := by
  rw [shbt_register_signal_handlers]

/-- A batch over `l1 ++ l2` runs `l1` and, only if that succeeded, `l2` in
the state `l1` left. -/
theorem register_handlers_append (a : Int) (cb : Option Nat) :
    ∀ (l1 l2 : List Int) (os : Nat → OsCalls) (st : SignalState),
      shbt_register_signal_handlers os st (l1 ++ l2) a cb
        = if (shbt_register_signal_handlers os st l1 a cb).1 = true
          then shbt_register_signal_handlers (fun k => os (k + l1.length))
            (shbt_register_signal_handlers os st l1 a cb).2 l2 a cb
          else shbt_register_signal_handlers os st l1 a cb := by
  intro l1
  induction l1 with
  | nil =>
    intro l2 os st
    simp [register_handlers_nil]
  | cons s rest ih =>
    intro l2 os st
    rw [List.cons_append, register_handlers_cons, register_handlers_cons]
    by_cases hf : (shbt_register_signal_handler (os 0) st s a cb).1 = false
    · simp [hf]
    · rw [if_neg hf, if_neg hf, ih]
      simp only [List.length_cons, Nat.add_assoc]

/-- One more element after a batch that succeeded. -/
theorem register_handlers_snoc (a : Int) (cb : Option Nat) (l : List Int) (s : Int)
    (os : Nat → OsCalls) (st : SignalState)
    (h : (shbt_register_signal_handlers os st l a cb).1 = true) :
    shbt_register_signal_handlers os st (l ++ [s]) a cb
      = ((shbt_register_signal_handler (os l.length)
            (shbt_register_signal_handlers os st l a cb).2 s a cb).1,
         (shbt_register_signal_handler (os l.length)
            (shbt_register_signal_handlers os st l a cb).2 s a cb).2) := by
  rw [register_handlers_append, if_pos h, register_handlers_cons, register_handlers_nil]
  simp only [Nat.zero_add]
  cases hr : (shbt_register_signal_handler (os l.length)
      (shbt_register_signal_handlers os st l a cb).2 s a cb).1 <;> simp

theorem take_succ_getD (sigs : List Int) (i : Nat) (h : i < sigs.length) :
    sigs.take (i + 1) = sigs.take i ++ [sigs.getD i 0] := by
  rw [List.take_succ, List.getElem?_eq_getElem h, List.getD_eq_getElem _ _ h]
  rfl

/-- What a registration does to the dispositions, the handler stack and the
alternate stack, case by case. -/
theorem register_handler_cases (os : OsCalls) (st : SignalState) (sig a0 : Int)
    (cb : Option Nat) :
    ((shbt_register_signal_handler os st sig a0 cb).1 = true →
      (shbt_register_signal_handler os st sig a0 cb).2.dispositions
        = (sig, shbt_sigaction) :: st.dispositions ∧
      (shbt_register_signal_handler os st sig a0 cb).2.signal_handler_stack = true ∧
      (∃ idx, shbt_get_signal_info sig st.sig_info = some idx) ∧
      (∃ x, effective_exit_action os.env a0 = some x) ∧
      os.sigaction_ok = true ∧
      (st.signal_handler_stack = false → os.malloc_ok = true ∧ os.sigaltstack_ok = true ∧
        (shbt_register_signal_handler os st sig a0 cb).2.altstack_registered = true) ∧
      (st.signal_handler_stack = true →
        (shbt_register_signal_handler os st sig a0 cb).2.altstack_registered
          = st.altstack_registered)) ∧
    ((shbt_register_signal_handler os st sig a0 cb).1 = false →
      (shbt_register_signal_handler os st sig a0 cb).2.dispositions = st.dispositions) := by
  unfold shbt_register_signal_handler
  rcases h : shbt_get_signal_info sig st.sig_info with _ | idx
  · simp
  · rcases hx : effective_exit_action os.env a0 with _ | x
    · simp
    · simp only
      cases hs : st.signal_handler_stack <;> cases hm : os.malloc_ok <;>
        cases hl : os.sigaltstack_ok <;> cases hq : os.sigaction_ok <;> simp

theorem register_handler_dispositions_mono (os : OsCalls) (st : SignalState) (sig a0 : Int)
    (cb : Option Nat) (d : Int × sigaction_t) (hd : d ∈ st.dispositions) :
    d ∈ (shbt_register_signal_handler os st sig a0 cb).2.dispositions := by
  obtain ⟨h1, h2⟩ := register_handler_cases os st sig a0 cb
  cases hr : (shbt_register_signal_handler os st sig a0 cb).1
  · rw [h2 hr]; exact hd
  · rw [(h1 hr).1]; exact List.mem_cons_of_mem _ hd

/-- A registration leaves the descriptors of the other signals as they were. -/
theorem register_handler_other (os : OsCalls) (st : SignalState) (sig a0 : Int)
    (cb : Option Nat) (s : Int) (hne : s ≠ sig) :
    descriptor (shbt_register_signal_handler os st sig a0 cb).2 s = descriptor st s := by
  rcases h : shbt_get_signal_info sig st.sig_info with _ | idx
  · rw [register_handler_unknown os st sig a0 cb h]
  · rcases hx : effective_exit_action os.env a0 with _ | x
    · rw [register_handler_rejected os st sig a0 cb hx]
    · exact (register_handler_descriptor os st sig a0 x cb idx h hx).2.2 s hne

/-- A registration with callback `cb` keeps a stored callback `cb`. -/
theorem register_handler_callback_kept (os : OsCalls) (st : SignalState) (sig a0 : Int)
    (cb : Option Nat) (s : Int)
    (hs : (descriptor st s).map (fun e => e.callback) = some cb) :
    (descriptor (shbt_register_signal_handler os st sig a0 cb).2 s).map
      (fun e => e.callback) = some cb := by
  by_cases hne : s = sig
  · subst hne
    rcases h : shbt_get_signal_info s st.sig_info with _ | idx
    · rw [register_handler_unknown os st s a0 cb h]; exact hs
    · rcases hx : effective_exit_action os.env a0 with _ | x
      · rw [register_handler_rejected os st s a0 cb hx]; exact hs
      · exact (register_handler_stored os st s a0 x cb idx h hx).2
  · rw [register_handler_other os st sig a0 cb s hne]; exact hs

/-- What a successful registration has stored and installed. -/
theorem register_handler_success (os : OsCalls) (st : SignalState) (sig a0 : Int)
    (cb : Option Nat) (h : (shbt_register_signal_handler os st sig a0 cb).1 = true) :
    (sig, shbt_sigaction) ∈ (shbt_register_signal_handler os st sig a0 cb).2.dispositions ∧
    (descriptor (shbt_register_signal_handler os st sig a0 cb).2 sig).map
      (fun e => e.callback) = some cb ∧
    (descriptor (shbt_register_signal_handler os st sig a0 cb).2 sig).map
      (fun e => e.exit_action) = effective_exit_action os.env a0 := by
  obtain ⟨hd, _, ⟨idx, hi⟩, ⟨x, hx⟩, _⟩ := (register_handler_cases os st sig a0 cb).1 h
  obtain ⟨s1, s2⟩ := register_handler_stored os st sig a0 x cb idx hi hx
  refine ⟨by rw [hd]; exact List.mem_cons_self _ _, s2, by rw [s1, hx]⟩

/-- While every call so far succeeded, the batch over the first `i` elements
succeeds. -/
theorem register_handlers_take (os : Nat → OsCalls) (st : SignalState) (sigs : List Int)
    (a : Int) (cb : Option Nat) :
    ∀ i, i ≤ sigs.length → (∀ j, j < i → (call_at os st sigs a cb j).1 = true) →
      (shbt_register_signal_handlers os st (sigs.take i) a cb).1 = true := by
  intro i
  induction i with
  | zero => intro _ _; rw [List.take_zero, register_handlers_nil]
  | succ i ih =>
    intro hi hall
    have hprev := ih (by omega) (fun j hj => hall j (by omega))
    rw [take_succ_getD sigs i (by omega), register_handlers_snoc a cb _ _ os st hprev]
    have hlen : (sigs.take i).length = i := by rw [List.length_take]; omega
    rw [hlen]
    exact hall i (by omega)

/-- The state before element `i + 1` is the one the call for element `i`
left, when the calls before succeeded. -/
theorem state_before_succ (os : Nat → OsCalls) (st : SignalState) (sigs : List Int)
    (a : Int) (cb : Option Nat) (i : Nat) (hi : i < sigs.length)
    (hall : ∀ j, j < i → (call_at os st sigs a cb j).1 = true) :
    shbt_register_signal_handlers os st (sigs.take (i + 1)) a cb
      = ((call_at os st sigs a cb i).1, (call_at os st sigs a cb i).2) := by
  have hprev := register_handlers_take os st sigs a cb i (by omega) hall
  rw [take_succ_getD sigs i hi, register_handlers_snoc a cb _ _ os st hprev]
  have hlen : (sigs.take i).length = i := by rw [List.length_take]; omega
  rw [hlen]
  rfl

/-- After `i` successful calls every one of them is still in effect. -/
theorem register_handlers_kept (os : Nat → OsCalls) (st : SignalState) (sigs : List Int)
    (a : Int) (cb : Option Nat) :
    ∀ i, i ≤ sigs.length → (∀ j, j < i → (call_at os st sigs a cb j).1 = true) →
      ∀ j, j < i →
        (sigs.getD j 0, shbt_sigaction) ∈ (state_before os st sigs a cb i).dispositions ∧
        (descriptor (state_before os st sigs a cb i) (sigs.getD j 0)).map
          (fun e => e.callback) = some cb ∧
        ((∀ k, j < k → k < i → sigs.getD k 0 ≠ sigs.getD j 0) →
          (descriptor (state_before os st sigs a cb i) (sigs.getD j 0)).map
            (fun e => e.exit_action) = effective_exit_action (os j).env a) := by
  intro i
  induction i with
  | zero => intro _ _ j hj; omega
  | succ i ih =>
    intro hi hall j hj
    have hst : state_before os st sigs a cb (i + 1) = (call_at os st sigs a cb i).2 := by
      unfold state_before
      rw [state_before_succ os st sigs a cb i (by omega) (fun j hj => hall j (by omega))]
    rw [hst]
    have hsucc := hall i (by omega)
    by_cases hji : j = i
    · subst hji
      obtain ⟨s1, s2, s3⟩ := register_handler_success (os j)
        (state_before os st sigs a cb j) (sigs.getD j 0) a cb hsucc
      exact ⟨s1, s2, fun _ => s3⟩
    · obtain ⟨p1, p2, p3⟩ := ih (by omega) (fun j hj => hall j (by omega)) j (by omega)
      refine ⟨register_handler_dispositions_mono _ _ _ _ _ _ p1,
        register_handler_callback_kept _ _ _ _ _ _ p2, fun hdist => ?_⟩
      have hne : sigs.getD j 0 ≠ sigs.getD i 0 := fun h => hdist i (by omega) (by omega) h.symm
      unfold call_at
      rw [register_handler_other _ _ _ _ _ _ hne]
      exact p3 (fun k hk1 hk2 => hdist k hk1 (by omega))

/-- The batch succeeds exactly when every call, made in array order, does. -/
theorem register_handlers_true_iff (os : Nat → OsCalls) (st : SignalState) (sigs : List Int)
    (a : Int) (cb : Option Nat) :
    (shbt_register_signal_handlers os st sigs a cb).1 = true ↔
      ∀ i, i < sigs.length → (call_at os st sigs a cb i).1 = true := by
  constructor
  · intro h i
    induction i using Nat.strong_induction_on with
    | _ i ih =>
      intro hi
      have h1 := state_before_succ os st sigs a cb i hi (fun j hj => ih j hj (by omega))
      have h2 := register_handlers_append a cb (sigs.take (i + 1)) (sigs.drop (i + 1)) os st
      rw [List.take_append_drop] at h2
      by_cases hc : (shbt_register_signal_handlers os st (sigs.take (i + 1)) a cb).1 = true
      · rw [h1] at hc; exact hc
      · rw [if_neg hc] at h2
        rw [h2] at h
        exact absurd h hc
  · intro h
    have := register_handlers_take os st sigs a cb sigs.length le_rfl h
    rw [List.take_length] at this
    exact this

/-! ## Batches of registrations: the claims -/

/-- C12: `shbt_register_signal_handlers` returns true if and only if
`shbt_register_signal_handler` succeeds for every element taken in array
order.  If the first failure is at index `k` it returns false in the state
the call for element `k` left, which is also the result over the first
`k + 1` elements alone (nothing is attempted for the later ones), and for
every `j < k` the handler of element `j` is installed, its callback is stored
and, unless the same signal occurs again up to `k`, its exit action is
stored.  Over no element it returns true and changes nothing. -/
theorem register_handlers_first_failure (os : Nat → OsCalls) (st : SignalState)
    (sigs : List Int) (a : Int) (cb : Option Nat) :
    ((shbt_register_signal_handlers os st sigs a cb).1 = true ↔
      ∀ i, i < sigs.length → (call_at os st sigs a cb i).1 = true) ∧
    (∀ k, k < sigs.length → (∀ i, i < k → (call_at os st sigs a cb i).1 = true) →
      (call_at os st sigs a cb k).1 = false →
      shbt_register_signal_handlers os st sigs a cb = (false, (call_at os st sigs a cb k).2) ∧
      shbt_register_signal_handlers os st sigs a cb
        = shbt_register_signal_handlers os st (sigs.take (k + 1)) a cb ∧
      (∀ j, j < k →
        (sigs.getD j 0, shbt_sigaction)
          ∈ (shbt_register_signal_handlers os st sigs a cb).2.dispositions ∧
        (descriptor (shbt_register_signal_handlers os st sigs a cb).2 (sigs.getD j 0)).map
          (fun e => e.callback) = some cb ∧
        ((∀ i, j < i → i ≤ k → sigs.getD i 0 ≠ sigs.getD j 0) →
          (descriptor (shbt_register_signal_handlers os st sigs a cb).2 (sigs.getD j 0)).map
            (fun e => e.exit_action) = effective_exit_action (os j).env a))) ∧
    shbt_register_signal_handlers os st [] a cb = (true, st) := by
  refine ⟨register_handlers_true_iff os st sigs a cb, fun k hk hall hfail => ?_,
    register_handlers_nil os st a cb⟩
  have h1 := state_before_succ os st sigs a cb k hk hall
  have h2 := register_handlers_append a cb (sigs.take (k + 1)) (sigs.drop (k + 1)) os st
  rw [List.take_append_drop] at h2
  have hc : ¬ (shbt_register_signal_handlers os st (sigs.take (k + 1)) a cb).1 = true := by
    rw [h1, hfail]; simp
  rw [if_neg hc] at h2
  have hres : shbt_register_signal_handlers os st sigs a cb
      = (false, (call_at os st sigs a cb k).2) := by
    rw [h2, h1, hfail]
  refine ⟨hres, h2, fun j hj => ?_⟩
  rw [hres]
  obtain ⟨p1, p2, p3⟩ := register_handlers_kept os st sigs a cb k (by omega) hall j hj
  refine ⟨register_handler_dispositions_mono _ _ _ _ _ _ p1,
    register_handler_callback_kept _ _ _ _ _ _ p2, fun hdist => ?_⟩
  have hne : sigs.getD j 0 ≠ sigs.getD k 0 := fun h => hdist k hj le_rfl h.symm
  show (descriptor (call_at os st sigs a cb k).2 (sigs.getD j 0)).map
    (fun e => e.exit_action) = effective_exit_action (os j).env a
  unfold call_at
  rw [register_handler_other _ _ _ _ _ _ hne]
  exact p3 (fun i hi1 hi2 => hdist i hi1 (by omega))

/-- Witness for C12: SIGUSR1, then the unknown signal 99, then SIGUSR2; the
batch fails at index 1, SIGUSR1 stays registered and SIGUSR2 is not. -/
theorem register_handlers_first_failure_witness :
    (shbt_register_signal_handlers (fun _ => os_ok none) (initial_state sig_info_linux)
        [10, 99, 12] SHBT_EXIT_ACTION_RETURN (some 7)).1 = false ∧
    (shbt_register_signal_handlers (fun _ => os_ok none) (initial_state sig_info_linux)
        [10, 99, 12] SHBT_EXIT_ACTION_RETURN (some 7)).2.dispositions = [(10, shbt_sigaction)] ∧
    shbt_register_signal_handlers (fun _ => os_ok none) (initial_state sig_info_linux)
        [10, 99, 12] SHBT_EXIT_ACTION_RETURN (some 7)
      = shbt_register_signal_handlers (fun _ => os_ok none) (initial_state sig_info_linux)
        [10, 99] SHBT_EXIT_ACTION_RETURN (some 7) ∧
    (descriptor (shbt_register_signal_handlers (fun _ => os_ok none)
        (initial_state sig_info_linux) [10, 99, 12] SHBT_EXIT_ACTION_RETURN (some 7)).2 10).map
      (fun e => e.exit_action) = some SHBT_EXIT_ACTION_RETURN := by
  have h := (register_handlers_first_failure (fun _ => os_ok none)
    (initial_state sig_info_linux) [10, 99, 12] SHBT_EXIT_ACTION_RETURN (some 7)).2.1 1
    (by decide) (by decide) (by decide)
  refine ⟨by rw [h.1], by decide, h.2.1, ?_⟩
  refine (h.2.2 0 (by decide)).2.2 (fun i h1 h2 => ?_)
  have hi : i = 1 := by omega
  subst hi
  decide

/-! ## Fatal signals and reachable states: auxiliary facts -/

theorem register_handlers_get (a : Int) (cb : Option Nat) (s : Int) :
    ∀ (sigs : List Int) (os : Nat → OsCalls) (st : SignalState),
      shbt_get_signal_info s (shbt_register_signal_handlers os st sigs a cb).2.sig_info
        = shbt_get_signal_info s st.sig_info := by
  intro sigs
  induction sigs with
  | nil => intro os st; rw [register_handlers_nil]
  | cons x rest ih =>
    intro os st
    rw [register_handlers_cons]
    by_cases hf : (shbt_register_signal_handler (os 0) st x a cb).1 = false
    · rw [if_pos hf]
      exact register_handler_get (os 0) st x a cb s
    · rw [if_neg hf, ih]
      exact register_handler_get (os 0) st x a cb s

theorem register_callback_get (st : SignalState) (sig : Int) (cb : Option Nat) (s : Int) :
    shbt_get_signal_info s (shbt_register_signal_callback st sig cb).2.sig_info
      = shbt_get_signal_info s st.sig_info := by
  unfold shbt_register_signal_callback
  rcases shbt_get_signal_info sig st.sig_info with _ | idx
  · rfl
  · exact get_update_info s (fun e => { e with callback := cb }) (fun _ => rfl) (fun _ => rfl)
      st.sig_info idx

theorem register_exit_action_get (st : SignalState) (sig a : Int) (s : Int) :
    shbt_get_signal_info s (shbt_register_signal_exit_action st sig a).2.sig_info
      = shbt_get_signal_info s st.sig_info := by
  unfold shbt_register_signal_exit_action
  rcases shbt_get_signal_info sig st.sig_info with _ | idx
  · rfl
  · exact get_update_info s (fun e => { e with exit_action := a }) (fun _ => rfl) (fun _ => rfl)
      st.sig_info idx

/-- No registration call changes which signals have a descriptor: in a
reachable state the lookup is that of the initial table. -/
theorem reachable_get (p : Platform) (st : SignalState) (h : Reachable p st) (s : Int) :
    shbt_get_signal_info s st.sig_info = shbt_get_signal_info s (sig_info_of p) := by
  induction h with
  | init => rfl
  | handler st os sig a cb _ ih => rw [register_handler_get, ih]
  | handlers st os sigs a cb _ ih => rw [register_handlers_get, ih]
  | fatal st os _ ih =>
    unfold shbt_register_fatal_handlers
    rw [register_handlers_get, ih]
  | callback st sig cb _ ih => rw [register_callback_get, ih]
  | exit_action st sig a _ ih => rw [register_exit_action_get, ih]

/-- An entry with a name and the number `s`, standing before the terminator,
makes the lookup of `s` succeed. -/
theorem get_signal_info_of_mem (s : Int) :
    ∀ (named rest : List shbt_signal_info), (∀ e ∈ named, e.sig_name ≠ none) →
      (∃ e ∈ named, e.sig_num = s) →
      (shbt_get_signal_info s (named ++ rest)).isSome = true := by
  intro named
  induction named with
  | nil => intro rest _ h; obtain ⟨e, he, _⟩ := h; simp at he
  | cons x named ih =>
    intro rest hn h
    rw [List.cons_append]
    unfold shbt_get_signal_info
    rw [if_neg (hn x (List.mem_cons_self x named))]
    by_cases hx : x.sig_num = s
    · rw [if_pos hx]; rfl
    · rw [if_neg hx]
      obtain ⟨e, he, hs⟩ := h
      have he2 : e ∈ named := by
        rcases List.mem_cons.mp he with h1 | h1
        · rw [h1] at hs; exact absurd hs hx
        · exact h1
      have := ih rest (fun e he => hn e (List.mem_cons_of_mem x he)) ⟨e, he2, hs⟩
      rcases hr : shbt_get_signal_info s (named ++ rest) with _ | k
      · rw [hr] at this; simp at this
      · rfl

/-- On every platform each macro that is defined has its entry in `sig_info`
when the source lists it. -/
theorem sig_info_of_has (p : Platform) (m : String) (s : Int)
    (hm : ∃ x ∈ sig_info_source, x.1 = m) (hp : p m = some s) :
    (shbt_get_signal_info s (sig_info_of p)).isSome = true := by
  obtain ⟨x, hx, hxm⟩ := hm
  unfold sig_info_of
  apply get_signal_info_of_mem
  · intro e he
    obtain ⟨y, _, hy⟩ := List.mem_filterMap.mp he
    rcases hpy : p y.1 with _ | n
    · rw [hpy] at hy; simp at hy
    · rw [hpy] at hy
      simp only [Option.map_some', Option.some.injEq] at hy
      rw [← hy]
      simp [mk_info]
  · refine ⟨mk_info s x.2.1 x.2.2, List.mem_filterMap.mpr ⟨x, hx, ?_⟩, rfl⟩
    rw [hxm, hp]
    rfl

theorem fatal_source_listed :
    ∀ m ∈ fatal_source, ∃ x ∈ sig_info_source, x.1 = m := by
  decide

theorem fatal_source_documented : fatal_source = documented_fatal_signals := by
  decide

theorem fatal_take (p : Platform) :
    (fatal_sig_nums p).take ((fatal_sig_nums p).length - 1)
      = documented_fatal_signals.filterMap p := by
  unfold fatal_sig_nums
  rw [fatal_source_documented]
  apply List.take_left'
  simp

theorem fatal_has_descriptor (p : Platform) (s : Int)
    (hs : s ∈ documented_fatal_signals.filterMap p) :
    (shbt_get_signal_info s (sig_info_of p)).isSome = true := by
  obtain ⟨m, hm, hp⟩ := List.mem_filterMap.mp hs
  rw [← fatal_source_documented] at hm
  exact sig_info_of_has p m s (fatal_source_listed m hm) hp

theorem state_before_reachable (p : Platform) (os : Nat → OsCalls) (st : SignalState)
    (sigs : List Int) (a : Int) (cb : Option Nat) (i : Nat) (h : Reachable p st) :
    Reachable p (state_before os st sigs a cb i) :=
  Reachable.handlers st os (sigs.take i) a cb h

theorem linux_fatal_list :
    documented_fatal_signals.filterMap linux
      = [6, 14, 7, 8, 1, 4, 2, 29, 13, 27, 30, 3, 11, 16, 31, 15, 5, 10, 12, 26, 24, 25] := by
  decide

/-! ## Fatal signals and reachable states: the claims -/

/-- C13: on every platform `shbt_register_fatal_handlers` has the same result
and the same effect as `shbt_register_signal_handlers` over the documented
fatal signals that are defined there, with `SHBT_EXIT_ACTION_EXIT` and a
`NULL` callback; the array is that list followed by `0`, and the final `0` is
not registered; every listed signal has a descriptor in `sig_info`, also at
each call the batch makes from a reachable state. -/
theorem register_fatal_refinement (p : Platform) (os : Nat → OsCalls) (st : SignalState) :
    shbt_register_fatal_handlers p os st
      = shbt_register_signal_handlers os st (documented_fatal_signals.filterMap p)
          SHBT_EXIT_ACTION_EXIT none ∧
    fatal_sig_nums p = documented_fatal_signals.filterMap p ++ [0] ∧
    (fatal_sig_nums p).take ((fatal_sig_nums p).length - 1)
      = documented_fatal_signals.filterMap p ∧
    (∀ s ∈ documented_fatal_signals.filterMap p,
      (shbt_get_signal_info s (sig_info_of p)).isSome = true) ∧
    (Reachable p st → ∀ i, i < (documented_fatal_signals.filterMap p).length →
      (shbt_get_signal_info ((documented_fatal_signals.filterMap p).getD i 0)
        (state_before os st (documented_fatal_signals.filterMap p)
          SHBT_EXIT_ACTION_EXIT none i).sig_info).isSome = true) := by
  refine ⟨?_, ?_, fatal_take p, fatal_has_descriptor p, fun hr i hi => ?_⟩
  · unfold shbt_register_fatal_handlers
    rw [fatal_take]
  · unfold fatal_sig_nums
    rw [fatal_source_documented]
  · rw [reachable_get p _ (state_before_reachable p os st _ _ _ i hr)]
    apply fatal_has_descriptor
    rw [List.getD_eq_getElem _ _ hi]
    exact List.getElem_mem hi

/-- Witness for C13: on Linux the fatal registration is the batch over the 22
defined signals and succeeds from the initial state when the OS calls do. -/
theorem register_fatal_refinement_witness :
    shbt_register_fatal_handlers linux (fun _ => os_ok none) (initial_state sig_info_linux)
      = shbt_register_signal_handlers (fun _ => os_ok none) (initial_state sig_info_linux)
          [6, 14, 7, 8, 1, 4, 2, 29, 13, 27, 30, 3, 11, 16, 31, 15, 5, 10, 12, 26, 24, 25]
          SHBT_EXIT_ACTION_EXIT none ∧
    (shbt_register_fatal_handlers linux (fun _ => os_ok none)
      (initial_state sig_info_linux)).1 = true := by
  have h := (register_fatal_refinement linux (fun _ => os_ok none)
    (initial_state sig_info_linux)).1
  rw [linux_fatal_list] at h
  refine ⟨h, ?_⟩
  rw [h]
  decide

/-! ## Installed handlers: auxiliary facts -/

theorem register_handler_installed_known (os : OsCalls) (st : SignalState) (sig a0 : Int)
    (cb : Option Nat)
    (h : ∀ d ∈ st.dispositions, (shbt_get_signal_info d.1 st.sig_info).isSome = true) :
    ∀ d ∈ (shbt_register_signal_handler os st sig a0 cb).2.dispositions,
      (shbt_get_signal_info d.1
        (shbt_register_signal_handler os st sig a0 cb).2.sig_info).isSome = true := by
  intro d hd
  rw [register_handler_get]
  obtain ⟨h1, h2⟩ := register_handler_cases os st sig a0 cb
  cases hr : (shbt_register_signal_handler os st sig a0 cb).1
  · rw [h2 hr] at hd; exact h d hd
  · obtain ⟨e1, _, ⟨idx, hi⟩, _⟩ := h1 hr
    rw [e1] at hd
    rcases List.mem_cons.mp hd with hd | hd
    · rw [hd, hi]; rfl
    · exact h d hd

theorem register_handlers_installed_known (a : Int) (cb : Option Nat) :
    ∀ (sigs : List Int) (os : Nat → OsCalls) (st : SignalState),
      (∀ d ∈ st.dispositions, (shbt_get_signal_info d.1 st.sig_info).isSome = true) →
      ∀ d ∈ (shbt_register_signal_handlers os st sigs a cb).2.dispositions,
        (shbt_get_signal_info d.1
          (shbt_register_signal_handlers os st sigs a cb).2.sig_info).isSome = true := by
  intro sigs
  induction sigs with
  | nil => intro os st h; rw [register_handlers_nil]; exact h
  | cons x rest ih =>
    intro os st h
    rw [register_handlers_cons]
    have hx := register_handler_installed_known (os 0) st x a cb h
    by_cases hf : (shbt_register_signal_handler (os 0) st x a cb).1 = false
    · rw [if_pos hf]; exact hx
    · rw [if_neg hf]; exact ih _ _ hx

theorem register_callback_dispositions (st : SignalState) (sig : Int) (cb : Option Nat) :
    (shbt_register_signal_callback st sig cb).2.dispositions = st.dispositions ∧
    (shbt_register_signal_callback st sig cb).2.signal_handler_stack
      = st.signal_handler_stack ∧
    (shbt_register_signal_callback st sig cb).2.altstack_registered
      = st.altstack_registered := by
  unfold shbt_register_signal_callback
  rcases shbt_get_signal_info sig st.sig_info with _ | idx <;> exact ⟨rfl, rfl, rfl⟩

theorem register_exit_action_dispositions (st : SignalState) (sig a : Int) :
    (shbt_register_signal_exit_action st sig a).2.dispositions = st.dispositions ∧
    (shbt_register_signal_exit_action st sig a).2.signal_handler_stack
      = st.signal_handler_stack ∧
    (shbt_register_signal_exit_action st sig a).2.altstack_registered
      = st.altstack_registered := by
  unfold shbt_register_signal_exit_action
  rcases shbt_get_signal_info sig st.sig_info with _ | idx <;> exact ⟨rfl, rfl, rfl⟩

/-- In a reachable state every signal that was given a disposition has a
descriptor. -/
theorem reachable_installed_known (p : Platform) (st : SignalState) (h : Reachable p st) :
    ∀ d ∈ st.dispositions, (shbt_get_signal_info d.1 st.sig_info).isSome = true := by
  induction h with
  | init => intro d hd; simp [initial_state] at hd
  | handler st os sig a cb _ ih => exact register_handler_installed_known os st sig a cb ih
  | handlers st os sigs a cb _ ih => exact register_handlers_installed_known a cb sigs os st ih
  | fatal st os _ ih =>
    unfold shbt_register_fatal_handlers
    exact register_handlers_installed_known _ _ _ os st ih
  | callback st sig cb _ ih =>
    intro d hd
    rw [(register_callback_dispositions st sig cb).1] at hd
    rw [register_callback_get]
    exact ih d hd
  | exit_action st sig a _ ih =>
    intro d hd
    rw [(register_exit_action_dispositions st sig a).1] at hd
    rw [register_exit_action_get]
    exact ih d hd

theorem sigaction_handler_known (p : Platform) (st : SignalState) (restore_ok : Bool)
    (sig : Int) (info : Option siginfo_t) (idx : Nat)
    (h : shbt_get_signal_info sig st.sig_info = some idx) :
    (shbt_sigaction_handler p st restore_ok sig info).events
      = handler_report p st idx sig info
        ++ (apply_exit_action st restore_ok (info_at st.sig_info idx).exit_action sig).events ∧
    (shbt_sigaction_handler p st restore_ok sig info).terminated
      = (apply_exit_action st restore_ok (info_at st.sig_info idx).exit_action sig).terminated ∧
    (shbt_sigaction_handler p st restore_ok sig info).st
      = (apply_exit_action st restore_ok (info_at st.sig_info idx).exit_action sig).st := by
  unfold shbt_sigaction_handler
  rw [h]
  exact ⟨rfl, rfl, rfl⟩

theorem sigaction_handler_unknown (p : Platform) (st : SignalState) (restore_ok : Bool)
    (sig : Int) (info : Option siginfo_t)
    (h : shbt_get_signal_info sig st.sig_info = none) :
    (shbt_sigaction_handler p st restore_ok sig info).events
      = [Event.stderr "SHBT: Could not get signal info in signal handler\n".toList,
         Event.exit_failure] ∧
    (shbt_sigaction_handler p st restore_ok sig info).terminated = true ∧
    (shbt_sigaction_handler p st restore_ok sig info).st = st := by
  unfold shbt_sigaction_handler
  rw [h]
  exact ⟨rfl, rfl, rfl⟩

/-! ## Installed handlers: the claims -/

/-- C14: in every state reachable from the initial state by registration
calls, whatever their arguments, the environment and the outcome of the OS
calls, every signal for which a handler was installed has a descriptor in
`sig_info`; `shbt_sigaction_handler` run for such a signal therefore takes the
branch that reports the signal, not the one printing that no signal info was
found. -/
theorem installed_signal_has_descriptor (p : Platform) (st : SignalState)
    (h : Reachable p st) :
    (∀ d ∈ st.dispositions, (shbt_get_signal_info d.1 st.sig_info).isSome = true) ∧
    (∀ d ∈ st.dispositions, ∀ (restore_ok : Bool) (info : Option siginfo_t),
      ∃ idx, shbt_get_signal_info d.1 st.sig_info = some idx ∧
        (shbt_sigaction_handler p st restore_ok d.1 info).events
          = handler_report p st idx d.1 info
            ++ (apply_exit_action st restore_ok (info_at st.sig_info idx).exit_action
                d.1).events ∧
        (shbt_sigaction_handler p st restore_ok d.1 info).events.head?
          = some (Event.stderr (shbt_print_signal p st.sig_info d.1 info))) := by
  have hk := reachable_installed_known p st h
  refine ⟨hk, fun d hd restore_ok info => ?_⟩
  rcases hg : shbt_get_signal_info d.1 st.sig_info with _ | idx
  · have := hk d hd
    rw [hg] at this
    simp at this
  · have he := (sigaction_handler_known p st restore_ok d.1 info idx hg).1
    refine ⟨idx, rfl, he, ?_⟩
    rw [he]
    rfl

/-- Witness for C14: after the fatal registration on Linux followed by a
failed registration of an unknown signal, SIGSEGV is installed and has a
descriptor. -/
theorem installed_signal_has_descriptor_witness :
    ((11 : Int), shbt_sigaction) ∈ (shbt_register_signal_handler (os_ok none)
        (shbt_register_fatal_handlers linux (fun _ => os_ok none)
          (initial_state (sig_info_of linux))).2 99 SHBT_EXIT_ACTION_EXIT none).2.dispositions ∧
    (shbt_get_signal_info 11 (shbt_register_signal_handler (os_ok none)
        (shbt_register_fatal_handlers linux (fun _ => os_ok none)
          (initial_state (sig_info_of linux))).2 99 SHBT_EXIT_ACTION_EXIT none).2.sig_info).isSome
      = true := by
  have hm : ((11 : Int), shbt_sigaction) ∈ (shbt_register_signal_handler (os_ok none)
      (shbt_register_fatal_handlers linux (fun _ => os_ok none)
        (initial_state (sig_info_of linux))).2 99 SHBT_EXIT_ACTION_EXIT none).2.dispositions := by
    decide
  exact ⟨hm, (installed_signal_has_descriptor linux _
    (Reachable.handler _ (os_ok none) 99 SHBT_EXIT_ACTION_EXIT none
      (Reachable.fatal _ (fun _ => os_ok none) Reachable.init))).1 _ hm⟩

/-- C15, failing sequence: on Linux a first registration of SIGSEGV in which
`malloc` succeeds and `sigaltstack` fails returns false and leaves
`signal_handler_stack` non-NULL with no alternate stack registered; a second
registration then skips `sigaltstack`, returns true and installs the handler
with `SA_ONSTACK` although no alternate stack is registered. -/
theorem onstack_without_altstack :
    (shbt_register_signal_handler
        { env := none, malloc_ok := true, sigaltstack_ok := false, sigaction_ok := true }
        (initial_state (sig_info_of linux)) 11 SHBT_EXIT_ACTION_EXIT none).1 = false ∧
    (shbt_register_signal_handler
        { env := none, malloc_ok := true, sigaltstack_ok := false, sigaction_ok := true }
        (initial_state (sig_info_of linux)) 11 SHBT_EXIT_ACTION_EXIT none).2.signal_handler_stack
      = true ∧
    (shbt_register_signal_handler (os_ok none)
        (shbt_register_signal_handler
          { env := none, malloc_ok := true, sigaltstack_ok := false, sigaction_ok := true }
          (initial_state (sig_info_of linux)) 11 SHBT_EXIT_ACTION_EXIT none).2
        11 SHBT_EXIT_ACTION_EXIT none).1 = true ∧
    (shbt_register_signal_handler (os_ok none)
        (shbt_register_signal_handler
          { env := none, malloc_ok := true, sigaltstack_ok := false, sigaction_ok := true }
          (initial_state (sig_info_of linux)) 11 SHBT_EXIT_ACTION_EXIT none).2
        11 SHBT_EXIT_ACTION_EXIT none).2.dispositions = [(11, shbt_sigaction)] ∧
    shbt_sigaction.SA_ONSTACK = true ∧
    (shbt_register_signal_handler (os_ok none)
        (shbt_register_signal_handler
          { env := none, malloc_ok := true, sigaltstack_ok := false, sigaction_ok := true }
          (initial_state (sig_info_of linux)) 11 SHBT_EXIT_ACTION_EXIT none).2
        11 SHBT_EXIT_ACTION_EXIT none).2.altstack_registered = false := by
  decide

/-! ## Signal handler: auxiliary facts -/

theorem descriptor_info_at (st : SignalState) (sig : Int) (e : shbt_signal_info)
    (h : descriptor st sig = some e) :
    ∃ idx, shbt_get_signal_info sig st.sig_info = some idx ∧ info_at st.sig_info idx = e := by
  unfold descriptor at h
  rcases hg : shbt_get_signal_info sig st.sig_info with _ | idx
  · rw [hg] at h; simp at h
  · rw [hg] at h
    simp only at h
    refine ⟨idx, rfl, ?_⟩
    unfold info_at
    rw [List.getD_eq_getElem?_getD, h]
    rfl

/-- The events of the handler for a signal with descriptor `e`: the report,
then the events of the exit action. -/
theorem sigaction_handler_events (p : Platform) (st : SignalState) (restore_ok : Bool)
    (sig : Int) (info : Option siginfo_t) (e : shbt_signal_info)
    (h : descriptor st sig = some e) :
    (shbt_sigaction_handler p st restore_ok sig info).events
      = ([Event.stderr (shbt_print_signal p st.sig_info sig info),
          Event.stderr "Backtrace:\n".toList,
          Event.print_backtrace_fd 2]
        ++ (match e.callback with
            | some cb => [Event.callback cb sig]
            | none => []))
        ++ (apply_exit_action st restore_ok e.exit_action sig).events ∧
    (shbt_sigaction_handler p st restore_ok sig info).terminated
      = (apply_exit_action st restore_ok e.exit_action sig).terminated ∧
    (shbt_sigaction_handler p st restore_ok sig info).st
      = (apply_exit_action st restore_ok e.exit_action sig).st := by
  obtain ⟨idx, hg, he⟩ := descriptor_info_at st sig e h
  obtain ⟨h1, h2, h3⟩ := sigaction_handler_known p st restore_ok sig info idx hg
  rw [h1, h2, h3, he]
  unfold handler_report
  rw [he]
  exact ⟨rfl, rfl, rfl⟩

theorem apply_exit_action_no_callback (st : SignalState) (restore_ok : Bool) (a sig : Int)
    (cb : Nat) (s : Int) :
    Event.callback cb s ∉ (apply_exit_action st restore_ok a sig).events := by
  unfold apply_exit_action
  split_ifs <;> simp

theorem report_no_raise (p : Platform) (st : SignalState) (sig : Int)
    (info : Option siginfo_t) (e : shbt_signal_info) (s : Int) :
    Event.raise s ∉ ([Event.stderr (shbt_print_signal p st.sig_info sig info),
          Event.stderr "Backtrace:\n".toList, Event.print_backtrace_fd 2]
        ++ (match e.callback with
            | some cb => [Event.callback cb sig]
            | none => [])) := by
  cases e.callback <;> simp

/-! ## Signal handler: the claims -/

/-- C16: after the report, `shbt_sigaction_handler` applies the exit action
stored in the descriptor: EXIT ends with `_exit(EXIT_FAILURE)`; RETURN returns
with the process not terminated and the state unchanged; RERAISE sets the
default disposition and then raises the signal, or, if `sigaction` fails,
prints the error line and ends with `_exit(EXIT_FAILURE)` without raising. -/
theorem handler_applies_exit_action (p : Platform) (st : SignalState) (restore_ok : Bool)
    (sig : Int) (info : Option siginfo_t) (e : shbt_signal_info)
    (h : descriptor st sig = some e) :
    (e.exit_action = SHBT_EXIT_ACTION_EXIT →
      (shbt_sigaction_handler p st restore_ok sig info).events
        = ([Event.stderr (shbt_print_signal p st.sig_info sig info),
          Event.stderr "Backtrace:\n".toList, Event.print_backtrace_fd 2]
        ++ (match e.callback with
            | some cb => [Event.callback cb sig]
            | none => [])) ++ [Event.exit_failure] ∧
      (shbt_sigaction_handler p st restore_ok sig info).terminated = true) ∧
    (e.exit_action = SHBT_EXIT_ACTION_RETURN →
      (shbt_sigaction_handler p st restore_ok sig info).events
        = ([Event.stderr (shbt_print_signal p st.sig_info sig info),
          Event.stderr "Backtrace:\n".toList, Event.print_backtrace_fd 2]
        ++ (match e.callback with
            | some cb => [Event.callback cb sig]
            | none => [])) ∧
      (shbt_sigaction_handler p st restore_ok sig info).terminated = false ∧
      (shbt_sigaction_handler p st restore_ok sig info).st = st) ∧
    (e.exit_action = SHBT_EXIT_ACTION_RERAISE → restore_ok = true →
      (shbt_sigaction_handler p st restore_ok sig info).events
        = ([Event.stderr (shbt_print_signal p st.sig_info sig info),
          Event.stderr "Backtrace:\n".toList, Event.print_backtrace_fd 2]
        ++ (match e.callback with
            | some cb => [Event.callback cb sig]
            | none => [])) ++ [Event.sigaction_default sig, Event.raise sig] ∧
      (shbt_sigaction_handler p st restore_ok sig info).terminated = false ∧
      (shbt_sigaction_handler p st restore_ok sig info).st.dispositions
        = (sig, default_sigaction) :: st.dispositions ∧
      default_sigaction.handler = sa_handler_t.SIG_DFL) ∧
    (e.exit_action = SHBT_EXIT_ACTION_RERAISE → restore_ok = false →
      (shbt_sigaction_handler p st restore_ok sig info).events
        = ([Event.stderr (shbt_print_signal p st.sig_info sig info),
          Event.stderr "Backtrace:\n".toList, Event.print_backtrace_fd 2]
        ++ (match e.callback with
            | some cb => [Event.callback cb sig]
            | none => [])) ++ [Event.sigaction_default sig,
            Event.stderr "SHBT: Error trying to restore default signal handler\n".toList,
            Event.exit_failure] ∧
      (shbt_sigaction_handler p st restore_ok sig info).terminated = true ∧
      Event.raise sig ∉ (shbt_sigaction_handler p st restore_ok sig info).events) := by
  obtain ⟨h1, h2, h3⟩ := sigaction_handler_events p st restore_ok sig info e h
  rw [h1, h2, h3]
  refine ⟨fun ha => ?_, fun ha => ?_, fun ha hr => ?_, fun ha hr => ?_⟩
  · rw [ha]
    exact ⟨rfl, rfl⟩
  · rw [ha]
    refine ⟨?_, rfl, rfl⟩
    show _ ++ [] = _
    rw [List.append_nil]
  · rw [ha, hr]
    exact ⟨rfl, rfl, rfl, rfl⟩
  · rw [ha, hr]
    refine ⟨rfl, rfl, ?_⟩
    intro hm
    rcases List.mem_append.mp hm with hm | hm
    · exact report_no_raise p st sig info e sig hm
    · have hev : (apply_exit_action st false SHBT_EXIT_ACTION_RERAISE sig).events
          = [Event.sigaction_default sig,
             Event.stderr "SHBT: Error trying to restore default signal handler\n".toList,
             Event.exit_failure] := rfl
      rw [hev] at hm
      simp at hm

/-- Witness for C16: SIGUSR1 registered with RETURN on Linux; the handler
returns without terminating. -/
theorem handler_applies_exit_action_witness :
    (shbt_sigaction_handler linux
      (shbt_register_signal_handler (os_ok none) (initial_state sig_info_linux) 10
        SHBT_EXIT_ACTION_RETURN none).2 true 10 none).terminated = false :=
  ((handler_applies_exit_action linux
    (shbt_register_signal_handler (os_ok none) (initial_state sig_info_linux) 10
      SHBT_EXIT_ACTION_RETURN none).2 true 10 none
    { sig_num := 10, sig_name := some "USR1", sig_desc := some "User-defined signal 1",
      exit_action := SHBT_EXIT_ACTION_RETURN, callback := none }
    (by decide)).2.1 rfl).2.1

/-- C17: for a signal with a descriptor the handler performs, in this order,
the signal description, the line `Backtrace:`, the backtrace on stderr, the
callback (once, with the signal number, if it is not NULL; not at all if it is
NULL) and then the exit action, whose events contain no callback; this holds
for every stored exit action. -/
theorem handler_order (p : Platform) (st : SignalState) (restore_ok : Bool)
    (sig : Int) (info : Option siginfo_t) (e : shbt_signal_info)
    (h : descriptor st sig = some e) :
    (shbt_sigaction_handler p st restore_ok sig info).events
      = ([Event.stderr (shbt_print_signal p st.sig_info sig info),
          Event.stderr "Backtrace:\n".toList, Event.print_backtrace_fd 2]
        ++ (match e.callback with
            | some cb => [Event.callback cb sig]
            | none => [])) ++ (apply_exit_action st restore_ok e.exit_action sig).events ∧
    (∀ cb s, Event.callback cb s ∉ (apply_exit_action st restore_ok e.exit_action sig).events) ∧
    (∀ cb, e.callback = some cb →
      (shbt_sigaction_handler p st restore_ok sig info).events.count (Event.callback cb sig) = 1 ∧
      (shbt_sigaction_handler p st restore_ok sig info).events.getD 3 Event.exit_failure
        = Event.callback cb sig ∧
      (∀ c s, Event.callback c s ∈ (shbt_sigaction_handler p st restore_ok sig info).events →
        c = cb ∧ s = sig)) ∧
    (e.callback = none →
      ∀ c s, Event.callback c s ∉ (shbt_sigaction_handler p st restore_ok sig info).events) := by
  obtain ⟨h1, _, _⟩ := sigaction_handler_events p st restore_ok sig info e h
  have hno := apply_exit_action_no_callback st restore_ok e.exit_action sig
  rw [h1]
  refine ⟨rfl, hno, fun cb hcb => ?_, fun hcb c s => ?_⟩
  · rw [hcb]
    refine ⟨?_, rfl, fun c s hm => ?_⟩
    · rw [List.count_append, List.count_eq_zero_of_not_mem (hno cb sig)]
      simp [List.count_cons]
    · rcases List.mem_append.mp hm with hm | hm
      · simp at hm
        exact hm
      · exact absurd hm (hno c s)
  · rw [hcb]
    intro hm
    rcases List.mem_append.mp hm with hm | hm
    · simp at hm
    · exact hno c s hm

/-- Witness for C17: SIGSEGV with callback 7 and exit action EXIT; the
callback is the fourth event and `_exit` the last. -/
theorem handler_order_witness :
    (shbt_sigaction_handler linux
      (shbt_register_signal_handler (os_ok none) (initial_state sig_info_linux) 11
        SHBT_EXIT_ACTION_EXIT (some 7)).2 true 11 none).events.getD 3 Event.exit_failure
      = Event.callback 7 11 :=
  ((handler_order linux
    (shbt_register_signal_handler (os_ok none) (initial_state sig_info_linux) 11
      SHBT_EXIT_ACTION_EXIT (some 7)).2 true 11 none
    { sig_num := 11, sig_name := some "SEGV", sig_desc := some "Invalid memory reference",
      exit_action := SHBT_EXIT_ACTION_EXIT, callback := some 7 }
    (by decide)).2.2.1 7 rfl).2.1

/-- C18: run for a signal number without a descriptor the handler prints only
the line that no signal info was found and ends with `_exit(EXIT_FAILURE)`: no
description, no backtrace, no callback; for a stored exit action that is none
of EXIT, RETURN, RERAISE it prints the unknown-exit-action line after the
report and ends with `_exit(EXIT_FAILURE)`. -/
theorem handler_internal_errors (p : Platform) (st : SignalState) (restore_ok : Bool)
    (sig : Int) (info : Option siginfo_t) :
    (shbt_get_signal_info sig st.sig_info = none →
      (shbt_sigaction_handler p st restore_ok sig info).events
        = [Event.stderr "SHBT: Could not get signal info in signal handler\n".toList,
           Event.exit_failure] ∧
      (shbt_sigaction_handler p st restore_ok sig info).terminated = true ∧
      (shbt_sigaction_handler p st restore_ok sig info).st = st) ∧
    (∀ e, descriptor st sig = some e → e.exit_action ≠ SHBT_EXIT_ACTION_EXIT →
      e.exit_action ≠ SHBT_EXIT_ACTION_RETURN → e.exit_action ≠ SHBT_EXIT_ACTION_RERAISE →
      (shbt_sigaction_handler p st restore_ok sig info).events
        = ([Event.stderr (shbt_print_signal p st.sig_info sig info),
          Event.stderr "Backtrace:\n".toList, Event.print_backtrace_fd 2]
        ++ (match e.callback with
            | some cb => [Event.callback cb sig]
            | none => [])) ++ [Event.stderr "SHBT: Unknown exit action\n".toList, Event.exit_failure] ∧
      (shbt_sigaction_handler p st restore_ok sig info).terminated = true) := by
  refine ⟨sigaction_handler_unknown p st restore_ok sig info, fun e h n1 n2 n3 => ?_⟩
  obtain ⟨h1, h2, _⟩ := sigaction_handler_events p st restore_ok sig info e h
  rw [h1, h2]
  unfold apply_exit_action
  rw [if_neg n1, if_neg n2, if_neg n3]
  exact ⟨rfl, rfl⟩

/-- Witness for C18: the handler run for signal 99 on Linux, and for SIGUSR1
with the stored exit action 5. -/
theorem handler_internal_errors_witness :
    (shbt_sigaction_handler linux (initial_state sig_info_linux) true 99 none).events
      = [Event.stderr "SHBT: Could not get signal info in signal handler\n".toList,
         Event.exit_failure] ∧
    (shbt_sigaction_handler linux
      (shbt_register_signal_exit_action (initial_state sig_info_linux) 10 5).2
      true 10 none).terminated = true :=
  ⟨((handler_internal_errors linux (initial_state sig_info_linux) true 99 none).1
      (by decide)).1,
    ((handler_internal_errors linux
      (shbt_register_signal_exit_action (initial_state sig_info_linux) 10 5).2 true 10 none).2
      { sig_num := 10, sig_name := some "USR1", sig_desc := some "User-defined signal 1",
        exit_action := 5, callback := none }
      (by decide) (by decide) (by decide) (by decide)).2⟩

/-! ## Signal description: auxiliary facts -/

theorem holds_getElem (b : Buffer) (s : List Char) (h : b.holds s) (k : Nat)
    (hk : k < s.length) : s[k]? = some (b.mem k) := by
  have := take_getElem b s.length k hk
  rw [h.1] at this
  exact this

/-- Reading the C string a buffer holds gives that string back. -/
theorem read_cstr_holds (b : Buffer) (s : List Char) (h : b.holds s) :
    ∀ (fuel k : Nat), k ≤ s.length → s.length - k < fuel → read_cstr b fuel k = s.drop k := by
  intro fuel
  induction fuel with
  | zero => intro k _ hf; omega
  | succ fuel ih =>
    intro k hk hf
    unfold read_cstr
    by_cases hlt : k < s.length
    · have hget := holds_getElem b s h k hlt
      have hne : b.mem k ≠ NUL := by
        intro hn
        rw [hn] at hget
        exact h.2.2 (List.getElem?_mem hget)
      rw [if_neg hne, ih (k + 1) (by omega) (by omega)]
      rw [List.getElem?_eq_getElem hlt] at hget
      injection hget with hget
      rw [← hget]
      exact (List.drop_eq_getElem_cons hlt).symm
    · have hk2 : k = s.length := by omega
      rw [hk2, if_pos h.2.1, List.drop_length]

theorem read_cstr_empty (b : Buffer) (fuel : Nat) (h : b.mem 0 = NUL) :
    read_cstr b fuel 0 = [] := by
  cases fuel with
  | zero => rfl
  | succ fuel =>
    unfold read_cstr
    rw [if_pos h]

/-- After a failed call on a buffer of at least one byte, `buf[0]` is `NUL`. -/
theorem shbt_itoa_fail_mem (i : Int) (buf : Buffer) (size : Nat) (base : Int) (pad : Nat)
    (hsz : size < SIZE_MAX) (hpos : 0 < size)
    (hfail : (shbt_itoa i buf size base pad).ret = false) :
    (shbt_itoa i buf size base pad).buf.mem 0 = NUL := by
  by_cases hbase : base < 2 ∨ base > 16
  · rw [shbt_itoa_bad_base i buf size base pad hpos hbase]
    simp [store_mem]
  · obtain ⟨S1, S2⟩ := shbt_itoa_spec i buf size base pad hsz (by omega) (by omega) hpos
    by_cases hfit : itoa_start i base
        + (lsd_digits base.toNat (itoa_j i base) pad).length + 1 ≤ size
    · have := (S1 hfit).1
      rw [hfail] at this
      exact absurd this (by decide)
    · exact (S2 (by omega)).2.1

theorem size_128 : (128 : Nat) < SIZE_MAX := by
  unfold SIZE_MAX
  norm_num

/-- The text `str_buf` holds after any call of `shbt_itoa` on it: the
numeral if it fitted, nothing otherwise. -/
theorem itoa_text (i : Int) (buf : Buffer) (base : Int) (pad : Nat) :
    ((shbt_itoa i buf 128 base pad).ret = true ∧
      read_cstr (shbt_itoa i buf 128 base pad).buf 128 0
        = sign_chars i base
          ++ (List.replicate (max pad 1 - (Nat.digits base.toNat (itoa_j i base)).length) '0'
          ++ msd_chars base.toNat (itoa_j i base)) ∧
      2 ≤ base ∧ base ≤ 16) ∨
    ((shbt_itoa i buf 128 base pad).ret = false ∧
      read_cstr (shbt_itoa i buf 128 base pad).buf 128 0 = []) := by
  cases hr : (shbt_itoa i buf 128 base pad).ret
  · right
    exact ⟨rfl, read_cstr_empty _ _ (shbt_itoa_fail_mem i buf 128 base pad size_128
      (by norm_num) hr)⟩
  · left
    obtain ⟨hb2, hb16, hfit⟩ := (shbt_itoa_ret_iff i buf 128 base pad size_128).mp hr
    unfold num_digits at hfit
    have hh := (shbt_itoa_holds i buf 128 base pad size_128 hb2 hb16 hfit).2.1
    have hlen := out_length i base pad
    refine ⟨rfl, ?_, hb2, hb16⟩
    rw [read_cstr_holds _ _ hh 128 0 (Nat.zero_le _) (by rw [hlen]; omega), List.drop_zero]

theorem digitChar_ne_NL (d : Nat) (h : d < 16) : Nat.digitChar d ≠ NL := by
  interval_cases d <;> decide

/-- No numeral written by `shbt_itoa` contains a newline. -/
theorem itoa_text_clean (i : Int) (buf : Buffer) (base : Int) (pad : Nat) :
    NL ∉ read_cstr (shbt_itoa i buf 128 base pad).buf 128 0 := by
  rcases itoa_text i buf base pad with ⟨_, h, hb2, hb16⟩ | ⟨_, h⟩
  · rw [h]
    intro hm
    simp only [List.mem_append, List.mem_replicate] at hm
    rcases hm with hm | hm | hm
    · unfold sign_chars at hm
      split at hm
      · simp only [List.mem_singleton] at hm
        exact absurd hm (by decide)
      · simp at hm
    · exact absurd hm.2 (by decide)
    · simp only [msd_chars, List.mem_map, List.mem_reverse] at hm
      obtain ⟨d, hd, he⟩ := hm
      have := Nat.digits_lt_base (by omega : 1 < base.toNat) hd
      exact digitChar_ne_NL d (by omega) he
  · rw [h]
    simp

theorem digits10_len_max : (Nat.digits 10 9223372036854775808).length = 19 := by
  norm_num

theorem digits10_len_le (n : Nat) (h : n ≤ 9223372036854775808) :
    (Nat.digits 10 n).length ≤ 19 := by
  have := Nat.le_digits_len_le 10 n 9223372036854775808 h
  rw [digits10_len_max] at this
  exact this

theorem itoa_j_decimal (i : Int) (hmin : INTPTR_MIN ≤ i) (hmax : i ≤ INTPTR_MAX) :
    itoa_j i 10 = i.natAbs := by
  unfold itoa_j
  by_cases hneg : i < 0
  · rw [if_pos ⟨hneg, rfl⟩]
    exact neg_magnitude_eq i hmin hneg
  · rw [if_neg (fun h => hneg h.1), to_uintptr_nonneg i (by omega) hmax]
    omega

/-- The text of `shbt_itoa(i, str_buf, 128, 10, 0)` is the decimal numeral of
`i`, for every `intptr_t` value. -/
theorem itoa_decimal (i : Int) (buf : Buffer) (hmin : INTPTR_MIN ≤ i) (hmax : i ≤ INTPTR_MAX) :
    (shbt_itoa i buf 128 10 0).ret = true ∧
    read_cstr (shbt_itoa i buf 128 10 0).buf 128 0 = decimal_chars i := by
  have hj := itoa_j_decimal i hmin hmax
  have hn : i.natAbs ≤ 9223372036854775808 := by
    simp only [INTPTR_MIN, INTPTR_MAX] at hmin hmax
    omega
  have hd := digits10_len_le i.natAbs hn
  have hs : itoa_start i 10 ≤ 1 := by
    unfold itoa_start
    split <;> omega
  have hret : (shbt_itoa i buf 128 10 0).ret = true := by
    apply (shbt_itoa_ret_iff i buf 128 10 0 size_128).mpr
    refine ⟨by decide, by decide, ?_⟩
    rw [hj, show (10 : Int).toNat = 10 from rfl]
    unfold num_digits
    omega
  refine ⟨hret, ?_⟩
  rcases itoa_text i buf 10 0 with ⟨_, h, _, _⟩ | ⟨hf, _⟩
  · rw [h, hj, show (10 : Int).toNat = 10 from rfl]
    unfold decimal_chars sign_chars
    by_cases h0 : i = 0
    · subst h0
      simp [msd_chars]
    · have hne : i.natAbs ≠ 0 := by omega
      have hpos : 0 < (Nat.digits 10 i.natAbs).length :=
        List.length_pos.mpr (Nat.digits_ne_nil_iff_ne_zero.mpr hne)
      have hz : max 0 1 - (Nat.digits 10 i.natAbs).length = 0 := by omega
      rw [hz, if_neg h0]
      by_cases hneg : i < 0
      · rw [if_pos ⟨hneg, rfl⟩, if_pos hneg]
        rfl
      · rw [if_neg (fun h => hneg h.1), if_neg hneg]
        rfl
  · rw [hret] at hf
    exact absurd hf (by decide)

/-! ## Signal description: the shape of the output -/

theorem clean_ext_refl (s : PrintState) : clean_ext s s :=
  ⟨[], by simp, by simp⟩

theorem clean_ext_trans (s s1 s2 : PrintState) (h1 : clean_ext s s1) (h2 : clean_ext s1 s2) :
    clean_ext s s2 := by
  obtain ⟨T1, c1, e1⟩ := h1
  obtain ⟨T2, c2, e2⟩ := h2
  refine ⟨T1 ++ T2, ?_, by rw [e2, e1, List.append_assoc]⟩
  intro hm
  rcases List.mem_append.mp hm with hm | hm
  · exact c1 hm
  · exact c2 hm

theorem clean_ext_print (s : PrintState) (t : String) (h : NL ∉ t.toList) :
    clean_ext s (s.print t) :=
  ⟨t.toList, h, rfl⟩

theorem clean_ext_print_opt (s : PrintState) (o : Option String) (h : clean_text o) :
    clean_ext s (s.print_opt o) := by
  cases o with
  | none => exact clean_ext_refl s
  | some t => exact clean_ext_print s t (h t rfl)

theorem clean_ext_itoa_print (s : PrintState) (i base : Int) (pad : Nat) :
    clean_ext s ((s.itoa i base pad).print_buf) :=
  ⟨read_cstr (shbt_itoa i s.str_buf 128 base pad).buf 128 0, itoa_text_clean i s.str_buf base pad,
    rfl⟩

/-- An entry found in a code table belongs to it. -/
theorem get_signal_code_info_mem (c : Int) :
    ∀ (codes : List shbt_signal_code_info) (ci : shbt_signal_code_info),
      shbt_get_signal_code_info codes c = some ci → ci ∈ codes ∧ ci.code_num = c := by
  intro codes
  induction codes with
  | nil => intro ci h; simp [shbt_get_signal_code_info] at h
  | cons e rest ih =>
    intro ci h
    unfold shbt_get_signal_code_info at h
    by_cases hn : e.code_name = none
    · rw [if_pos hn] at h; exact absurd h (by simp)
    · rw [if_neg hn] at h
      by_cases hc : e.code_num = c
      · rw [if_pos hc] at h
        injection h with h
        rw [← h]
        exact ⟨List.mem_cons_self e rest, hc⟩
      · rw [if_neg hc] at h
        exact ⟨List.mem_cons_of_mem e (ih ci h).1, (ih ci h).2⟩

/-- A code table compiled from a source without newlines has none. -/
theorem code_table_clean (p : Platform) (source : List (String × String × String))
    (h : ∀ x ∈ source, NL ∉ x.2.1.toList ∧ NL ∉ x.2.2.toList) :
    codes_clean (code_table p source) := by
  intro e he
  unfold code_table at he
  rcases List.mem_append.mp he with he | he
  · obtain ⟨x, hx, hy⟩ := List.mem_filterMap.mp he
    rcases hp : p x.1 with _ | n
    · rw [hp] at hy; simp at hy
    · rw [hp] at hy
      simp only [Option.map_some', Option.some.injEq] at hy
      rw [← hy]
      constructor
      · intro t ht
        injection ht with ht
        rw [← ht]
        exact (h x hx).1
      · intro t ht
        injection ht with ht
        rw [← ht]
        exact (h x hx).2
  · simp only [List.mem_singleton] at he
    rw [he]
    constructor <;> intro t ht <;> simp at ht

theorem generic_source_clean :
    ∀ x ∈ generic_codes_source, NL ∉ x.2.1.toList ∧ NL ∉ x.2.2.toList := by decide

theorem sigill_source_clean :
    ∀ x ∈ sigill_codes_source, NL ∉ x.2.1.toList ∧ NL ∉ x.2.2.toList := by decide

theorem sigfpe_source_clean :
    ∀ x ∈ sigfpe_codes_source, NL ∉ x.2.1.toList ∧ NL ∉ x.2.2.toList := by decide

theorem sigsegv_source_clean :
    ∀ x ∈ sigsegv_codes_source, NL ∉ x.2.1.toList ∧ NL ∉ x.2.2.toList := by decide

theorem sigbus_source_clean :
    ∀ x ∈ sigbus_codes_source, NL ∉ x.2.1.toList ∧ NL ∉ x.2.2.toList := by decide

theorem sigtrap_source_clean :
    ∀ x ∈ sigtrap_codes_source, NL ∉ x.2.1.toList ∧ NL ∉ x.2.2.toList := by decide

theorem sigpoll_source_clean :
    ∀ x ∈ sigpoll_codes_source, NL ∉ x.2.1.toList ∧ NL ∉ x.2.2.toList := by decide

theorem sigsys_source_clean :
    ∀ x ∈ sigsys_codes_source, NL ∉ x.2.1.toList ∧ NL ∉ x.2.2.toList := by decide

theorem sig_info_source_clean :
    ∀ x ∈ sig_info_source, NL ∉ x.2.1.toList ∧ NL ∉ x.2.2.toList := by decide


/-! ### The names in the signal table -/

theorem update_info_forall (Q : shbt_signal_info → Prop) (f : shbt_signal_info → shbt_signal_info)
    (hf : ∀ e, Q e → Q (f e)) (tbl : List shbt_signal_info) (idx : Nat)
    (h : ∀ e ∈ tbl, Q e) : ∀ e ∈ update_info tbl idx f, Q e := by
  unfold update_info
  rcases hg : tbl[idx]? with _ | e0
  · exact h
  · intro e he
    have he0 : e0 ∈ tbl := by
      obtain ⟨hi, hv⟩ := List.getElem?_eq_some.mp hg
      rw [← hv]
      exact List.getElem_mem hi
    rcases List.mem_or_eq_of_mem_set he with h1 | h1
    · exact h e h1
    · rw [h1]; exact hf e0 (h e0 he0)

theorem register_handler_clean (os : OsCalls) (st : SignalState) (sig a0 : Int)
    (cb : Option Nat) (h : table_clean st.sig_info) :
    table_clean (shbt_register_signal_handler os st sig a0 cb).2.sig_info := by
  rcases hg : shbt_get_signal_info sig st.sig_info with _ | idx
  · rw [register_handler_unknown os st sig a0 cb hg]; exact h
  · rcases ha : effective_exit_action os.env a0 with _ | a
    · rw [register_handler_rejected os st sig a0 cb ha]; exact h
    · rw [register_handler_sig_info os st sig a0 a cb idx hg ha]
      apply update_info_forall (fun e => clean_text e.sig_name ∧ clean_text e.sig_desc)
      · intro e he; exact he
      · apply update_info_forall (fun e => clean_text e.sig_name ∧ clean_text e.sig_desc)
        · intro e he; exact he
        · exact h

theorem register_handlers_clean (a : Int) (cb : Option Nat) :
    ∀ (sigs : List Int) (os : Nat → OsCalls) (st : SignalState), table_clean st.sig_info →
      table_clean (shbt_register_signal_handlers os st sigs a cb).2.sig_info := by
  intro sigs
  induction sigs with
  | nil => intro os st h; rw [register_handlers_nil]; exact h
  | cons x rest ih =>
    intro os st h
    rw [register_handlers_cons]
    by_cases hf : (shbt_register_signal_handler (os 0) st x a cb).1 = false
    · rw [if_pos hf]
      exact register_handler_clean (os 0) st x a cb h
    · rw [if_neg hf]
      exact ih _ _ (register_handler_clean (os 0) st x a cb h)

theorem register_callback_clean (st : SignalState) (sig : Int) (cb : Option Nat)
    (h : table_clean st.sig_info) :
    table_clean (shbt_register_signal_callback st sig cb).2.sig_info := by
  unfold shbt_register_signal_callback
  rcases shbt_get_signal_info sig st.sig_info with _ | idx
  · exact h
  · exact update_info_forall (fun e => clean_text e.sig_name ∧ clean_text e.sig_desc)
      (fun e => { e with callback := cb }) (fun e he => he) st.sig_info idx h

theorem register_exit_action_clean (st : SignalState) (sig a : Int)
    (h : table_clean st.sig_info) :
    table_clean (shbt_register_signal_exit_action st sig a).2.sig_info := by
  unfold shbt_register_signal_exit_action
  rcases shbt_get_signal_info sig st.sig_info with _ | idx
  · exact h
  · exact update_info_forall (fun e => clean_text e.sig_name ∧ clean_text e.sig_desc)
      (fun e => { e with exit_action := a }) (fun e he => he) st.sig_info idx h

theorem sig_info_of_clean (p : Platform) : table_clean (sig_info_of p) := by
  intro e he
  unfold sig_info_of at he
  rcases List.mem_append.mp he with he | he
  · obtain ⟨x, hx, hy⟩ := List.mem_filterMap.mp he
    rcases hp : p x.1 with _ | n
    · rw [hp] at hy; simp at hy
    · rw [hp] at hy
      simp only [Option.map_some', Option.some.injEq] at hy
      rw [← hy]
      constructor
      · intro t ht
        simp only [mk_info, Option.some.injEq] at ht
        rw [← ht]
        exact (sig_info_source_clean x hx).1
      · intro t ht
        simp only [mk_info, Option.some.injEq] at ht
        rw [← ht]
        exact (sig_info_source_clean x hx).2
  · simp only [List.mem_singleton] at he
    rw [he]
    constructor <;> intro t ht <;> simp [sig_info_end] at ht

/-- No name or description of the signal table ever contains a newline. -/
theorem reachable_clean (p : Platform) (st : SignalState) (h : Reachable p st) :
    table_clean st.sig_info := by
  induction h with
  | init => exact sig_info_of_clean p
  | handler st os sig a cb _ ih => exact register_handler_clean os st sig a cb ih
  | handlers st os sigs a cb _ ih => exact register_handlers_clean a cb sigs os st ih
  | fatal st os _ ih =>
    unfold shbt_register_fatal_handlers
    exact register_handlers_clean _ _ _ os st ih
  | callback st sig cb _ ih => exact register_callback_clean st sig cb ih
  | exit_action st sig a _ ih => exact register_exit_action_clean st sig a ih

theorem info_at_clean (tbl : List shbt_signal_info) (idx : Nat) (h : table_clean tbl) :
    clean_text (info_at tbl idx).sig_name ∧ clean_text (info_at tbl idx).sig_desc := by
  unfold info_at
  by_cases hi : idx < tbl.length
  · rw [List.getD_eq_getElem tbl sig_info_end hi]
    exact h _ (List.getElem_mem hi)
  · rw [List.getD_eq_default tbl sig_info_end (by omega)]
    constructor <;> intro t ht <;> simp [sig_info_end] at ht


/-! ### The sections of the description -/

theorem NL_not_mem_append (A B : List Char) (ha : NL ∉ A) (hb : NL ∉ B) : NL ∉ A ++ B := by
  intro hm
  rcases List.mem_append.mp hm with hm | hm
  · exact ha hm
  · exact hb hm

theorem print_out (s : PrintState) (t : String) : (s.print t).out = s.out ++ t.toList := rfl

theorem family_section_ext (s : PrintState) (codes : List shbt_signal_code_info)
    (info : siginfo_t) (g fa : Bool) (hc : codes_clean codes) :
    ∃ s3, clean_ext (s.print "  ") s3 ∧ family_section s codes info g fa = s3.print "\n" := by
  refine ⟨_, ?_, rfl⟩
  have h1 : clean_ext (s.print "  ")
      (match shbt_get_signal_code_info codes info.si_code with
        | some ci => (((s.print "  ").print_opt ci.code_name).print " - ").print_opt ci.code_desc
        | none =>
          if g = false then
            (((s.print "  ").print "Unknown signal code ").itoa info.si_code 10 0).print_buf
          else s.print "  ") := by
    rcases hl : shbt_get_signal_code_info codes info.si_code with _ | ci
    · simp only
      by_cases hg : g = false
      · rw [if_pos hg]
        exact clean_ext_trans _ _ _ (clean_ext_print _ _ (by decide)) (clean_ext_itoa_print _ _ _ _)
      · rw [if_neg hg]
        exact clean_ext_refl _
    · simp only
      have hm := (get_signal_code_info_mem info.si_code codes ci hl).1
      exact clean_ext_trans _ _ _
        (clean_ext_trans _ _ _ (clean_ext_print_opt _ _ (hc ci hm).1)
          (clean_ext_print _ _ (by decide)))
        (clean_ext_print_opt _ _ (hc ci hm).2)
  by_cases hfa : fa = true
  · simp only [if_pos hfa]
    exact clean_ext_trans _ _ _ h1 (clean_ext_trans _ _ _ (clean_ext_print _ _ (by decide))
      (clean_ext_itoa_print _ _ _ _))
  · simp only [if_neg hfa]
    exact h1

/-- The block of a signal family is one non-empty line. -/
theorem family_section_out (s : PrintState) (codes : List shbt_signal_code_info)
    (info : siginfo_t) (g fa : Bool) (hc : codes_clean codes) :
    ∃ M, NL ∉ M ∧ M ≠ [] ∧ (family_section s codes info g fa).out = s.out ++ M ++ [NL] := by
  obtain ⟨s3, ⟨T, c, e⟩, hf⟩ := family_section_ext s codes info g fa hc
  refine ⟨"  ".toList ++ T, NL_not_mem_append _ _ (by decide) c, by simp, ?_⟩
  rw [hf, print_out, e, print_out]
  simp only [List.append_assoc]
  rfl

/-- An entry with a name and the code `c`, standing before the terminator,
makes the lookup of `c` succeed. -/
theorem get_signal_code_info_of_mem (c : Int) :
    ∀ (named rest : List shbt_signal_code_info), (∀ e ∈ named, e.code_name ≠ none) →
      (∃ e ∈ named, e.code_num = c) →
      (shbt_get_signal_code_info (named ++ rest) c).isSome = true := by
  intro named
  induction named with
  | nil => intro rest _ h; obtain ⟨e, he, _⟩ := h; simp at he
  | cons x named ih =>
    intro rest hn h
    rw [List.cons_append]
    unfold shbt_get_signal_code_info
    rw [if_neg (hn x (List.mem_cons_self x named))]
    by_cases hx : x.code_num = c
    · rw [if_pos hx]; rfl
    · rw [if_neg hx]
      obtain ⟨e, he, hs⟩ := h
      have he2 : e ∈ named := by
        rcases List.mem_cons.mp he with h1 | h1
        · rw [h1] at hs; exact absurd hs hx
        · exact h1
      exact ih rest (fun e he => hn e (List.mem_cons_of_mem x he)) ⟨e, he2, hs⟩

/-- On every platform a macro that is defined and listed in the source of a
code table has its code found in the table. -/
theorem code_table_has (p : Platform) (source : List (String × String × String)) (m : String)
    (c : Int) (hm : ∃ x ∈ source, x.1 = m) (hp : p m = some c) :
    (shbt_get_signal_code_info (code_table p source) c).isSome = true := by
  obtain ⟨x, hx, hxm⟩ := hm
  unfold code_table
  apply get_signal_code_info_of_mem
  · intro e he
    obtain ⟨y, _, hy⟩ := List.mem_filterMap.mp he
    rcases hpy : p y.1 with _ | n
    · rw [hpy] at hy; simp at hy
    · rw [hpy] at hy
      simp only [Option.map_some', Option.some.injEq] at hy
      rw [← hy]
      simp
  · refine ⟨{ code_num := c, code_name := some x.2.1, code_desc := some x.2.2 },
      List.mem_filterMap.mpr ⟨x, hx, ?_⟩, rfl⟩
    rw [hxm, hp]
    rfl

/-- The sender is printed only after a generic code: `SI_USER` and `SI_QUEUE`
are entries of `generic_codes` whenever they are defined. -/
theorem sender_is_generic (p : Platform) (c : Int)
    (h : p "SI_USER" = some c ∨ p "SI_QUEUE" = some c) :
    (shbt_get_signal_code_info (code_table p generic_codes_source) c).isSome = true := by
  rcases h with h | h
  · exact code_table_has p generic_codes_source "SI_USER" c (by decide) h
  · exact code_table_has p generic_codes_source "SI_QUEUE" c (by decide) h

theorem sender_ext (p : Platform) (s1 : PrintState) (info : siginfo_t) :
    clean_ext s1
      (if p "SI_USER" = some info.si_code ∨ p "SI_QUEUE" = some info.si_code then
        (((((s1.print " - Source PID: ").itoa info.si_pid 10 0).print_buf).print
          " - UID: ").itoa info.si_uid 10 0).print_buf
      else s1) := by
  by_cases hu : p "SI_USER" = some info.si_code ∨ p "SI_QUEUE" = some info.si_code
  · rw [if_pos hu]
    exact clean_ext_trans _ _ _
      (clean_ext_trans _ _ _ (clean_ext_print _ _ (by decide)) (clean_ext_itoa_print _ _ _ _))
      (clean_ext_trans _ _ _ (clean_ext_print _ _ (by decide)) (clean_ext_itoa_print _ _ _ _))
  · rw [if_neg hu]
    exact clean_ext_refl _

/-- The generic section is the newline ending the header, followed on the
next line by the generic code (and the sender) exactly if the code is in
`generic_codes`. -/
theorem generic_section_out (p : Platform) (s : PrintState) (info : siginfo_t) :
    ∃ M, NL ∉ M ∧ (generic_section p s info).out = s.out ++ NL :: M ∧
      ((shbt_get_signal_code_info (code_table p generic_codes_source) info.si_code).isSome
          = true → M ≠ []) ∧
      ((shbt_get_signal_code_info (code_table p generic_codes_source) info.si_code).isSome
          = false → M = []) := by
  have hcl := code_table_clean p generic_codes_source generic_source_clean
  unfold generic_section
  rcases hl : shbt_get_signal_code_info (code_table p generic_codes_source) info.si_code
    with _ | ci
  · have hno : ¬ (p "SI_USER" = some info.si_code ∨ p "SI_QUEUE" = some info.si_code) := by
      intro h
      have := sender_is_generic p info.si_code h
      rw [hl] at this
      simp at this
    simp only [if_neg hno]
    exact ⟨[], by simp, rfl, by simp, fun _ => rfl⟩
  · simp only
    have hm := (get_signal_code_info_mem info.si_code _ ci hl).1
    have h1 : clean_ext (s.print "\n  ")
        ((((s.print "\n  ").print_opt ci.code_name).print " - ").print_opt ci.code_desc) :=
      clean_ext_trans _ _ _
        (clean_ext_trans _ _ _ (clean_ext_print_opt _ _ (hcl ci hm).1)
          (clean_ext_print _ _ (by decide)))
        (clean_ext_print_opt _ _ (hcl ci hm).2)
    obtain ⟨T, c, e⟩ := clean_ext_trans _ _ _ h1 (sender_ext p _ info)
    refine ⟨"  ".toList ++ T, NL_not_mem_append _ _ (by decide) c, ?_, fun _ => by simp,
      fun h => by simp at h⟩
    rw [e, print_out]
    simp only [List.append_assoc]
    rfl

theorem family_after_generic (p : Platform) (s : PrintState) (info : siginfo_t)
    (source : List (String × String × String))
    (hs : ∀ x ∈ source, NL ∉ x.2.1.toList ∧ NL ∉ x.2.2.toList) (g fa : Bool) :
    ∃ B, (family_section (generic_section p s info) (code_table p source) info g fa).out
        = s.out ++ NL :: B ∧
      (B = [] ∨ ∃ M, M ≠ [] ∧ NL ∉ M ∧ B = M ++ [NL]) := by
  obtain ⟨M0, c0, e0, _, _⟩ := generic_section_out p s info
  obtain ⟨M1, c1, n1, e1⟩ := family_section_out (generic_section p s info) (code_table p source)
    info g fa (code_table_clean p source hs)
  refine ⟨(M0 ++ M1) ++ [NL], ?_, Or.inr ⟨M0 ++ M1, by simp [n1],
    NL_not_mem_append _ _ c0 c1, rfl⟩⟩
  rw [e1, e0]
  simp

/-- After the header a present extended info adds the newline ending the
header and at most one further line, itself ended by a newline. -/
theorem print_signal_info_out (p : Platform) (s : PrintState) (sig_num : Int)
    (info : siginfo_t) :
    ∃ B, (print_signal_info p s sig_num info).out = s.out ++ NL :: B ∧
      (B = [] ∨ ∃ M, M ≠ [] ∧ NL ∉ M ∧ B = M ++ [NL]) := by
  unfold print_signal_info
  simp only
  split_ifs with h1 h2 h3 h4 h5 h6 h7 h8
  · exact family_after_generic p s info _ sigill_source_clean _ _
  · exact family_after_generic p s info _ sigfpe_source_clean _ _
  · exact family_after_generic p s info _ sigsegv_source_clean _ _
  · exact family_after_generic p s info _ sigbus_source_clean _ _
  · exact family_after_generic p s info _ sigtrap_source_clean _ _
  · exact family_after_generic p s info _ sigpoll_source_clean _ _
  · exact family_after_generic p s info _ sigsys_source_clean _ _
  · obtain ⟨M0, c0, e0, n0, _⟩ := generic_section_out p s info
    refine ⟨M0 ++ [NL], ?_, Or.inr ⟨M0, n0 h8, c0, rfl⟩⟩
    rw [print_out, e0]
    simp
    rfl
  · obtain ⟨M0, c0, e0, _, z0⟩ := generic_section_out p s info
    refine ⟨[], ?_, Or.inl rfl⟩
    rw [e0, z0 (by simpa using h8)]

theorem clean_ext_itoa_print_buf (s : PrintState) (i base : Int) (pad : Nat) (t : String) :
    clean_ext ((s.itoa i base pad).print t) (((s.itoa i base pad).print t).print_buf) :=
  ⟨read_cstr (shbt_itoa i s.str_buf 128 base pad).buf 128 0, itoa_text_clean i s.str_buf base pad,
    rfl⟩

/-- The header: `Received signal `, the number, a space, the name, ` - `, the
description; no newline in it. -/
theorem header_out (s0 : PrintState) (tbl : List shbt_signal_info) (sig_num : Int) (idx : Nat)
    (hc : table_clean tbl) :
    ∃ H, NL ∉ H ∧ H ≠ [] ∧
      (PrintState.print_opt (PrintState.print (PrintState.print_opt (PrintState.print
        (PrintState.print_buf (PrintState.print (PrintState.itoa s0 sig_num 10 0)
          "Received signal ")) " ") (info_at tbl idx).sig_name) " - ")
        (info_at tbl idx).sig_desc).out = s0.out ++ H := by
  obtain ⟨T, c, e⟩ := clean_ext_trans _ _ _
    (clean_ext_trans _ _ _
      (clean_ext_trans _ _ _
        (clean_ext_trans _ _ _
          (clean_ext_itoa_print_buf s0 sig_num 10 0 "Received signal ")
          (clean_ext_print _ " " (by decide)))
        (clean_ext_print_opt _ _ (info_at_clean tbl idx hc).1))
      (clean_ext_print _ " - " (by decide)))
    (clean_ext_print_opt _ _ (info_at_clean tbl idx hc).2)
  refine ⟨"Received signal ".toList ++ T, NL_not_mem_append _ _ (by decide) c, by simp, ?_⟩
  rw [e, print_out, List.append_assoc]
  rfl

/-! ### Blank lines -/

theorem no_blank_line_append (A : List Char) (ha : NL ∉ A) (L : List Char) :
    no_blank_line (A ++ L) = no_blank_line L := by
  induction A with
  | nil => rfl
  | cons a A ih =>
    have ha1 : a ≠ NL := fun h => ha (by rw [h]; exact List.mem_cons_self _ _)
    have ha2 : NL ∉ A := fun h => ha (List.mem_cons_of_mem _ h)
    rw [List.cons_append]
    rcases hl : A ++ L with _ | ⟨b, rest⟩
    · have : L = [] := (List.append_eq_nil.mp hl).2
      rw [this]
      rfl
    · rw [← ih ha2, hl]
      simp [no_blank_line, ha1]

theorem no_blank_line_shape (H B : List Char) (hH : NL ∉ H)
    (hB : B = [] ∨ ∃ M, M ≠ [] ∧ NL ∉ M ∧ B = M ++ [NL]) :
    no_blank_line (H ++ NL :: B) = true := by
  rw [no_blank_line_append H hH]
  rcases hB with hB | ⟨M, hM, cM, hB⟩
  · rw [hB]; rfl
  · rw [hB]
    rcases M with _ | ⟨m, M⟩
    · exact absurd rfl hM
    · have hm : m ≠ NL := fun h => cM (by rw [h]; exact List.mem_cons_self _ _)
      have : no_blank_line ((m :: M) ++ [NL]) = true := by
        rw [no_blank_line_append (m :: M) cM]
        rfl
      rw [List.cons_append] at this ⊢
      simp [no_blank_line, hm, this]

theorem ends_shape (H B : List Char) (hH : NL ∉ H) (hn : H ≠ [])
    (hB : B = [] ∨ ∃ M, M ≠ [] ∧ NL ∉ M ∧ B = M ++ [NL]) :
    ∃ body c, H ++ NL :: B = body ++ [c, NL] ∧ c ≠ NL := by
  rcases hB with hB | ⟨M, hM, cM, hB⟩
  · refine ⟨H.dropLast, H.getLast hn, ?_, fun h => hH (by rw [← h]; exact List.getLast_mem hn)⟩
    rw [hB]
    nth_rewrite 1 [← List.dropLast_append_getLast hn]
    simp
  · refine ⟨H ++ NL :: M.dropLast, M.getLast hM, ?_,
      fun h => cM (by rw [← h]; exact List.getLast_mem hM)⟩
    rw [hB]
    nth_rewrite 1 [← List.dropLast_append_getLast hM]
    simp

/-! ### The text of the header -/

/-- The header printed for a signal with a descriptor, character by
character. -/
theorem header_text (tbl : List shbt_signal_info) (sig_num : Int) (idx : Nat)
    (name desc : String) (hn : (info_at tbl idx).sig_name = some name)
    (hd : (info_at tbl idx).sig_desc = some desc)
    (hmin : INTPTR_MIN ≤ sig_num) (hmax : sig_num ≤ INTPTR_MAX) :
    (PrintState.print_opt (PrintState.print (PrintState.print_opt (PrintState.print
        (PrintState.print_buf (PrintState.print
          (PrintState.itoa { out := [], str_buf := zero_buf } sig_num 10 0)
          "Received signal ")) " ") (info_at tbl idx).sig_name) " - ")
        (info_at tbl idx).sig_desc).out
      = "Received signal ".toList ++ decimal_chars sig_num ++ " ".toList ++ name.toList
          ++ " - ".toList ++ desc.toList := by
  rw [hn, hd]
  simp only [PrintState.print_opt, PrintState.print, PrintState.print_buf, PrintState.itoa,
    List.nil_append]
  rw [(itoa_decimal sig_num zero_buf hmin hmax).2]

theorem print_signal_known (p : Platform) (tbl : List shbt_signal_info) (sig_num : Int)
    (idx : Nat) (h : shbt_get_signal_info sig_num tbl = some idx) (info : Option siginfo_t) :
    shbt_print_signal p tbl sig_num info
      = match info with
        | none =>
          (PrintState.print_opt (PrintState.print (PrintState.print_opt (PrintState.print
            (PrintState.print_buf (PrintState.print
              (PrintState.itoa { out := [], str_buf := zero_buf } sig_num 10 0)
              "Received signal ")) " ") (info_at tbl idx).sig_name) " - ")
            (info_at tbl idx).sig_desc).out
        | some i =>
          (print_signal_info p
            (PrintState.print_opt (PrintState.print (PrintState.print_opt (PrintState.print
              (PrintState.print_buf (PrintState.print
                (PrintState.itoa { out := [], str_buf := zero_buf } sig_num 10 0)
                "Received signal ")) " ") (info_at tbl idx).sig_name) " - ")
              (info_at tbl idx).sig_desc) sig_num i).out := by
  cases info with
  | none => unfold shbt_print_signal; simp only [h]
  | some i => unfold shbt_print_signal; simp only [h]

theorem print_signal_unknown (p : Platform) (tbl : List shbt_signal_info) (sig_num : Int)
    (h : shbt_get_signal_info sig_num tbl = none) (info : Option siginfo_t)
    (hmin : INTPTR_MIN ≤ sig_num) (hmax : sig_num ≤ INTPTR_MAX) :
    shbt_print_signal p tbl sig_num info
      = "Received unknown signal ".toList ++ decimal_chars sig_num ++ [NL] := by
  unfold shbt_print_signal
  rw [h]
  simp only [PrintState.print, PrintState.print_buf, PrintState.itoa, List.nil_append]
  rw [(itoa_decimal sig_num zero_buf hmin hmax).2]
  rfl

theorem decimal_chars_11 : decimal_chars 11 = ['1', '1'] := by
  norm_num [decimal_chars, msd_chars]
  decide

theorem decimal_chars_99 : decimal_chars 99 = ['9', '9'] := by
  norm_num [decimal_chars, msd_chars]
  decide

theorem intptr_range_small (n : Int) (h1 : -1000 ≤ n) (h2 : n ≤ 1000) :
    INTPTR_MIN ≤ n ∧ n ≤ INTPTR_MAX := by
  unfold INTPTR_MIN INTPTR_MAX
  constructor <;> omega

/-- The header printed for SIGSEGV on Linux. -/
theorem header_segv :
    (PrintState.print_opt (PrintState.print (PrintState.print_opt (PrintState.print
        (PrintState.print_buf (PrintState.print
          (PrintState.itoa { out := [], str_buf := zero_buf } 11 10 0)
          "Received signal ")) " ") (info_at (sig_info_of linux) 18).sig_name) " - ")
        (info_at (sig_info_of linux) 18).sig_desc).out
      = "Received signal 11 SEGV - Invalid memory reference".toList := by
  rw [header_text (sig_info_of linux) 11 18 "SEGV" "Invalid memory reference" (by decide)
    (by decide) (intptr_range_small 11 (by norm_num) (by norm_num)).1
    (intptr_range_small 11 (by norm_num) (by norm_num)).2, decimal_chars_11]
  decide

/-! ## Signal description: the claims -/

/-- C19, failing input: `shbt_print_signal(SIGSEGV, NULL)` on Linux prints
`Received signal 11 SEGV - Invalid memory reference` and nothing more, so the
header is not terminated by a newline. With the extended info present the
same header is followed by a newline, and the line printed for a signal
without a descriptor ends with a newline as well. -/
theorem header_without_newline :
    shbt_print_signal linux (sig_info_of linux) 11 none
      = "Received signal 11 SEGV - Invalid memory reference".toList ∧
    NL ∉ shbt_print_signal linux (sig_info_of linux) 11 none ∧
    ¬ ("Received signal 11 SEGV - Invalid memory reference\n".toList
        <+: shbt_print_signal linux (sig_info_of linux) 11 none) ∧
    (∀ info : siginfo_t, "Received signal 11 SEGV - Invalid memory reference\n".toList
        <+: shbt_print_signal linux (sig_info_of linux) 11 (some info)) ∧
    shbt_print_signal linux (sig_info_of linux) 99 none
      = "Received unknown signal 99\n".toList := by
  have hg : shbt_get_signal_info 11 (sig_info_of linux) = some 18 := by decide
  have h0 : shbt_print_signal linux (sig_info_of linux) 11 none
      = "Received signal 11 SEGV - Invalid memory reference".toList := by
    rw [print_signal_known linux (sig_info_of linux) 11 18 hg none]
    exact header_segv
  refine ⟨h0, ?_, ?_, ?_, ?_⟩
  · rw [h0]; decide
  · rw [h0]; decide
  · intro info
    rw [print_signal_known linux (sig_info_of linux) 11 18 hg (some info)]
    obtain ⟨B, hB, _⟩ := print_signal_info_out linux
      (PrintState.print_opt (PrintState.print (PrintState.print_opt (PrintState.print
        (PrintState.print_buf (PrintState.print
          (PrintState.itoa { out := [], str_buf := zero_buf } 11 10 0)
          "Received signal ")) " ") (info_at (sig_info_of linux) 18).sig_name) " - ")
        (info_at (sig_info_of linux) 18).sig_desc) 11 info
    simp only
    rw [hB, header_segv]
    exact ⟨B, by simp; rfl⟩
  · rw [print_signal_unknown linux (sig_info_of linux) 99 (by decide) none
      (intptr_range_small 99 (by norm_num) (by norm_num)).1
      (intptr_range_small 99 (by norm_num) (by norm_num)).2, decimal_chars_99]
    decide

/-- C20: in every state reachable by registration calls, for every signal
with a descriptor and every extended info that is present, the output of
`shbt_print_signal` has no two consecutive newlines and ends with exactly one
newline: it is the header, a newline, and then either nothing or one
non-empty line ended by a newline. This holds whether or not the code is in
`generic_codes`, whether or not it is in the table of the signal's family, and
for signals of no family. -/
theorem print_signal_spacing (p : Platform) (st : SignalState) (h : Reachable p st)
    (sig_num : Int) (idx : Nat) (hd : shbt_get_signal_info sig_num st.sig_info = some idx)
    (info : siginfo_t) :
    no_blank_line (shbt_print_signal p st.sig_info sig_num (some info)) = true ∧
    (∃ body c, shbt_print_signal p st.sig_info sig_num (some info) = body ++ [c, NL] ∧
      c ≠ NL) ∧
    (∃ H B, shbt_print_signal p st.sig_info sig_num (some info) = H ++ NL :: B ∧
      NL ∉ H ∧ H ≠ [] ∧ (B = [] ∨ ∃ M, M ≠ [] ∧ NL ∉ M ∧ B = M ++ [NL])) := by
  have hc := reachable_clean p st h
  obtain ⟨H, cH, nH, eH⟩ := header_out { out := [], str_buf := zero_buf } st.sig_info sig_num
    idx hc
  obtain ⟨B, eB, sB⟩ := print_signal_info_out p
    (PrintState.print_opt (PrintState.print (PrintState.print_opt (PrintState.print
      (PrintState.print_buf (PrintState.print
        (PrintState.itoa { out := [], str_buf := zero_buf } sig_num 10 0)
        "Received signal ")) " ") (info_at st.sig_info idx).sig_name) " - ")
      (info_at st.sig_info idx).sig_desc) sig_num info
  have ho : shbt_print_signal p st.sig_info sig_num (some info) = H ++ NL :: B := by
    rw [print_signal_known p st.sig_info sig_num idx hd (some info)]
    simp only
    rw [eB, eH]
    rfl
  rw [ho]
  exact ⟨no_blank_line_shape H B cH sB, ends_shape H B cH nH sB, H, B, rfl, cH, nH, sB⟩

/-- Witness for C20: SIGSEGV with code `SEGV_MAPERR` in the initial state on
Linux. -/
theorem print_signal_spacing_witness :
    Reachable linux (initial_state (sig_info_of linux)) ∧
    shbt_get_signal_info 11 (initial_state (sig_info_of linux)).sig_info = some 18 ∧
    no_blank_line (shbt_print_signal linux (initial_state (sig_info_of linux)).sig_info 11
      (some { si_code := 1, si_pid := 0, si_uid := 0, si_addr := 3735928559 })) = true :=
  ⟨Reachable.init, by decide,
    (print_signal_spacing linux (initial_state (sig_info_of linux)) Reachable.init 11 18
      (by decide) { si_code := 1, si_pid := 0, si_uid := 0, si_addr := 3735928559 }).1⟩

/-! ## Frame of the setters, override values, failed registrations -/

theorem update_info_length (f : shbt_signal_info → shbt_signal_info)
    (tbl : List shbt_signal_info) (idx : Nat) :
    (update_info tbl idx f).length = tbl.length := by
  unfold update_info
  rcases tbl[idx]? with _ | e
  · rfl
  · simp

/-- What `update_info` leaves alone: every entry but the one at `idx`, and of
that one every field `f` keeps. -/
theorem update_info_frame (f : shbt_signal_info → shbt_signal_info)
    (tbl : List shbt_signal_info) (idx k : Nat) :
    (k ≠ idx → (update_info tbl idx f)[k]? = tbl[k]?) ∧
    (update_info tbl idx f)[idx]? = (tbl[idx]?).map f :=
  ⟨update_info_get_other f tbl idx k, update_info_get_same f tbl idx⟩

theorem register_callback_state (st : SignalState) (sig : Int) (cb : Option Nat) :
    (shbt_get_signal_info sig st.sig_info = none ∧
      shbt_register_signal_callback st sig cb = (false, st)) ∨
    (∃ idx, shbt_get_signal_info sig st.sig_info = some idx ∧
      shbt_register_signal_callback st sig cb
        = (true, { st with sig_info :=
            (update_info st.sig_info idx (fun e => { e with callback := cb })) })) := by
  unfold shbt_register_signal_callback
  rcases h : shbt_get_signal_info sig st.sig_info with _ | idx
  · exact Or.inl ⟨rfl, rfl⟩
  · exact Or.inr ⟨idx, rfl, rfl⟩

theorem register_exit_action_state (st : SignalState) (sig a : Int) :
    (shbt_get_signal_info sig st.sig_info = none ∧
      shbt_register_signal_exit_action st sig a = (false, st)) ∨
    (∃ idx, shbt_get_signal_info sig st.sig_info = some idx ∧
      shbt_register_signal_exit_action st sig a
        = (true, { st with sig_info :=
            (update_info st.sig_info idx (fun e => { e with exit_action := a })) })) := by
  unfold shbt_register_signal_exit_action
  rcases h : shbt_get_signal_info sig st.sig_info with _ | idx
  · exact Or.inl ⟨rfl, rfl⟩
  · exact Or.inr ⟨idx, rfl, rfl⟩

/-- C28: `shbt_register_signal_callback(sig, cb)` changes nothing but the
callback field of the descriptor of `sig`, and
`shbt_register_signal_exit_action(sig, a)` nothing but its exit-action field:
the installed handlers, the handler stack and the alternate stack are as
before (no handler is installed), the table keeps its length, every entry
other than the one `shbt_get_signal_info` returns for `sig` is unchanged, and
in every entry the number, the name, the description and the other of the two
fields are unchanged. -/
theorem setters_change_one_field (st : SignalState) (sig a : Int) (cb : Option Nat) :
    ((shbt_register_signal_callback st sig cb).2.dispositions = st.dispositions ∧
      (shbt_register_signal_callback st sig cb).2.signal_handler_stack
        = st.signal_handler_stack ∧
      (shbt_register_signal_callback st sig cb).2.altstack_registered
        = st.altstack_registered ∧
      (shbt_register_signal_callback st sig cb).2.sig_info.length = st.sig_info.length ∧
      (∀ k : Nat, shbt_get_signal_info sig st.sig_info ≠ some k →
        (shbt_register_signal_callback st sig cb).2.sig_info[k]? = st.sig_info[k]?) ∧
      (∀ k : Nat, ((shbt_register_signal_callback st sig cb).2.sig_info[k]?).map
          (fun (e : shbt_signal_info) => (e.sig_num, e.sig_name, e.sig_desc, e.exit_action))
        = (st.sig_info[k]?).map (fun (e : shbt_signal_info) => (e.sig_num, e.sig_name, e.sig_desc, e.exit_action))) ∧
      (∀ sig1, sig1 ≠ sig →
        descriptor (shbt_register_signal_callback st sig cb).2 sig1 = descriptor st sig1)) ∧
    ((shbt_register_signal_exit_action st sig a).2.dispositions = st.dispositions ∧
      (shbt_register_signal_exit_action st sig a).2.signal_handler_stack
        = st.signal_handler_stack ∧
      (shbt_register_signal_exit_action st sig a).2.altstack_registered
        = st.altstack_registered ∧
      (shbt_register_signal_exit_action st sig a).2.sig_info.length = st.sig_info.length ∧
      (∀ k : Nat, shbt_get_signal_info sig st.sig_info ≠ some k →
        (shbt_register_signal_exit_action st sig a).2.sig_info[k]? = st.sig_info[k]?) ∧
      (∀ k : Nat, ((shbt_register_signal_exit_action st sig a).2.sig_info[k]?).map
          (fun (e : shbt_signal_info) => (e.sig_num, e.sig_name, e.sig_desc, e.callback))
        = (st.sig_info[k]?).map (fun (e : shbt_signal_info) => (e.sig_num, e.sig_name, e.sig_desc, e.callback))) ∧
      (∀ sig1, sig1 ≠ sig →
        descriptor (shbt_register_signal_exit_action st sig a).2 sig1 = descriptor st sig1)) := by
  constructor
  · rcases register_callback_state st sig cb with ⟨_, hr⟩ | ⟨idx, hg, hr⟩
    · rw [hr]
      exact ⟨rfl, rfl, rfl, rfl, fun _ _ => rfl, fun _ => rfl, fun _ _ => rfl⟩
    · rw [hr]
      refine ⟨rfl, rfl, rfl, update_info_length _ _ _, fun k hk => ?_, fun k => ?_,
        fun sig1 hne => ?_⟩
      · exact update_info_get_other _ _ _ _ (fun h => hk (by rw [hg, h]))
      · by_cases hk : k = idx
        · subst hk
          show ((update_info st.sig_info k _)[k]?).map _ = _
          rw [update_info_get_same]
          rcases st.sig_info[k]? with _ | e <;> rfl
        · show ((update_info st.sig_info idx _)[k]?).map _ = _
          rw [update_info_get_other _ _ _ _ hk]
      · exact descriptor_update_other st _ sig sig1 idx (fun e => { e with callback := cb })
          (fun _ => rfl) (fun _ => rfl) hg rfl hne
  · rcases register_exit_action_state st sig a with ⟨_, hr⟩ | ⟨idx, hg, hr⟩
    · rw [hr]
      exact ⟨rfl, rfl, rfl, rfl, fun _ _ => rfl, fun _ => rfl, fun _ _ => rfl⟩
    · rw [hr]
      refine ⟨rfl, rfl, rfl, update_info_length _ _ _, fun k hk => ?_, fun k => ?_,
        fun sig1 hne => ?_⟩
      · exact update_info_get_other _ _ _ _ (fun h => hk (by rw [hg, h]))
      · by_cases hk : k = idx
        · subst hk
          show ((update_info st.sig_info k _)[k]?).map _ = _
          rw [update_info_get_same]
          rcases st.sig_info[k]? with _ | e <;> rfl
        · show ((update_info st.sig_info idx _)[k]?).map _ = _
          rw [update_info_get_other _ _ _ _ hk]
      · exact descriptor_update_other st _ sig sig1 idx (fun e => { e with exit_action := a })
          (fun _ => rfl) (fun _ => rfl) hg rfl hne


theorem strncmp_eq_false (t s : List Char) (h : ¬ t <+: s) :
    strncmp_eq s t t.length = false := by
  rw [Bool.eq_false_iff]
  exact fun hs => h ((strncmp_eq_iff t s).mp hs)

theorem not_EXIT_of_R (s : List Char) (h : s.head? = some 'R') : ¬ "EXIT".toList <+: s := by
  rintro ⟨t, ht⟩
  rw [← ht] at h
  have : ("EXIT".toList ++ t).head? = some 'E' := rfl
  rw [this] at h
  exact absurd h (by decide)

theorem head_of_keyword (k s : List Char) (c : Char) (hk : k.head? = some c) (h : k <+: s) :
    s.head? = some c := by
  obtain ⟨t, ht⟩ := h
  rw [← ht]
  cases k with
  | nil => simp at hk
  | cons d ds => simpa using hk

theorem third_of_keyword (k s : List Char) (c : Char) (hk : k[2]? = some c) (h : k <+: s) :
    s[2]? = some c := by
  obtain ⟨t, ht⟩ := h
  rw [← ht]
  have hl : 2 < k.length := by
    rcases Nat.lt_or_ge 2 k.length with h1 | h1
    · exact h1
    · rw [List.getElem?_eq_none h1] at hk
      exact absurd hk (by simp)
  rw [List.getElem?_append_left hl]
  exact hk

/-- The three keywords exclude one another as beginnings of a value. -/
theorem keywords_exclusive (s : List Char) :
    ("RETURN".toList <+: s → ¬ "EXIT".toList <+: s) ∧
    ("RERAISE".toList <+: s → ¬ "EXIT".toList <+: s ∧ ¬ "RETURN".toList <+: s) := by
  refine ⟨fun h => not_EXIT_of_R s (head_of_keyword _ s 'R' (by decide) h), fun h => ⟨?_, ?_⟩⟩
  · exact not_EXIT_of_R s (head_of_keyword _ s 'R' (by decide) h)
  · intro h2
    have a := third_of_keyword _ s 'R' (by decide) h
    have b := third_of_keyword _ s 'T' (by decide) h2
    rw [a] at b
    exact absurd b (by decide)

/-- The override as a function of how the value begins. -/
theorem effective_exit_action_keyword (v : String) (a : Int) :
    ("EXIT".toList <+: v.toList →
      effective_exit_action (some v) a = some SHBT_EXIT_ACTION_EXIT) ∧
    ("RETURN".toList <+: v.toList →
      effective_exit_action (some v) a = some SHBT_EXIT_ACTION_RETURN) ∧
    ("RERAISE".toList <+: v.toList →
      effective_exit_action (some v) a = some SHBT_EXIT_ACTION_RERAISE) := by
  refine ⟨fun h => ?_, fun h => ?_, fun h => ?_⟩
  · have e1 : strncmp_eq v.toList "EXIT".toList 4 = true :=
      (strncmp_eq_iff "EXIT".toList v.toList).mpr h
    simp only [effective_exit_action]
    rw [if_pos e1]
  · have e1 : strncmp_eq v.toList "EXIT".toList 4 = false :=
      strncmp_eq_false "EXIT".toList v.toList ((keywords_exclusive v.toList).1 h)
    have e2 : strncmp_eq v.toList "RETURN".toList 6 = true :=
      (strncmp_eq_iff "RETURN".toList v.toList).mpr h
    simp only [effective_exit_action, e1, e2]
    rfl
  · have e1 : strncmp_eq v.toList "EXIT".toList 4 = false :=
      strncmp_eq_false "EXIT".toList v.toList ((keywords_exclusive v.toList).2 h).1
    have e2 : strncmp_eq v.toList "RETURN".toList 6 = false :=
      strncmp_eq_false "RETURN".toList v.toList ((keywords_exclusive v.toList).2 h).2
    have e3 : strncmp_eq v.toList "RERAISE".toList 7 = true :=
      (strncmp_eq_iff "RERAISE".toList v.toList).mpr h
    simp only [effective_exit_action, e1, e2, e3]
    rfl

theorem register_handler_all_ok (os : OsCalls) (st : SignalState) (sig a0 x : Int)
    (cb : Option Nat) (idx : Nat) (h : shbt_get_signal_info sig st.sig_info = some idx)
    (hx : effective_exit_action os.env a0 = some x) (hm : os.malloc_ok = true)
    (hl : os.sigaltstack_ok = true) (hq : os.sigaction_ok = true) :
    (shbt_register_signal_handler os st sig a0 cb).1 = true := by
  unfold shbt_register_signal_handler
  rw [h]
  simp only [hx, hm, hl, hq]
  cases st.signal_handler_stack <;> simp

/-- C29: the value of SHBT_SIGNAL_EXIT_ACTION is matched by its beginning
only, case-sensitively. For a signal with a descriptor, a value that begins
with EXIT, RETURN or RERAISE makes the registration store that action
(whatever follows the keyword and whatever the argument is) and succeed when
the OS calls do; any other value that is set makes the registration return
false with the state unchanged. `EXIT_NOW` and `RETURNED` are accepted, the
empty string and `exit` are not. -/
theorem override_matched_by_start (os : OsCalls) (st : SignalState) (sig a : Int)
    (cb : Option Nat) (idx : Nat) (v : String)
    (h : shbt_get_signal_info sig st.sig_info = some idx) (hv : os.env = some v) :
    ("EXIT".toList <+: v.toList →
      (descriptor (shbt_register_signal_handler os st sig a cb).2 sig).map
        (fun e => e.exit_action) = some SHBT_EXIT_ACTION_EXIT ∧
      (os.malloc_ok = true → os.sigaltstack_ok = true → os.sigaction_ok = true →
        (shbt_register_signal_handler os st sig a cb).1 = true)) ∧
    ("RETURN".toList <+: v.toList →
      (descriptor (shbt_register_signal_handler os st sig a cb).2 sig).map
        (fun e => e.exit_action) = some SHBT_EXIT_ACTION_RETURN ∧
      (os.malloc_ok = true → os.sigaltstack_ok = true → os.sigaction_ok = true →
        (shbt_register_signal_handler os st sig a cb).1 = true)) ∧
    ("RERAISE".toList <+: v.toList →
      (descriptor (shbt_register_signal_handler os st sig a cb).2 sig).map
        (fun e => e.exit_action) = some SHBT_EXIT_ACTION_RERAISE ∧
      (os.malloc_ok = true → os.sigaltstack_ok = true → os.sigaction_ok = true →
        (shbt_register_signal_handler os st sig a cb).1 = true)) ∧
    (¬ "EXIT".toList <+: v.toList → ¬ "RETURN".toList <+: v.toList →
      ¬ "RERAISE".toList <+: v.toList →
      shbt_register_signal_handler os st sig a cb = (false, st)) ∧
    ("EXIT".toList <+: "EXIT_NOW".toList ∧ "RETURN".toList <+: "RETURNED".toList ∧
      ¬ "EXIT".toList <+: "".toList ∧ ¬ "RETURN".toList <+: "".toList ∧
      ¬ "RERAISE".toList <+: "".toList ∧ ¬ "EXIT".toList <+: "exit".toList ∧
      ¬ "RETURN".toList <+: "exit".toList ∧ ¬ "RERAISE".toList <+: "exit".toList) := by
  obtain ⟨k1, k2, k3⟩ := effective_exit_action_keyword v a
  refine ⟨fun hp => ?_, fun hp => ?_, fun hp => ?_, fun h1 h2 h3 => ?_, ?_⟩
  · have hx : effective_exit_action os.env a = some SHBT_EXIT_ACTION_EXIT := by
      rw [hv]; exact k1 hp
    exact ⟨(register_handler_stored os st sig a _ cb idx h hx).1,
      register_handler_all_ok os st sig a _ cb idx h hx⟩
  · have hx : effective_exit_action os.env a = some SHBT_EXIT_ACTION_RETURN := by
      rw [hv]; exact k2 hp
    exact ⟨(register_handler_stored os st sig a _ cb idx h hx).1,
      register_handler_all_ok os st sig a _ cb idx h hx⟩
  · have hx : effective_exit_action os.env a = some SHBT_EXIT_ACTION_RERAISE := by
      rw [hv]; exact k3 hp
    exact ⟨(register_handler_stored os st sig a _ cb idx h hx).1,
      register_handler_all_ok os st sig a _ cb idx h hx⟩
  · exact register_handler_rejected os st sig a cb
      (by rw [hv]; exact effective_exit_action_none v a h1 h2 h3)
  · decide

/-- Witness for C29: SIGSEGV registered with the argument RERAISE while the
variable is `EXIT_NOW` stores EXIT and succeeds. -/
theorem override_matched_by_start_witness :
    shbt_get_signal_info 11 (initial_state sig_info_linux).sig_info = some 18 ∧
    (descriptor (shbt_register_signal_handler (os_ok (some "EXIT_NOW"))
        (initial_state sig_info_linux) 11 SHBT_EXIT_ACTION_RERAISE none).2 11).map
      (fun e => e.exit_action) = some SHBT_EXIT_ACTION_EXIT ∧
    (shbt_register_signal_handler (os_ok (some "EXIT_NOW"))
        (initial_state sig_info_linux) 11 SHBT_EXIT_ACTION_RERAISE none).1 = true ∧
    shbt_register_signal_handler (os_ok (some ""))
        (initial_state sig_info_linux) 11 SHBT_EXIT_ACTION_RERAISE none
      = (false, initial_state sig_info_linux) :=
  ⟨by decide,
    ((override_matched_by_start (os_ok (some "EXIT_NOW")) (initial_state sig_info_linux) 11
      SHBT_EXIT_ACTION_RERAISE none 18 "EXIT_NOW" (by decide) rfl).1 (by decide)).1,
    ((override_matched_by_start (os_ok (some "EXIT_NOW")) (initial_state sig_info_linux) 11
      SHBT_EXIT_ACTION_RERAISE none 18 "EXIT_NOW" (by decide) rfl).1 (by decide)).2 rfl rfl rfl,
    (override_matched_by_start (os_ok (some "")) (initial_state sig_info_linux) 11
      SHBT_EXIT_ACTION_RERAISE none 18 "" (by decide) rfl).2.2.2.1 (by decide) (by decide)
      (by decide)⟩

/-- C30: when the signal has a descriptor and the override, if set, is
accepted, a failure of the stack allocation, of `sigaltstack` or of
`sigaction` makes the call return false although the descriptor already holds
the new exit action and callback; no handler is installed. A false return
leaves the state unchanged when the signal is unknown or the override is
rejected, and every other false return is such a resource failure. -/
theorem register_not_atomic (os : OsCalls) (st : SignalState) (sig a0 : Int)
    (cb : Option Nat) :
    (∀ idx a, shbt_get_signal_info sig st.sig_info = some idx →
      effective_exit_action os.env a0 = some a →
      ((st.signal_handler_stack = false ∧ (os.malloc_ok = false ∨ os.sigaltstack_ok = false)) ∨
        os.sigaction_ok = false) →
      (shbt_register_signal_handler os st sig a0 cb).1 = false ∧
      (∃ e, descriptor st sig = some e ∧
        descriptor (shbt_register_signal_handler os st sig a0 cb).2 sig
          = some { e with exit_action := a, callback := cb }) ∧
      (shbt_register_signal_handler os st sig a0 cb).2.dispositions = st.dispositions) ∧
    ((shbt_get_signal_info sig st.sig_info = none ∨ effective_exit_action os.env a0 = none) →
      shbt_register_signal_handler os st sig a0 cb = (false, st)) ∧
    (∀ idx a, shbt_get_signal_info sig st.sig_info = some idx →
      effective_exit_action os.env a0 = some a →
      (shbt_register_signal_handler os st sig a0 cb).1 = false →
      ((st.signal_handler_stack = false ∧ (os.malloc_ok = false ∨ os.sigaltstack_ok = false)) ∨
        os.sigaction_ok = false)) := by
  refine ⟨fun idx a h ha hf => ?_, fun hu => ?_, fun idx a h ha hr => ?_⟩
  · have hd := (register_handler_descriptor os st sig a0 a cb idx h ha).1
    have hret : (shbt_register_signal_handler os st sig a0 cb).1 = false := by
      unfold shbt_register_signal_handler
      rw [h]
      simp only [ha]
      rcases hf with ⟨hs, hm | hl⟩ | hq
      · simp [hs, hm]
      · cases hm : os.malloc_ok <;> simp [hs, hl]
      · cases st.signal_handler_stack <;> cases os.malloc_ok <;> cases os.sigaltstack_ok <;>
          simp [hq]
    exact ⟨hret, hd, (register_handler_cases os st sig a0 cb).2 hret⟩
  · rcases hu with hu | hu
    · exact register_handler_unknown os st sig a0 cb hu
    · exact register_handler_rejected os st sig a0 cb hu
  · by_contra hc
    have hq : os.sigaction_ok = true := by
      cases hq : os.sigaction_ok
      · exact absurd (Or.inr hq) hc
      · rfl
    have : (shbt_register_signal_handler os st sig a0 cb).1 = true := by
      unfold shbt_register_signal_handler
      rw [h]
      simp only [ha, hq]
      cases hs : st.signal_handler_stack
      · cases hm : os.malloc_ok
        · exact absurd (Or.inl ⟨hs, Or.inl hm⟩) hc
        · cases hl : os.sigaltstack_ok
          · exact absurd (Or.inl ⟨hs, Or.inr hl⟩) hc
          · simp
      · simp
    rw [this] at hr
    exact absurd hr (by decide)

/-- Witness for C30: registering SIGSEGV with RETURN and a callback while
`sigaction` fails returns false and leaves RETURN and the callback stored. -/
theorem register_not_atomic_witness :
    shbt_get_signal_info 11 (initial_state sig_info_linux).sig_info = some 18 ∧
    (shbt_register_signal_handler
        { env := none, malloc_ok := true, sigaltstack_ok := true, sigaction_ok := false }
        (initial_state sig_info_linux) 11 SHBT_EXIT_ACTION_RETURN (some 7)).1 = false ∧
    (∃ e, descriptor (initial_state sig_info_linux) 11 = some e ∧
      descriptor (shbt_register_signal_handler
          { env := none, malloc_ok := true, sigaltstack_ok := true, sigaction_ok := false }
          (initial_state sig_info_linux) 11 SHBT_EXIT_ACTION_RETURN (some 7)).2 11
        = some { e with exit_action := SHBT_EXIT_ACTION_RETURN, callback := some 7 }) :=
  ⟨by decide,
    ((register_not_atomic
      { env := none, malloc_ok := true, sigaltstack_ok := true, sigaction_ok := false }
      (initial_state sig_info_linux) 11 SHBT_EXIT_ACTION_RETURN (some 7)).1 18
      SHBT_EXIT_ACTION_RETURN (by decide) rfl (Or.inr rfl)).1,
    ((register_not_atomic
      { env := none, malloc_ok := true, sigaltstack_ok := true, sigaction_ok := false }
      (initial_state sig_info_linux) 11 SHBT_EXIT_ACTION_RETURN (some 7)).1 18
      SHBT_EXIT_ACTION_RETURN (by decide) rfl (Or.inr rfl)).2.1⟩

/-! ## Raw output: auxiliary facts and the claim -/

theorem safe_print_eintr (output : List Char) (rest : List write_result) :
    shbt_safe_print output (write_result.failed EINTR :: rest)
      = (shbt_safe_print output rest).map (fun x => { x with calls := x.calls + 1 }) := by
  simp [shbt_safe_print]

theorem safe_print_retries (output : List Char) (answers : List write_result) :
    ∀ k : Nat, shbt_safe_print output (List.replicate k (write_result.failed EINTR) ++ answers)
      = (shbt_safe_print output answers).map (fun x => { x with calls := x.calls + k }) := by
  intro k
  induction k with
  | zero =>
    rw [List.replicate_zero, List.nil_append]
    rcases hs : shbt_safe_print output answers with _ | x
    · rfl
    · rfl
  | succ k ih =>
    rw [List.replicate_succ, List.cons_append, safe_print_eintr, ih]
    rcases hs : shbt_safe_print output answers with _ | x
    · rfl
    · simp [Nat.add_assoc]

/-- C26, counterexample: `write` takes one byte of `abc` (a short write);
`shbt_safe_print` returns after that single call with only `a` written. -/
theorem safe_print_short_write_counterexample :
    shbt_safe_print "abc".toList [write_result.accepted 1]
      = some { written := "a".toList, calls := 1 } ∧
    "a".toList ≠ "abc".toList := by
  decide

/-- C26, amended: `shbt_safe_print` passes the whole string to `write`,
repeats the call exactly while it fails with `EINTR`, and returns after the
first call that does not: after `k` interrupted calls and an answer `o` it
has made `k + 1` calls and the bytes written are those the last call took,
the first `r` bytes for a return value `r` (all of them exactly when
`r` is the length of the string, fewer after a short write, which is not
continued) and none after a failure with another error. While every answer
is `EINTR` it does not return. -/
theorem safe_print_last_write (output : List Char) (k : Nat) (o : write_result)
    (rest : List write_result) (ho : o ≠ write_result.failed EINTR) :
    shbt_safe_print output (List.replicate k (write_result.failed EINTR) ++ o :: rest)
      = some { written := (match o with
                           | write_result.accepted r => output.take r
                           | write_result.failed _ => []),
               calls := k + 1 } ∧
    (∀ r, o = write_result.accepted r → (output.take r = output ↔ output.length ≤ r)) ∧
    shbt_safe_print output (List.replicate k (write_result.failed EINTR)) = none := by
  refine ⟨?_, fun r _ => ?_, ?_⟩
  · rw [safe_print_retries]
    cases o with
    | accepted r => simp [shbt_safe_print, Nat.add_comm]
    | failed e =>
      have he : e ≠ EINTR := fun h => ho (by rw [h])
      simp [shbt_safe_print, he, Nat.add_comm]
  · constructor
    · intro h
      have := congrArg List.length h
      rw [List.length_take] at this
      omega
    · exact List.take_of_length_le
  · have := safe_print_retries output [] k
    rw [List.append_nil] at this
    rw [this]
    rfl

/-- Witness for C26 (amended): two interrupted calls, then a complete write of
`abc`. -/
theorem safe_print_last_write_witness :
    write_result.accepted 3 ≠ write_result.failed EINTR ∧
    shbt_safe_print "abc".toList
        (List.replicate 2 (write_result.failed EINTR) ++ write_result.accepted 3 :: [])
      = some { written := "abc".toList.take 3, calls := 2 + 1 } :=
  ⟨by decide,
    (safe_print_last_write "abc".toList 2 (write_result.accepted 3) [] (by decide)).1⟩

/-! ## Backtrace collection: auxiliary facts -/

theorem unw_step_cons (f c : unw_frame) (rest : List unw_frame) :
    unw_step (f :: c :: rest) = some (c :: rest) := rfl

theorem unw_step_single (f : unw_frame) : unw_step [f] = none := rfl

theorem collect_loop_full (num_frames : Nat) (trace : Trace) (cursor : unw_cursor_t)
    (cur_frame : Nat) (h : ¬ cur_frame < num_frames) :
    collect_loop num_frames trace cursor cur_frame = (trace, cur_frame) := by
  rw [collect_loop, if_neg h]

theorem collect_loop_end (num_frames : Nat) (trace : Trace) (f : unw_frame) (cur_frame : Nat) :
    collect_loop num_frames trace [f] cur_frame = (trace, cur_frame) := by
  rw [collect_loop]
  split
  · rfl
  · rfl

theorem collect_loop_step (num_frames : Nat) (trace : Trace) (f c : unw_frame)
    (rest : List unw_frame) (cur_frame : Nat) (h : cur_frame < num_frames) :
    collect_loop num_frames trace (f :: c :: rest) cur_frame
      = collect_loop num_frames
          (trace.set_symbol cur_frame (c.proc_name.getD unknown_symbol_str)) (c :: rest)
          ((cur_frame + 1) % WORD) := by
  rw [collect_loop, if_pos h]
  simp only [unw_step_cons, unw_get_proc_name]
  cases c.proc_name <;> rfl

theorem depth_loop_end (f : unw_frame) (cur_frame : Nat) : depth_loop [f] cur_frame = cur_frame := by
  rw [depth_loop]
  rfl

theorem depth_loop_step (f c : unw_frame) (rest : List unw_frame) (cur_frame : Nat) :
    depth_loop (f :: c :: rest) cur_frame = depth_loop (c :: rest) ((cur_frame + 1) % WORD) := by
  rw [depth_loop]
  rfl

theorem depth_loop_nil (cur_frame : Nat) : depth_loop [] cur_frame = cur_frame := by
  rw [depth_loop]
  rfl


theorem set_symbol_mem (t : Trace) (k : Nat) (s : List Char) (i : Nat) :
    (t.set_symbol k s).mem i
      = if i = k then { addr := (t.mem k).addr, symbol := s } else t.mem i := by
  unfold Trace.set_symbol
  simp only [Function.update_apply]

/-- The loop started with `cur_frame` entries filled, the cursor at a frame
with the callers `callers` above it: it fills one entry per caller while
there is room. -/
theorem collect_loop_spec (num_frames : Nat) (hn : num_frames < WORD) :
    ∀ (callers : List unw_frame) (f : unw_frame) (trace : Trace) (cur_frame : Nat),
      cur_frame ≤ num_frames →
      (collect_loop num_frames trace (f :: callers) cur_frame).2
        = cur_frame + min (num_frames - cur_frame) callers.length ∧
      (collect_loop num_frames trace (f :: callers) cur_frame).1.stores
        = (List.range' cur_frame (min (num_frames - cur_frame) callers.length)).reverse
          ++ trace.stores ∧
      (∀ i, (collect_loop num_frames trace (f :: callers) cur_frame).1.mem i
        = if cur_frame ≤ i ∧ i < cur_frame + min (num_frames - cur_frame) callers.length then
            { addr := (trace.mem i).addr,
              symbol := ((callers.getD (i - cur_frame) f).proc_name).getD unknown_symbol_str }
          else trace.mem i) := by
  intro callers
  induction callers with
  | nil =>
    intro f trace cur hc
    rw [collect_loop_end]
    refine ⟨by simp, by simp, fun i => ?_⟩
    rw [if_neg (by simp only [List.length_nil]; omega)]
  | cons c rest ih =>
    intro f trace cur hc
    by_cases hlt : cur < num_frames
    · rw [collect_loop_step num_frames trace f c rest cur hlt]
      have hmod : (cur + 1) % WORD = cur + 1 := Nat.mod_eq_of_lt (by omega)
      rw [hmod]
      obtain ⟨h1, h2, h3⟩ := ih c (trace.set_symbol cur (c.proc_name.getD unknown_symbol_str))
        (cur + 1) (by omega)
      have hmin : min (num_frames - cur) (c :: rest).length
          = min (num_frames - (cur + 1)) rest.length + 1 := by
        simp only [List.length_cons]
        omega
      refine ⟨?_, ?_, ?_⟩
      · rw [h1, hmin]
        omega
      · rw [h2, hmin, List.range'_succ, List.reverse_cons, List.append_assoc]
        rfl
      · intro i
        rw [h3 i, hmin, set_symbol_mem]
        by_cases hi : i = cur
        · subst hi
          rw [if_neg (by omega), if_pos rfl, if_pos (by omega)]
          simp
        · rw [if_neg hi]
          by_cases hr : cur + 1 ≤ i ∧ i < cur + 1 + min (num_frames - (cur + 1)) rest.length
          · rw [if_pos hr, if_pos (by omega)]
            have : i - cur = (i - (cur + 1)) + 1 := by omega
            rw [this, List.getD_cons_succ]
            rcases Nat.lt_or_ge (i - (cur + 1)) rest.length with hl | hl
            · rw [List.getD_eq_getElem rest c hl, List.getD_eq_getElem rest f hl]
            · omega
          · rw [if_neg hr, if_neg (by omega)]
    · rw [collect_loop_full num_frames trace _ cur hlt]
      have : num_frames - cur = 0 := by omega
      refine ⟨by simp [this], by simp [this], fun i => ?_⟩
      rw [if_neg (by rw [this]; simp only [Nat.zero_min]; omega)]

/-- What the depth loop counts: one per caller above the frame the cursor
points at. -/
theorem depth_loop_spec :
    ∀ (callers : List unw_frame) (f : unw_frame) (cur_frame : Nat), cur_frame < WORD →
      depth_loop (f :: callers) cur_frame = (cur_frame + callers.length) % WORD := by
  intro callers
  induction callers with
  | nil =>
    intro f cur hc
    rw [depth_loop_end, List.length_nil, Nat.add_zero, Nat.mod_eq_of_lt hc]
  | cons c rest ih =>
    intro f cur hc
    rw [depth_loop_step, ih c _ (Nat.mod_lt _ (by unfold WORD; norm_num)), List.length_cons,
      Nat.mod_add_mod]
    congr 1
    omega

/-! ## Backtrace collection: the claims -/

/-- C22: over an unwinder that offers the caller frames `callers` above the
frame of `shbt_collect_backtrace`, the call with capacity `cap` returns true
and sets the count to `min cap n`, `n` being the number of callers. The
entries written are exactly those of index `0, ..., count - 1`, once each in
that order, entry `i` receiving the symbol of the `i`-th nearest caller (or
`(unknown symbol)`); every other entry and every `addr` field is left as it
was, so nothing is written at or beyond `cap`. Capacity 0 gives count 0 with
the array untouched, capacity `n - 1` gives `n - 1` frames. -/
theorem collect_backtrace_count (own : unw_frame) (callers : List unw_frame) (trace : Trace)
    (cap : Nat) (hcap : cap ≤ SIZE_MAX) :
    (shbt_collect_backtrace (own :: callers) trace cap).ret = true ∧
    (shbt_collect_backtrace (own :: callers) trace cap).num_valid_frames
      = min cap callers.length ∧
    (shbt_collect_backtrace (own :: callers) trace cap).trace.stores
      = (List.range (min cap callers.length)).reverse ++ trace.stores ∧
    (∀ i, i < min cap callers.length →
      ∃ g, callers[i]? = some g ∧
        ((shbt_collect_backtrace (own :: callers) trace cap).trace.mem i).symbol
          = g.proc_name.getD unknown_symbol_str) ∧
    (∀ i, min cap callers.length ≤ i →
      (shbt_collect_backtrace (own :: callers) trace cap).trace.mem i = trace.mem i) ∧
    (∀ i, ((shbt_collect_backtrace (own :: callers) trace cap).trace.mem i).addr
      = (trace.mem i).addr) ∧
    (∀ k ∈ (shbt_collect_backtrace (own :: callers) (Trace.mk trace.mem []) cap).trace.stores,
      k < cap) ∧
    (cap = 0 →
      (shbt_collect_backtrace (own :: callers) trace cap).num_valid_frames = 0 ∧
      (shbt_collect_backtrace (own :: callers) trace cap).trace.stores = trace.stores ∧
      (shbt_collect_backtrace (own :: callers) trace cap).trace.mem = trace.mem) ∧
    (cap = callers.length - 1 →
      (shbt_collect_backtrace (own :: callers) trace cap).num_valid_frames
        = callers.length - 1) := by
  have hw : cap < WORD := by
    unfold SIZE_MAX at hcap
    unfold WORD
    omega
  have hspec : ∀ t : Trace,
      (shbt_collect_backtrace (own :: callers) t cap).num_valid_frames
        = min cap callers.length ∧
      (shbt_collect_backtrace (own :: callers) t cap).trace.stores
        = (List.range (min cap callers.length)).reverse ++ t.stores ∧
      (∀ i, (shbt_collect_backtrace (own :: callers) t cap).trace.mem i
        = if i < min cap callers.length then
            { addr := (t.mem i).addr,
              symbol := ((callers.getD i own).proc_name).getD unknown_symbol_str }
          else t.mem i) := by
    intro t
    obtain ⟨h1, h2, h3⟩ := collect_loop_spec cap hw callers own t 0 (Nat.zero_le _)
    refine ⟨?_, ?_, fun i => ?_⟩
    · show (collect_loop cap t (unw_init_local (own :: callers)) 0).2 = _
      unfold unw_init_local
      rw [h1]
      simp
    · show (collect_loop cap t (unw_init_local (own :: callers)) 0).1.stores = _
      unfold unw_init_local
      rw [h2, List.range_eq_range']
      simp
    · show (collect_loop cap t (unw_init_local (own :: callers)) 0).1.mem i = _
      unfold unw_init_local
      rw [h3 i]
      simp
  obtain ⟨h1, h2, h3⟩ := hspec trace
  refine ⟨rfl, h1, h2, fun i hi => ?_, fun i hi => ?_, fun i => ?_, fun k hk => ?_, fun h0 => ?_,
    fun hc => ?_⟩
  · have hl : i < callers.length := by omega
    refine ⟨callers[i], List.getElem?_eq_getElem hl, ?_⟩
    rw [h3 i, if_pos hi, List.getD_eq_getElem callers own hl]
  · rw [h3 i, if_neg (by omega)]
  · rw [h3 i]
    split <;> rfl
  · rw [(hspec (Trace.mk trace.mem [])).2.1] at hk
    simp only [List.append_nil, List.mem_reverse, List.mem_range] at hk
    omega
  · subst h0
    refine ⟨by rw [h1]; simp, by rw [h2]; simp, ?_⟩
    funext i
    rw [h3 i, if_neg (by simp)]
  · rw [h1, hc]
    omega

/-- Witness for C22: three callers above the collector and capacity 2. -/
theorem collect_backtrace_count_witness :
    (2 : Nat) ≤ SIZE_MAX ∧
    (shbt_collect_backtrace
        [{ proc_name := some "shbt_collect_backtrace".toList },
         { proc_name := some "f".toList }, { proc_name := none },
         { proc_name := some "main".toList }]
        { mem := fun _ => { addr := 0, symbol := [] }, stores := [] } 2).num_valid_frames
      = min 2 [({ proc_name := some "f".toList } : unw_frame), { proc_name := none },
          { proc_name := some "main".toList }].length :=
  ⟨by unfold SIZE_MAX; norm_num,
    (collect_backtrace_count { proc_name := some "shbt_collect_backtrace".toList }
      [{ proc_name := some "f".toList }, { proc_name := none },
        { proc_name := some "main".toList }]
      { mem := fun _ => { addr := 0, symbol := [] }, stores := [] } 2
      (by unfold SIZE_MAX; norm_num)).2.1⟩

/-- C23, failing input: for the call stack of three frames
`shbt_get_stack_depth`, `f`, `main` (the innermost being the call itself, `main`
the outermost) the result is 2, not at least 3; for every call stack the
result is the number of frames above the frame of `shbt_get_stack_depth`, one
less than the number of frames that counts the call itself. -/
theorem stack_depth_excludes_own_frame :
    shbt_get_stack_depth
        [{ proc_name := some "shbt_get_stack_depth".toList },
         { proc_name := some "f".toList }, { proc_name := some "main".toList }] = 2 ∧
    ¬ (3 ≤ shbt_get_stack_depth
        [{ proc_name := some "shbt_get_stack_depth".toList },
         { proc_name := some "f".toList }, { proc_name := some "main".toList }]) ∧
    (∀ (own : unw_frame) (callers : List unw_frame),
      shbt_get_stack_depth (own :: callers) = callers.length % WORD ∧
      (callers.length < WORD → shbt_get_stack_depth (own :: callers) < (own :: callers).length)) := by
  have hg : ∀ (own : unw_frame) (callers : List unw_frame),
      shbt_get_stack_depth (own :: callers) = callers.length % WORD := by
    intro own callers
    unfold shbt_get_stack_depth unw_init_local
    rw [depth_loop_spec callers own 0 (by unfold WORD; norm_num), Nat.zero_add]
  have h2 : shbt_get_stack_depth
      [{ proc_name := some "shbt_get_stack_depth".toList },
       { proc_name := some "f".toList }, { proc_name := some "main".toList }] = 2 := by
    rw [hg]
    rfl
  refine ⟨h2, by rw [h2]; decide, fun own callers => ⟨hg own callers, fun hl => ?_⟩⟩
  rw [hg, Nat.mod_eq_of_lt hl, List.length_cons]
  omega

/-! ## Printing a collected backtrace: auxiliary facts -/

theorem strncpy_succ (dst : Buffer) (src : List Char) (n : Nat) :
    strncpy dst src (n + 1) = (strncpy dst src n).store n (src.getD n NUL) := by
  unfold strncpy
  rw [List.range_succ, List.foldl_append]
  rfl

theorem strncpy_mem (dst : Buffer) (src : List Char) :
    ∀ (n k : Nat), (strncpy dst src n).mem k = if k < n then src.getD k NUL else dst.mem k := by
  intro n
  induction n with
  | zero => intro k; rfl
  | succ n ih =>
    intro k
    rw [strncpy_succ]
    unfold Buffer.store
    simp only [Function.update_apply]
    by_cases hk : k = n
    · subst hk
      rw [if_pos rfl, if_pos (by omega)]
    · rw [if_neg hk, ih k]
      by_cases hl : k < n
      · rw [if_pos hl, if_pos (by omega)]
      · rw [if_neg hl, if_neg (by omega)]

/-- After `strncpy` of a string shorter than the count the buffer holds that
string. -/
theorem strncpy_holds (dst : Buffer) (src : List Char) (n : Nat) (h0 : NUL ∉ src)
    (hl : src.length < n) : (strncpy dst src n).holds src := by
  refine ⟨?_, ?_, h0⟩
  · unfold Buffer.take
    apply List.ext_getElem
    · simp
    · intro k h1 h2
      simp only [List.getElem_map, List.getElem_range]
      rw [strncpy_mem, if_pos (by simp at h1; omega), List.getD_eq_getElem src NUL h2]
  · rw [strncpy_mem, if_pos hl, List.getD_eq_default src NUL (Nat.le_refl _)]

/-- The ABI demangler on a 1024-byte buffer: it succeeds exactly when
`abi::__cxa_demangle` reports status 0 and a buffer of at most 1024 bytes, and
then leaves the demangled name in `out`. -/
theorem demangle_text (cxa : List Char → cxa_result) (hc : cxa_contract cxa)
    (symbol : List Char) (out : Buffer) :
    (∀ name, demangled_name cxa symbol = some name →
      (shbt_demangle cxa symbol out 1024).ret = true ∧
      read_cstr (shbt_demangle cxa symbol out 1024).out 1024 0 = name) ∧
    (demangled_name cxa symbol = none → (shbt_demangle cxa symbol out 1024).ret = false) := by
  unfold demangled_name shbt_demangle
  rw [if_neg (show ¬ (1024 : Nat) = 0 by norm_num)]
  by_cases hs : (cxa symbol).abi_status = 0
  · by_cases hz : (cxa symbol).abi_out_size ≤ 1024
    · rw [if_pos (show (cxa symbol).abi_status = 0 ∧ (cxa symbol).abi_out_size ≤ 1024
          from ⟨hs, hz⟩),
        if_neg (show ¬ (cxa symbol).abi_status ≠ 0 from fun h => h hs),
        if_neg (show ¬ (cxa symbol).abi_out_size > 1024 by omega)]
      refine ⟨fun name hn => ⟨rfl, ?_⟩, fun h => absurd h (by simp)⟩
      injection hn with hn
      obtain ⟨h0, hl⟩ := hc symbol hs
      have hh := strncpy_holds out (cxa symbol).abi_out (cxa symbol).abi_out_size h0 hl
      have := read_cstr_holds _ _ hh 1024 0 (Nat.zero_le _) (by omega)
      simp only
      rw [this, List.drop_zero, hn]
    · rw [if_neg (show ¬ ((cxa symbol).abi_status = 0 ∧ (cxa symbol).abi_out_size ≤ 1024)
          from fun h => hz h.2),
        if_neg (show ¬ (cxa symbol).abi_status ≠ 0 from fun h => h hs),
        if_pos (show (cxa symbol).abi_out_size > 1024 by omega)]
      exact ⟨fun name hn => absurd hn (by simp), fun _ => rfl⟩
  · rw [if_neg (show ¬ ((cxa symbol).abi_status = 0 ∧ (cxa symbol).abi_out_size ≤ 1024)
        from fun h => hs h.1),
      if_pos (show (cxa symbol).abi_status ≠ 0 from hs)]
    exact ⟨fun name hn => absurd hn (by simp), fun _ => rfl⟩

theorem to_intptr_small (i : Nat) (h : i < 2 ^ 63) : to_intptr i = (i : Int) := by
  unfold to_intptr
  have : i % WORD = i := Nat.mod_eq_of_lt (by unfold WORD; omega)
  rw [this, if_pos h]

theorem decimal_chars_nat (n : Nat) :
    decimal_chars (n : Int) = if n = 0 then ['0'] else msd_chars 10 n := by
  unfold decimal_chars
  rw [if_neg (by omega)]
  by_cases h0 : n = 0
  · subst h0
    simp
  · rw [if_neg (by omega), if_neg h0, Int.natAbs_ofNat]
    rfl

theorem decimal_chars_nat_length (n : Nat) :
    (decimal_chars (n : Int)).length = max 1 (Nat.digits 10 n).length := by
  rw [decimal_chars_nat]
  by_cases h0 : n = 0
  · subst h0
    simp
  · rw [if_neg h0, msd_chars_length]
    unfold num_digits
    have : 0 < (Nat.digits 10 n).length :=
      List.length_pos.mpr (Nat.digits_ne_nil_iff_ne_zero.mpr h0)
    omega

theorem digits10_length_le_iff (n k : Nat) (hn : n ≠ 0) :
    (Nat.digits 10 n).length ≤ k ↔ n < 10 ^ k := by
  constructor
  · intro h
    exact lt_of_lt_of_le (Nat.lt_base_pow_length_digits (by norm_num))
      (Nat.pow_le_pow_right (by norm_num) h)
  · intro h
    by_contra hc
    have h1 : k + 1 ≤ (Nat.digits 10 n).length := by omega
    have h2 := Nat.base_pow_length_digits_le 10 n (by norm_num) hn
    have h3 : 10 ^ (k + 1) ≤ 10 ^ (Nat.digits 10 n).length :=
      Nat.pow_le_pow_right (by norm_num) h1
    rw [pow_succ] at h3
    omega

/-- The manual padding of lines 55-61 right-justifies the index in a field of
width 4. -/
theorem index_pad_eq (i : Nat) :
    (if i < 10 then "   ".toList else if i < 100 then "  ".toList
      else if i < 1000 then " ".toList else [])
      = List.replicate (4 - (decimal_chars (i : Int)).length) ' ' := by
  rw [decimal_chars_nat_length]
  by_cases h0 : i = 0
  · subst h0
    simp
  · have hpos : 0 < (Nat.digits 10 i).length :=
      List.length_pos.mpr (Nat.digits_ne_nil_iff_ne_zero.mpr h0)
    have k1 := digits10_length_le_iff i 1 h0
    have k2 := digits10_length_le_iff i 2 h0
    have k3 := digits10_length_le_iff i 3 h0
    norm_num at k1 k2 k3
    by_cases h1 : i < 10
    · have : (Nat.digits 10 i).length = 1 := by have := k1.mpr h1; omega
      rw [if_pos h1, this]
      rfl
    · rw [if_neg h1]
      by_cases h2 : i < 100
      · have : (Nat.digits 10 i).length = 2 := by
          have := k2.mpr h2
          have : ¬ (Nat.digits 10 i).length ≤ 1 := fun h => h1 (k1.mp h)
          omega
        rw [if_pos h2, this]
        rfl
      · rw [if_neg h2]
        by_cases h3 : i < 1000
        · have : (Nat.digits 10 i).length = 3 := by
            have := k3.mpr h3
            have : ¬ (Nat.digits 10 i).length ≤ 2 := fun h => h2 (k2.mp h)
            omega
          rw [if_pos h3, this]
          rfl
        · have : ¬ (Nat.digits 10 i).length ≤ 3 := fun h => h3 (k3.mp h)
          rw [if_neg h3]
          have : 4 - max 1 (Nat.digits 10 i).length = 0 := by omega
          rw [this]
          rfl


theorem intptr_of_small (i : Nat) (h : i < 2 ^ 63) :
    INTPTR_MIN ≤ (i : Int) ∧ (i : Int) ≤ INTPTR_MAX := by
  unfold INTPTR_MIN INTPTR_MAX
  constructor <;> omega

/-- The text one iteration of the loop hands to `shbt_safe_print`. -/
theorem print_frame_out (cxa : List Char → cxa_result) (trace : Nat → shbt_frame_t)
    (s : BtPrintState) (i : Nat) (hi : i < 2 ^ 63) :
    (print_frame cxa trace s i).out
      = s.out ++ (index_field i ++ ": ".toList
          ++ (if (shbt_demangle cxa (trace i).symbol s.demangled_symbol 1024).ret = true then
                read_cstr (shbt_demangle cxa (trace i).symbol s.demangled_symbol 1024).out 1024 0
              else (trace i).symbol)
          ++ "\n".toList) := by
  have hpad : ∀ t : BtPrintState,
      t = (if i < 10 then s.print "   ".toList else if i < 100 then s.print "  ".toList
            else if i < 1000 then s.print " ".toList else s) →
      t.out = s.out ++ List.replicate (4 - (decimal_chars (i : Int)).length) ' ' ∧
      t.str_buf = s.str_buf ∧ t.demangled_symbol = s.demangled_symbol := by
    intro t ht
    rw [← index_pad_eq, ht]
    split_ifs <;> simp [BtPrintState.print]
  have hnum := (itoa_decimal (i : Int) s.str_buf (intptr_of_small i hi).1
    (intptr_of_small i hi).2).2
  unfold print_frame
  simp only
  generalize hs1 : (if i < 10 then s.print "   ".toList else if i < 100 then s.print "  ".toList
            else if i < 1000 then s.print " ".toList else s) = s1
  obtain ⟨p1, p2, p3⟩ := hpad s1 hs1.symm
  simp only [BtPrintState.print]
  rw [p1, p2, p3, to_intptr_small i hi, hnum]
  unfold index_field
  split_ifs <;> simp only [List.append_assoc]

/-- With a demangler that respects its contract each iteration prints the
line of its frame. -/
theorem print_frame_line (cxa : List Char → cxa_result) (hc : cxa_contract cxa)
    (trace : Nat → shbt_frame_t) (s : BtPrintState) (i : Nat) (hi : i < 2 ^ 63) :
    (print_frame cxa trace s i).out = s.out ++ described_line cxa i (trace i).symbol := by
  rw [print_frame_out cxa trace s i hi]
  unfold described_line
  obtain ⟨h1, h2⟩ := demangle_text cxa hc (trace i).symbol s.demangled_symbol
  rcases hd : demangled_name cxa (trace i).symbol with _ | name
  · rw [if_neg (by rw [h2 hd]; decide)]
  · rw [if_pos (h1 name hd).1, (h1 name hd).2]

theorem print_collected_succ (cxa : List Char → cxa_result) (trace : Nat → shbt_frame_t)
    (n : Nat) :
    (shbt_print_collected_backtrace_fd cxa trace (n + 1)).out
      = (print_frame cxa trace
          ((List.range n).foldl (print_frame cxa trace)
            { out := [], str_buf := zero_buf, demangled_symbol := zero_buf }) n).out := by
  unfold shbt_print_collected_backtrace_fd
  simp only
  rw [List.range_succ, List.foldl_append]
  rfl

theorem print_collected_out (cxa : List Char → cxa_result) (trace : Nat → shbt_frame_t)
    (n : Nat) :
    (shbt_print_collected_backtrace_fd cxa trace n).out
      = ((List.range n).foldl (print_frame cxa trace)
          { out := [], str_buf := zero_buf, demangled_symbol := zero_buf }).out := rfl

theorem print_collected_ends (cxa : List Char → cxa_result) (trace : Nat → shbt_frame_t)
    (n : Nat) :
    (shbt_print_collected_backtrace_fd cxa trace n).out = [] ∨
    (shbt_print_collected_backtrace_fd cxa trace n).out.getLast? = some NL := by
  cases n with
  | zero => exact Or.inl rfl
  | succ n =>
    right
    rw [print_collected_succ]
    unfold print_frame
    simp only [BtPrintState.print]
    rw [List.getLast?_append]
    rfl

theorem index_field_length (i : Nat) :
    (index_field i).length = max 4 (decimal_chars (i : Int)).length := by
  unfold index_field
  rw [List.length_append, List.length_replicate]
  omega

/-! ## Printing a collected backtrace: the claims -/

/-- C24, counterexample: the line of frame 0 with symbol `main` is
`   0: main`, the index standing in a field of four characters, not three. -/
theorem index_field_counterexample :
    (shbt_print_collected_backtrace_fd (fun _ => (cxa_result.mk [] 0 (-2))) (fun _ => (shbt_frame_t.mk 0 "main".toList)) 1).out
      = "   0: main\n".toList ∧
    ¬ ("  0: ".toList <+: (shbt_print_collected_backtrace_fd (fun _ => (cxa_result.mk [] 0 (-2)))
        (fun _ => (shbt_frame_t.mk 0 "main".toList)) 1).out) := by
  have h : (shbt_print_collected_backtrace_fd (fun _ => (cxa_result.mk [] 0 (-2))) (fun _ => (shbt_frame_t.mk 0 "main".toList)) 1).out
      = "   0: main\n".toList := by
    rw [print_collected_succ, print_frame_line _ _ _ _ 0 (by norm_num)]
    · decide
    · intro m hm
      have hs : (cxa_result.mk [] 0 (-2)).abi_status = 0 := hm
      exact absurd hs (by decide)
  rw [h]
  exact ⟨rfl, by decide⟩

/-- C24, amended: the text printed for the frame `i` follows the complete
lines of the frames before it and starts with the index in decimal without
leading zeros, right-justified with spaces in a field of minimum width 4,
followed by `: `; an index below 1000 is padded to exactly 4 characters, an
index of four or more digits is printed without padding. -/
theorem index_field_width (cxa : List Char → cxa_result) (trace : Nat → shbt_frame_t)
    (i : Nat) (hi : i < 2 ^ 63) :
    (∃ rest, (shbt_print_collected_backtrace_fd cxa trace (i + 1)).out
      = (shbt_print_collected_backtrace_fd cxa trace i).out
        ++ (index_field i ++ ": ".toList ++ rest ++ "\n".toList)) ∧
    ((shbt_print_collected_backtrace_fd cxa trace i).out = [] ∨
      (shbt_print_collected_backtrace_fd cxa trace i).out.getLast? = some NL) ∧
    index_field i
      = List.replicate (4 - (decimal_chars (i : Int)).length) ' ' ++ decimal_chars (i : Int) ∧
    (decimal_chars (i : Int) = if i = 0 then ['0'] else msd_chars 10 i) ∧
    (i ≠ 0 → (decimal_chars (i : Int)).head? ≠ some '0') ∧
    (index_field i).length = max 4 (decimal_chars (i : Int)).length ∧
    (i < 1000 → (index_field i).length = 4) ∧
    (1000 ≤ i → index_field i = decimal_chars (i : Int)) := by
  have hlen := decimal_chars_nat_length i
  have k3 : i ≠ 0 → ((Nat.digits 10 i).length ≤ 3 ↔ i < 1000) := fun h0 => by
    have := digits10_length_le_iff i 3 h0
    norm_num at this
    exact this
  refine ⟨?_, print_collected_ends cxa trace i, rfl, decimal_chars_nat i, fun h0 => ?_,
    index_field_length i, fun h => ?_, fun h => ?_⟩
  · rw [print_collected_succ, print_frame_out cxa trace _ i hi, ← print_collected_out]
    exact ⟨_, rfl⟩
  · rw [decimal_chars_nat, if_neg h0]
    unfold msd_chars
    have hne : Nat.digits 10 i ≠ [] := Nat.digits_ne_nil_iff_ne_zero.mpr h0
    have hlast := Nat.getLast_digit_ne_zero 10 h0
    rw [List.head?_map, List.head?_reverse, List.getLast?_eq_getLast _ hne]
    simp only [Option.map_some', ne_eq, Option.some.injEq]
    intro hz
    have hlt : (Nat.digits 10 i).getLast hne < 10 :=
      Nat.digits_lt_base (by norm_num) (List.getLast_mem hne)
    revert hz hlast
    generalize (Nat.digits 10 i).getLast hne = d at hlt
    intro hlast hz
    interval_cases d <;> first | exact absurd rfl hlast | exact absurd hz (by decide)
  · rw [index_field_length, hlen]
    by_cases h0 : i = 0
    · subst h0
      simp
    · have := (k3 h0).mpr h
      omega
  · have h0 : i ≠ 0 := by omega
    have : ¬ (Nat.digits 10 i).length ≤ 3 := fun hc => by
      have := (k3 h0).mp hc
      omega
    unfold index_field
    have hz : 4 - (decimal_chars (i : Int)).length = 0 := by omega
    rw [hz]
    rfl

/-- Witness for C24 (amended): the frame of index 7. -/
theorem index_field_width_witness :
    (7 : Nat) < 2 ^ 63 ∧ (index_field 7).length = 4 :=
  ⟨by norm_num,
    (index_field_width (fun _ => (cxa_result.mk [] 0 (-2)))
      (fun _ => (shbt_frame_t.mk 0 [])) 7 (by norm_num)).2.2.2.2.2.2.1 (by norm_num)⟩

/-- C25: for every frame array and count (an array that fits in memory has at
most `2 ^ 63` entries) and a demangler that respects its contract,
`shbt_print_collected_backtrace_fd` returns true and the text it hands over
is the lines of the frames `0, ..., count - 1` in that order, each made of the
index field, `: `, the demangled name when `shbt_demangle` succeeds for the
symbol of the frame and the stored symbol itself when it fails, and one
newline; with count 0 it is empty. -/
theorem print_collected_lines (cxa : List Char → cxa_result) (hc : cxa_contract cxa)
    (trace : Nat → shbt_frame_t) (num_frames : Nat) (hn : num_frames ≤ 2 ^ 63) :
    (shbt_print_collected_backtrace_fd cxa trace num_frames).ret = true ∧
    (shbt_print_collected_backtrace_fd cxa trace num_frames).out
      = (List.range num_frames).flatMap (fun i => described_line cxa i (trace i).symbol) ∧
    (num_frames = 0 → (shbt_print_collected_backtrace_fd cxa trace num_frames).out = []) ∧
    (∀ (i : Nat) (out : Buffer),
      ((shbt_demangle cxa (trace i).symbol out 1024).ret = true →
        ∃ name, read_cstr (shbt_demangle cxa (trace i).symbol out 1024).out 1024 0 = name ∧
          described_line cxa i (trace i).symbol
            = index_field i ++ ": ".toList ++ name ++ "\n".toList) ∧
      ((shbt_demangle cxa (trace i).symbol out 1024).ret = false →
        described_line cxa i (trace i).symbol
          = index_field i ++ ": ".toList ++ (trace i).symbol ++ "\n".toList)) := by
  have hout : ∀ n, n ≤ 2 ^ 63 →
      (shbt_print_collected_backtrace_fd cxa trace n).out
        = (List.range n).flatMap (fun i => described_line cxa i (trace i).symbol) := by
    intro n
    induction n with
    | zero => intro _; rfl
    | succ n ih =>
      intro hle
      rw [print_collected_succ, print_frame_line cxa hc trace _ n (by omega),
        ← print_collected_out, ih (by omega), List.range_succ, List.flatMap_append,
        List.flatMap_singleton]
  refine ⟨rfl, hout num_frames hn, fun h0 => by subst h0; rfl, fun i out => ?_⟩
  obtain ⟨h1, h2⟩ := demangle_text cxa hc (trace i).symbol out
  unfold described_line
  rcases hd : demangled_name cxa (trace i).symbol with _ | name
  · refine ⟨fun ht => ?_, fun _ => rfl⟩
    rw [h2 hd] at ht
    exact absurd ht (by decide)
  · refine ⟨fun _ => ⟨name, (h1 name hd).2, rfl⟩, fun hf => ?_⟩
    rw [(h1 name hd).1] at hf
    exact absurd hf (by decide)

/-- Witness for C25: two frames, the first demangled, the second not. -/
theorem print_collected_lines_witness :
    cxa_contract (fun m => if m = "_Z1fv".toList
      then (cxa_result.mk "f()".toList 4 0)
      else (cxa_result.mk [] 0 (-2))) ∧
    (2 : Nat) ≤ 2 ^ 63 ∧
    (shbt_print_collected_backtrace_fd (fun m => if m = "_Z1fv".toList
        then (cxa_result.mk "f()".toList 4 0)
        else (cxa_result.mk [] 0 (-2)))
      (fun k => if k = 0 then (shbt_frame_t.mk 0 "_Z1fv".toList)
        else (shbt_frame_t.mk 0 "main".toList)) 2).out
      = (List.range 2).flatMap (fun i => described_line (fun m => if m = "_Z1fv".toList
          then (cxa_result.mk "f()".toList 4 0)
          else (cxa_result.mk [] 0 (-2))) i
          ((fun k => if k = 0 then (shbt_frame_t.mk 0 "_Z1fv".toList)
            else (shbt_frame_t.mk 0 "main".toList)) i).symbol) := by
  have hc : cxa_contract (fun m => if m = "_Z1fv".toList
      then (cxa_result.mk "f()".toList 4 0)
      else (cxa_result.mk [] 0 (-2))) := by
    intro m hm
    by_cases h : m = "_Z1fv".toList
    · simp only [if_pos h]
      decide
    · simp only [if_neg h] at hm
      exact absurd hm (by decide)
  exact ⟨hc, by norm_num, (print_collected_lines _ hc _ 2 (by norm_num)).2.1⟩

/-! ## Signal description: the text of the sections -/

theorem to_uintptr_to_intptr (a : Nat) : to_uintptr (to_intptr a) = a % WORD := by
  have key : (to_intptr a) % ((WORD : Nat) : Int) = ((a % WORD : Nat) : Int) := by
    unfold to_intptr
    have h2 : a % WORD < WORD := Nat.mod_lt _ (by unfold WORD; norm_num)
    generalize a % WORD = q at h2
    unfold WORD at *
    split
    · push_cast
      omega
    · push_cast
      omega
  unfold to_uintptr
  rw [key]
  exact Int.toNat_ofNat _

theorem digits16_len_le (n : Nat) (h : n < WORD) : (Nat.digits 16 n).length ≤ 16 := by
  have := Nat.le_digits_len_le 16 n 18446744073709551615 (by unfold WORD at h; omega)
  rw [digits16_max] at this
  exact this

/-- The text of `shbt_itoa((intptr_t) si_addr, str_buf, 128, 16, 12)`: the
call succeeds and leaves the address in hexadecimal padded to 12 digits. -/
theorem itoa_hex12 (a : Nat) (buf : Buffer) :
    (shbt_itoa (to_intptr a) buf 128 16 12).ret = true ∧
    read_cstr (shbt_itoa (to_intptr a) buf 128 16 12).buf 128 0 = hex12 a := by
  have hj : itoa_j (to_intptr a) 16 = a % WORD := by
    unfold itoa_j
    rw [if_neg (fun h => absurd h.2 (by decide)), to_uintptr_to_intptr]
  have hs : itoa_start (to_intptr a) 16 = 0 := by
    unfold itoa_start
    rw [if_neg (fun h => absurd h.2 (by decide))]
  have hd := digits16_len_le (a % WORD) (Nat.mod_lt _ (by unfold WORD; norm_num))
  have hret : (shbt_itoa (to_intptr a) buf 128 16 12).ret = true := by
    apply (shbt_itoa_ret_iff (to_intptr a) buf 128 16 12 size_128).mpr
    refine ⟨by decide, by decide, ?_⟩
    rw [hj, hs, show (16 : Int).toNat = 16 from rfl]
    unfold num_digits
    omega
  refine ⟨hret, ?_⟩
  rcases itoa_text (to_intptr a) buf 16 12 with ⟨_, h, _, _⟩ | ⟨hf, _⟩
  · rw [h, hj, show (16 : Int).toNat = 16 from rfl]
    unfold hex12 sign_chars
    rw [if_neg (fun h => absurd h.2 (by decide))]
    rfl
  · rw [hret] at hf
    exact absurd hf (by decide)

theorem hex12_length (a : Nat) :
    (hex12 a).length = max 12 (Nat.digits 16 (a % WORD)).length := by
  unfold hex12
  rw [List.length_append, List.length_replicate, msd_chars_length]
  unfold num_digits
  omega

theorem digits16_length_le_12 (n : Nat) : (Nat.digits 16 n).length ≤ 12 ↔ n < 2 ^ 48 := by
  by_cases hn : n = 0
  · subst hn
    simp
  · constructor
    · intro h
      have h1 : n < 16 ^ (Nat.digits 16 n).length :=
        Nat.lt_base_pow_length_digits (by norm_num)
      have h2 : 16 ^ (Nat.digits 16 n).length ≤ 16 ^ 12 := Nat.pow_le_pow_right (by norm_num) h
      have h3 : (16 : Nat) ^ 12 = 2 ^ 48 := by norm_num
      omega
    · intro h
      by_contra hc
      have h1 : 13 ≤ (Nat.digits 16 n).length := by omega
      have h2 := Nat.base_pow_length_digits_le 16 n (by norm_num) hn
      have h3 : 16 ^ 13 ≤ 16 ^ (Nat.digits 16 n).length := Nat.pow_le_pow_right (by norm_num) h1
      have h4 : (16 : Nat) ^ 13 = 16 * 2 ^ 48 := by norm_num
      omega

theorem hex12_chars (a : Nat) : ∀ c ∈ hex12 a, c ∈ "0123456789abcdef".toList := by
  intro c hc
  unfold hex12 at hc
  rcases List.mem_append.mp hc with h | h
  · rw [(List.mem_replicate.mp h).2]
    decide
  · simp only [msd_chars, List.mem_map, List.mem_reverse] at h
    obtain ⟨d, hd, he⟩ := h
    have hlt := Nat.digits_lt_base (by norm_num : 1 < 16) hd
    rw [← he]
    interval_cases d <;> decide


theorem print_opt_out (s : PrintState) (o : Option String) :
    (s.print_opt o).out = s.out ++ opt_text o := by
  cases o with
  | none => simp [PrintState.print_opt, opt_text]
  | some t => rfl

theorem itoa_print_decimal (s : PrintState) (i : Int) (hmin : INTPTR_MIN ≤ i)
    (hmax : i ≤ INTPTR_MAX) : ((s.itoa i 10 0).print_buf).out = s.out ++ decimal_chars i := by
  show s.out ++ read_cstr (shbt_itoa i s.str_buf 128 10 0).buf 128 0 = _
  rw [(itoa_decimal i s.str_buf hmin hmax).2]

theorem itoa_print_hex (s : PrintState) (a : Nat) :
    ((s.itoa (to_intptr a) 16 12).print_buf).out = s.out ++ hex12 a := by
  show s.out ++ read_cstr (shbt_itoa (to_intptr a) s.str_buf 128 16 12).buf 128 0 = _
  rw [(itoa_hex12 a s.str_buf).2]

theorem family_section_split (s : PrintState) (codes : List shbt_signal_code_info)
    (info : siginfo_t) (g fa : Bool) (hmin : INTPTR_MIN ≤ info.si_code)
    (hmax : info.si_code ≤ INTPTR_MAX) :
    ∃ s2 : PrintState,
      s2.out = s.out ++ ("  ".toList
          ++ (match shbt_get_signal_code_info codes info.si_code with
              | some ci => opt_text ci.code_name ++ " - ".toList ++ opt_text ci.code_desc
              | none =>
                if g = true then []
                else "Unknown signal code ".toList ++ decimal_chars info.si_code)) ∧
      family_section s codes info g fa
        = (if fa = true then
            ((s2.print " - Fault occurred at address 0x").itoa (to_intptr info.si_addr)
              16 12).print_buf
          else s2).print "\n" := by
  refine ⟨_, ?_, rfl⟩
  rcases shbt_get_signal_code_info codes info.si_code with _ | ci
  · simp only
    cases g
    · rw [if_pos rfl, if_neg (show ¬ false = true by decide),
        itoa_print_decimal _ _ hmin hmax, print_out, print_out]
      simp only [List.append_assoc]
    · rw [if_neg (show ¬ true = false by decide), if_pos rfl, print_out]
      simp
  · simp only
    rw [print_opt_out, print_out, print_opt_out, print_out]
    simp only [List.append_assoc]

/-- The text of the block of a signal family. -/
theorem family_section_text (s : PrintState) (codes : List shbt_signal_code_info)
    (info : siginfo_t) (g fa : Bool) (hmin : INTPTR_MIN ≤ info.si_code)
    (hmax : info.si_code ≤ INTPTR_MAX) :
    (family_section s codes info g fa).out
      = s.out ++ ("  ".toList
          ++ (match shbt_get_signal_code_info codes info.si_code with
              | some ci => opt_text ci.code_name ++ " - ".toList ++ opt_text ci.code_desc
              | none =>
                if g = true then [] else "Unknown signal code ".toList ++ decimal_chars info.si_code)
          ++ (if fa = true then described_fault info.si_addr else [])
          ++ "\n".toList) := by
  obtain ⟨s2, h2, he⟩ := family_section_split s codes info g fa hmin hmax
  rw [he]
  cases fa
  · rw [if_neg (show ¬ false = true by decide), if_neg (show ¬ false = true by decide),
      print_out, h2]
    simp only [List.append_assoc, List.append_nil]
  · rw [if_pos rfl, if_pos rfl, print_out, itoa_print_hex, print_out, h2]
    unfold described_fault
    simp only [List.append_assoc]

theorem generic_section_split (p : Platform) (s : PrintState) (info : siginfo_t) :
    ∃ s1 : PrintState,
      s1.out = s.out ++ (match shbt_get_signal_code_info (code_table p generic_codes_source)
          info.si_code with
        | some ci =>
          "\n  ".toList ++ opt_text ci.code_name ++ " - ".toList ++ opt_text ci.code_desc
        | none => "\n".toList) ∧
      generic_section p s info
        = if p "SI_USER" = some info.si_code ∨ p "SI_QUEUE" = some info.si_code then
            (((((s1.print " - Source PID: ").itoa info.si_pid 10 0).print_buf).print
              " - UID: ").itoa info.si_uid 10 0).print_buf
          else s1 := by
  refine ⟨_, ?_, rfl⟩
  rcases shbt_get_signal_code_info (code_table p generic_codes_source) info.si_code
    with _ | ci
  · rfl
  · simp only
    rw [print_opt_out, print_out, print_opt_out, print_out]
    simp only [List.append_assoc]

/-- The text of the generic section. -/
theorem generic_section_text (p : Platform) (s : PrintState) (info : siginfo_t)
    (hr : info.in_range) :
    (generic_section p s info).out = s.out ++ described_generic p info := by
  obtain ⟨_, ⟨hp1, hp2⟩, ⟨hu1, hu2⟩⟩ := hr
  obtain ⟨s1, h1, he⟩ := generic_section_split p s info
  rw [he]
  unfold described_generic
  by_cases hu : p "SI_USER" = some info.si_code ∨ p "SI_QUEUE" = some info.si_code
  · rw [if_pos hu, if_pos hu, itoa_print_decimal _ _ hu1 hu2, print_out,
      itoa_print_decimal _ _ hp1 hp2, print_out, h1]
    simp only [List.append_assoc]
  · rw [if_neg hu, if_neg hu, h1, List.append_nil]

/-- The text printed after the header when the extended info is present: the
generic part, then the family part. -/
theorem print_signal_info_text (p : Platform) (s : PrintState) (sig_num : Int)
    (info : siginfo_t) (hr : info.in_range) :
    (print_signal_info p s sig_num info).out
      = s.out ++ described_generic p info ++ described_family p sig_num info := by
  have hg := generic_section_text p s info hr
  have hf : ∀ (f : signal_family),
      (family_section (generic_section p s info) (code_table p f.source) info
        (shbt_get_signal_code_info (code_table p generic_codes_source) info.si_code).isSome
        f.has_fault_addr).out
      = s.out ++ described_generic p info
        ++ ("  ".toList ++ described_code p f info
          ++ (if f.has_fault_addr = true then described_fault info.si_addr else [])
          ++ "\n".toList) := by
    intro f
    rw [family_section_text _ _ _ _ _ hr.1.1 hr.1.2, hg]
    rfl
  unfold print_signal_info described_family family_of
  simp only
  by_cases h1 : p "SIGILL" = some sig_num
  · rw [if_pos h1, if_pos h1]
    exact hf signal_family.ill
  rw [if_neg h1, if_neg h1]
  by_cases h2 : p "SIGFPE" = some sig_num
  · rw [if_pos h2, if_pos h2]
    exact hf signal_family.fpe
  rw [if_neg h2, if_neg h2]
  by_cases h3 : p "SIGSEGV" = some sig_num
  · rw [if_pos h3, if_pos h3]
    exact hf signal_family.segv
  rw [if_neg h3, if_neg h3]
  by_cases h4 : p "SIGBUS" = some sig_num
  · rw [if_pos h4, if_pos h4]
    exact hf signal_family.bus
  rw [if_neg h4, if_neg h4]
  by_cases h5 : p "SIGTRAP" = some sig_num
  · rw [if_pos h5, if_pos h5]
    exact hf signal_family.trap
  rw [if_neg h5, if_neg h5]
  by_cases h6 : p "SIGIO" = some sig_num ∨ p "SIGPOLL" = some sig_num
  · rw [if_pos h6, if_pos h6]
    exact hf signal_family.poll
  rw [if_neg h6, if_neg h6]
  by_cases h7 : p "SIGSYS" = some sig_num
  · rw [if_pos h7, if_pos h7]
    exact hf signal_family.sys
  rw [if_neg h7, if_neg h7]
  simp only
  by_cases h8 : (shbt_get_signal_code_info (code_table p generic_codes_source)
      info.si_code).isSome = true
  · rw [if_pos h8, if_pos h8, print_out, hg]
  · rw [if_neg h8, if_neg h8, hg, List.append_nil]

/-- For a family with a fault address the block ends with the address text
and a newline, whatever precedes it. -/
theorem family_section_fault (s : PrintState) (codes : List shbt_signal_code_info)
    (info : siginfo_t) (g : Bool) :
    ∃ pre, (family_section s codes info g true).out
      = pre ++ " - Fault occurred at address 0x".toList ++ hex12 info.si_addr ++ "\n".toList := by
  have h : ∃ s2 : PrintState, family_section s codes info g true
      = (((s2.print " - Fault occurred at address 0x").itoa (to_intptr info.si_addr)
          16 12).print_buf).print "\n" := ⟨_, rfl⟩
  obtain ⟨s2, h2⟩ := h
  refine ⟨s2.out, ?_⟩
  rw [h2, print_out, itoa_print_hex, print_out]

theorem print_signal_info_fault (p : Platform) (s : PrintState) (sig_num : Int)
    (info : siginfo_t)
    (h : p "SIGILL" = some sig_num ∨ p "SIGFPE" = some sig_num ∨ p "SIGSEGV" = some sig_num ∨
      p "SIGBUS" = some sig_num ∨ p "SIGTRAP" = some sig_num) :
    ∃ pre, (print_signal_info p s sig_num info).out
      = pre ++ " - Fault occurred at address 0x".toList ++ hex12 info.si_addr ++ "\n".toList := by
  unfold print_signal_info
  simp only
  by_cases h1 : p "SIGILL" = some sig_num
  · rw [if_pos h1]
    exact family_section_fault _ _ _ _
  rw [if_neg h1]
  by_cases h2 : p "SIGFPE" = some sig_num
  · rw [if_pos h2]
    exact family_section_fault _ _ _ _
  rw [if_neg h2]
  by_cases h3 : p "SIGSEGV" = some sig_num
  · rw [if_pos h3]
    exact family_section_fault _ _ _ _
  rw [if_neg h3]
  by_cases h4 : p "SIGBUS" = some sig_num
  · rw [if_pos h4]
    exact family_section_fault _ _ _ _
  rw [if_neg h4]
  by_cases h5 : p "SIGTRAP" = some sig_num
  · rw [if_pos h5]
    exact family_section_fault _ _ _ _
  · rcases h with h | h | h | h | h
    · exact absurd h h1
    · exact absurd h h2
    · exact absurd h h3
    · exact absurd h h4
    · exact absurd h h5

theorem family_section_addr (s : PrintState) (codes : List shbt_signal_code_info) (g : Bool)
    (c pid uid : Int) (a1 a2 : Nat) :
    family_section s codes { si_code := c, si_pid := pid, si_uid := uid, si_addr := a1 } g false
      = family_section s codes { si_code := c, si_pid := pid, si_uid := uid, si_addr := a2 } g
          false := by
  unfold family_section
  simp only [Bool.false_eq_true, if_false]

theorem generic_section_addr (p : Platform) (s : PrintState) (c pid uid : Int) (a1 a2 : Nat) :
    generic_section p s { si_code := c, si_pid := pid, si_uid := uid, si_addr := a1 }
      = generic_section p s { si_code := c, si_pid := pid, si_uid := uid, si_addr := a2 } := by
  unfold generic_section
  simp only

/-- For a signal outside ILL, FPE, SEGV, BUS and TRAP the text does not depend
on `si_addr`. -/
theorem print_signal_info_addr (p : Platform) (s : PrintState) (sig_num : Int)
    (c pid uid : Int) (a1 a2 : Nat)
    (h : ¬ (p "SIGILL" = some sig_num ∨ p "SIGFPE" = some sig_num ∨ p "SIGSEGV" = some sig_num ∨
      p "SIGBUS" = some sig_num ∨ p "SIGTRAP" = some sig_num)) :
    print_signal_info p s sig_num { si_code := c, si_pid := pid, si_uid := uid, si_addr := a1 }
      = print_signal_info p s sig_num
          { si_code := c, si_pid := pid, si_uid := uid, si_addr := a2 } := by
  have h1 : ¬ p "SIGILL" = some sig_num := fun x => h (Or.inl x)
  have h2 : ¬ p "SIGFPE" = some sig_num := fun x => h (Or.inr (Or.inl x))
  have h3 : ¬ p "SIGSEGV" = some sig_num := fun x => h (Or.inr (Or.inr (Or.inl x)))
  have h4 : ¬ p "SIGBUS" = some sig_num := fun x => h (Or.inr (Or.inr (Or.inr (Or.inl x))))
  have h5 : ¬ p "SIGTRAP" = some sig_num := fun x => h (Or.inr (Or.inr (Or.inr (Or.inr x))))
  unfold print_signal_info
  simp only [if_neg h1, if_neg h2, if_neg h3, if_neg h4, if_neg h5]
  rw [generic_section_addr p s c pid uid a1 a2]
  by_cases h6 : p "SIGIO" = some sig_num ∨ p "SIGPOLL" = some sig_num
  · rw [if_pos h6, if_pos h6]
    exact family_section_addr _ _ _ c pid uid a1 a2
  rw [if_neg h6, if_neg h6]
  by_cases h7 : p "SIGSYS" = some sig_num
  · rw [if_pos h7, if_pos h7]
    exact family_section_addr _ _ _ c pid uid a1 a2
  rw [if_neg h7, if_neg h7]

/-- The families that carry a fault address, in terms of the signal macros. -/
theorem family_of_fault (p : Platform) (sig_num : Int) :
    (p "SIGILL" = some sig_num ∨ p "SIGFPE" = some sig_num ∨ p "SIGSEGV" = some sig_num ∨
      p "SIGBUS" = some sig_num ∨ p "SIGTRAP" = some sig_num)
      ↔ ∃ f, family_of p sig_num = some f ∧ f.has_fault_addr = true := by
  unfold family_of
  by_cases h1 : p "SIGILL" = some sig_num
  · rw [if_pos h1]
    exact ⟨fun _ => ⟨_, rfl, rfl⟩, fun _ => Or.inl h1⟩
  rw [if_neg h1]
  by_cases h2 : p "SIGFPE" = some sig_num
  · rw [if_pos h2]
    exact ⟨fun _ => ⟨_, rfl, rfl⟩, fun _ => Or.inr (Or.inl h2)⟩
  rw [if_neg h2]
  by_cases h3 : p "SIGSEGV" = some sig_num
  · rw [if_pos h3]
    exact ⟨fun _ => ⟨_, rfl, rfl⟩, fun _ => Or.inr (Or.inr (Or.inl h3))⟩
  rw [if_neg h3]
  by_cases h4 : p "SIGBUS" = some sig_num
  · rw [if_pos h4]
    exact ⟨fun _ => ⟨_, rfl, rfl⟩, fun _ => Or.inr (Or.inr (Or.inr (Or.inl h4)))⟩
  rw [if_neg h4]
  by_cases h5 : p "SIGTRAP" = some sig_num
  · rw [if_pos h5]
    exact ⟨fun _ => ⟨_, rfl, rfl⟩, fun _ => Or.inr (Or.inr (Or.inr (Or.inr h5)))⟩
  rw [if_neg h5]
  constructor
  · rintro (h | h | h | h | h)
    · exact absurd h h1
    · exact absurd h h2
    · exact absurd h h3
    · exact absurd h h4
    · exact absurd h h5
  · rintro ⟨f, hf, ht⟩
    by_cases h6 : p "SIGIO" = some sig_num ∨ p "SIGPOLL" = some sig_num
    · rw [if_pos h6] at hf
      injection hf with hf
      rw [← hf] at ht
      exact absurd ht (by decide)
    · rw [if_neg h6] at hf
      by_cases h7 : p "SIGSYS" = some sig_num
      · rw [if_pos h7] at hf
        injection hf with hf
        rw [← hf] at ht
        exact absurd ht (by decide)
      · rw [if_neg h7] at hf
        exact absurd hf (by simp)

/-- The whole text for a signal with a descriptor and a present extended info:
the header as printed without the info, the generic part and the family
part. -/
theorem print_signal_text (p : Platform) (tbl : List shbt_signal_info) (sig_num : Int)
    (idx : Nat) (info : siginfo_t) (hd : shbt_get_signal_info sig_num tbl = some idx)
    (hr : info.in_range) :
    shbt_print_signal p tbl sig_num (some info)
      = shbt_print_signal p tbl sig_num none ++ described_generic p info
        ++ described_family p sig_num info := by
  rw [print_signal_known p tbl sig_num idx hd (some info),
    print_signal_known p tbl sig_num idx hd none]
  simp only
  rw [print_signal_info_text p _ sig_num info hr]

theorem family_names (f : signal_family) :
    ∀ x ∈ f.source, x.2.1.toList.head? ≠ some 'U' ∧ x.2.1.toList ≠ [] := by
  cases f <;> decide

/-- An entry found in a code table carries a name and a description of the
source of the table. -/
theorem code_table_found (p : Platform) (source : List (String × String × String)) (c : Int)
    (ci : shbt_signal_code_info)
    (h : shbt_get_signal_code_info (code_table p source) c = some ci) :
    ∃ x ∈ source, p x.1 = some c ∧ ci.code_name = some x.2.1 ∧ ci.code_desc = some x.2.2 := by
  obtain ⟨hm, hnum⟩ := get_signal_code_info_mem c _ ci h
  unfold code_table at hm
  rcases List.mem_append.mp hm with hm | hm
  · obtain ⟨x, hx, hy⟩ := List.mem_filterMap.mp hm
    rcases hp : p x.1 with _ | n
    · rw [hp] at hy
      simp at hy
    · rw [hp] at hy
      simp only [Option.map_some', Option.some.injEq] at hy
      refine ⟨x, hx, ?_, by rw [← hy], by rw [← hy]⟩
      rw [← hnum, ← hy]
      exact hp
  · simp only [List.mem_singleton] at hm
    have hn : ci.code_name ≠ none := by
      clear hm hnum
      generalize code_table p source = codes at h
      induction codes with
      | nil => simp [shbt_get_signal_code_info] at h
      | cons e rest ih =>
        unfold shbt_get_signal_code_info at h
        by_cases hn : e.code_name = none
        · rw [if_pos hn] at h
          exact absurd h (by simp)
        · rw [if_neg hn] at h
          by_cases hc : e.code_num = c
          · rw [if_pos hc] at h
            injection h with h
            rw [← h]
            exact hn
          · rw [if_neg hc] at h
            exact ih h
    rw [hm] at hn
    exact absurd rfl hn

/-! ## Signal description: fault address and family codes, the claims -/

/-- C21: for a signal with a descriptor and a present extended info, if the
signal is ILL, FPE, SEGV, BUS or TRAP the output ends with
` - Fault occurred at address 0x`, the address `si_addr` in lowercase
hexadecimal zero-padded to 12 digits, and a newline; the digits are exactly 12
for an address below `2 ^ 48` and otherwise those of the full unsigned value,
without sign or padding, and they read back as the address. For every other
signal (IO/POLL, SYS and the signals of no family) the output does not depend on
`si_addr`, no family of such a signal carries a fault address, and the output
is the header, the generic part and a family part without address. -/
theorem fault_address_printed (p : Platform) (tbl : List shbt_signal_info) (sig_num : Int)
    (idx : Nat) (info : siginfo_t) (hd : shbt_get_signal_info sig_num tbl = some idx) :
    ((p "SIGILL" = some sig_num ∨ p "SIGFPE" = some sig_num ∨ p "SIGSEGV" = some sig_num ∨
        p "SIGBUS" = some sig_num ∨ p "SIGTRAP" = some sig_num) →
      ∃ pre, shbt_print_signal p tbl sig_num (some info)
        = pre ++ " - Fault occurred at address 0x".toList ++ hex12 info.si_addr
          ++ "\n".toList) ∧
    (hex12 info.si_addr
      = List.replicate (12 - (Nat.digits 16 (info.si_addr % WORD)).length) '0'
        ++ msd_chars 16 (info.si_addr % WORD)) ∧
    (info.si_addr % WORD < 2 ^ 48 → (hex12 info.si_addr).length = 12) ∧
    (2 ^ 48 ≤ info.si_addr % WORD → hex12 info.si_addr = msd_chars 16 (info.si_addr % WORD)) ∧
    (∀ c ∈ hex12 info.si_addr, c ∈ "0123456789abcdef".toList) ∧
    parse_digits 16 (hex12 info.si_addr) 0 = some (info.si_addr % WORD) ∧
    (¬ (p "SIGILL" = some sig_num ∨ p "SIGFPE" = some sig_num ∨ p "SIGSEGV" = some sig_num ∨
        p "SIGBUS" = some sig_num ∨ p "SIGTRAP" = some sig_num) →
      (∀ a : Nat, shbt_print_signal p tbl sig_num
          (some { si_code := info.si_code, si_pid := info.si_pid, si_uid := info.si_uid,
                  si_addr := a })
        = shbt_print_signal p tbl sig_num (some info)) ∧
      (∀ f, family_of p sig_num = some f → f.has_fault_addr = false) ∧
      (info.in_range →
        shbt_print_signal p tbl sig_num (some info)
          = shbt_print_signal p tbl sig_num none ++ described_generic p info
            ++ (match family_of p sig_num with
                | some f => "  ".toList ++ described_code p f info ++ "\n".toList
                | none =>
                  if (shbt_get_signal_code_info (code_table p generic_codes_source)
                      info.si_code).isSome then "\n".toList
                  else []))) := by
  have h12 := digits16_length_le_12 (info.si_addr % WORD)
  refine ⟨fun h5 => ?_, rfl, fun hlt => ?_, fun hge => ?_, hex12_chars info.si_addr, ?_,
    fun hn => ⟨fun a => ?_, fun f hf => ?_, fun hr => ?_⟩⟩
  · rw [print_signal_known p tbl sig_num idx hd (some info)]
    exact print_signal_info_fault p _ sig_num info h5
  · rw [hex12_length]
    have := h12.mpr hlt
    omega
  · have hz : 12 - (Nat.digits 16 (info.si_addr % WORD)).length = 0 := by
      have : ¬ (Nat.digits 16 (info.si_addr % WORD)).length ≤ 12 := fun h => by
        have := h12.mp h
        omega
      omega
    unfold hex12
    rw [hz]
    rfl
  · exact parse_digits_out 16 (info.si_addr % WORD) 12 (by norm_num) (by norm_num)
  · rw [print_signal_known p tbl sig_num idx hd (some info),
      print_signal_known p tbl sig_num idx hd (some _)]
    simp only
    cases info with
    | mk c pid uid a0 => rw [print_signal_info_addr p _ sig_num c pid uid a a0 hn]
  · cases hb : f.has_fault_addr
    · rfl
    · exact absurd ((family_of_fault p sig_num).mpr ⟨f, hf, hb⟩) hn
  · rw [print_signal_text p tbl sig_num idx info hd hr]
    congr 1
    unfold described_family
    rcases hf : family_of p sig_num with _ | f
    · rfl
    · have hb : f.has_fault_addr = false := by
        cases hb : f.has_fault_addr
        · rfl
        · exact absurd ((family_of_fault p sig_num).mpr ⟨f, hf, hb⟩) hn
      simp only [hb, Bool.false_eq_true, if_false, List.append_nil]

/-- Witness for C21: SIGSEGV on Linux with code `SEGV_MAPERR` and the address
`0xdeadbeef`. -/
theorem fault_address_printed_witness :
    shbt_get_signal_info 11 (sig_info_of linux) = some 18 ∧
    linux "SIGSEGV" = some 11 ∧
    ∃ pre, shbt_print_signal linux (sig_info_of linux) 11
        (some { si_code := 1, si_pid := 0, si_uid := 0, si_addr := 3735928559 })
      = pre ++ " - Fault occurred at address 0x".toList ++ hex12 3735928559 ++ "\n".toList :=
  ⟨by decide, by decide,
    (fault_address_printed linux (sig_info_of linux) 11 18
      { si_code := 1, si_pid := 0, si_uid := 0, si_addr := 3735928559 } (by decide)).1
      (Or.inr (Or.inr (Or.inl (by decide))))⟩

/-- C27: for a signal with a descriptor and a present extended info the
output is the header, the generic part and the family part. The code name
and description of the family part are those of the entry found in the table
of the family the signal belongs to (sigill, sigfpe, sigsegv, sigbus, sigtrap,
sigpoll for IO/POLL, sigsys), an entry of the source of that table; `Unknown
signal code` and the number are printed exactly when the code is neither in
that table nor in `generic_codes`; a signal of no family gets no family
section. On Linux code 1 is MAPERR for SEGV and ILLOPC for ILL. -/
theorem family_code_from_own_table (p : Platform) (tbl : List shbt_signal_info)
    (sig_num : Int) (idx : Nat) (info : siginfo_t)
    (hd : shbt_get_signal_info sig_num tbl = some idx) (hr : info.in_range) :
    shbt_print_signal p tbl sig_num (some info)
      = shbt_print_signal p tbl sig_num none ++ described_generic p info
        ++ described_family p sig_num info ∧
    (∀ f, family_of p sig_num = some f →
      described_family p sig_num info
        = "  ".toList ++ described_code p f info
          ++ (if f.has_fault_addr = true then described_fault info.si_addr else [])
          ++ "\n".toList ∧
      (∀ ci, shbt_get_signal_code_info (code_table p f.source) info.si_code = some ci →
        described_code p f info
          = opt_text ci.code_name ++ " - ".toList ++ opt_text ci.code_desc ∧
        ∃ x ∈ f.source, p x.1 = some info.si_code ∧ ci.code_name = some x.2.1 ∧
          ci.code_desc = some x.2.2) ∧
      ("Unknown signal code ".toList <+: described_code p f info ↔
        shbt_get_signal_code_info (code_table p f.source) info.si_code = none ∧
        shbt_get_signal_code_info (code_table p generic_codes_source) info.si_code = none) ∧
      (shbt_get_signal_code_info (code_table p f.source) info.si_code = none →
        shbt_get_signal_code_info (code_table p generic_codes_source) info.si_code = none →
        described_code p f info
          = "Unknown signal code ".toList ++ decimal_chars info.si_code)) ∧
    (family_of p sig_num = none →
      described_family p sig_num info
        = if (shbt_get_signal_code_info (code_table p generic_codes_source)
            info.si_code).isSome then "\n".toList else []) ∧
    (family_of linux 11 = some signal_family.segv ∧ family_of linux 4 = some signal_family.ill ∧
      described_code linux signal_family.segv
          { si_code := 1, si_pid := 0, si_uid := 0, si_addr := 0 }
        = "MAPERR - Address not mapped to object".toList ∧
      described_code linux signal_family.ill
          { si_code := 1, si_pid := 0, si_uid := 0, si_addr := 0 }
        = "ILLOPC - Illegal opcode".toList) := by
  refine ⟨print_signal_text p tbl sig_num idx info hd hr, fun f hf => ⟨?_, fun ci hci => ?_, ?_,
    fun h1 h2 => ?_⟩, fun hf => ?_, by decide, by decide, by decide, by decide⟩
  · unfold described_family
    rw [hf]
  · refine ⟨?_, code_table_found p f.source info.si_code ci hci⟩
    unfold described_code
    rw [hci]
  · unfold described_code
    rcases hl : shbt_get_signal_code_info (code_table p f.source) info.si_code with _ | ci
    · simp only
      rcases hg : shbt_get_signal_code_info (code_table p generic_codes_source) info.si_code
        with _ | gi
      · simp
      · simp
    · simp only
      obtain ⟨x, hx, _, hn, _⟩ := code_table_found p f.source info.si_code ci hl
      obtain ⟨hU, hne⟩ := family_names f x hx
      constructor
      · rintro ⟨t, ht⟩
        rw [hn] at ht
        have h1 := congrArg List.head? ht
        have h2 : (opt_text (some x.2.1) ++ " - ".toList ++ opt_text ci.code_desc).head?
            = x.2.1.toList.head? := by
          show (x.2.1.toList ++ " - ".toList ++ opt_text ci.code_desc).head? = _
          cases hx1 : x.2.1.toList with
          | nil => exact absurd hx1 hne
          | cons a as => rfl
        rw [h2] at h1
        exact absurd h1.symm hU
      · intro h
        exact absurd h.1 (by simp)
  · unfold described_code
    rw [h1, h2]
    rfl
  · unfold described_family
    rw [hf]

/-- Witness for C27: SIGSEGV on Linux with code `SEGV_MAPERR`. -/
theorem family_code_from_own_table_witness :
    shbt_get_signal_info 11 (sig_info_of linux) = some 18 ∧
    siginfo_t.in_range { si_code := 1, si_pid := 0, si_uid := 0, si_addr := 3735928559 } ∧
    shbt_print_signal linux (sig_info_of linux) 11
        (some { si_code := 1, si_pid := 0, si_uid := 0, si_addr := 3735928559 })
      = shbt_print_signal linux (sig_info_of linux) 11 none
        ++ described_generic linux { si_code := 1, si_pid := 0, si_uid := 0, si_addr := 3735928559 }
        ++ described_family linux 11
            { si_code := 1, si_pid := 0, si_uid := 0, si_addr := 3735928559 } := by
  have hr : siginfo_t.in_range
      { si_code := 1, si_pid := 0, si_uid := 0, si_addr := 3735928559 } := by
    unfold siginfo_t.in_range INTPTR_MIN INTPTR_MAX
    norm_num
  exact ⟨by decide, hr,
    (family_code_from_own_table linux (sig_info_of linux) 11 18
      { si_code := 1, si_pid := 0, si_uid := 0, si_addr := 3735928559 } (by decide) hr).1⟩

/-! ## The numerals of the printers always fit -/

/-- The cast of a `size_t` or pointer value to `intptr_t` is an `intptr_t`
value. -/
theorem to_intptr_range (a : Nat) : INTPTR_MIN ≤ to_intptr a ∧ to_intptr a ≤ INTPTR_MAX := by
  unfold to_intptr INTPTR_MIN INTPTR_MAX
  have h2 : a % WORD < WORD := Nat.mod_lt _ (by unfold WORD; norm_num)
  generalize a % WORD = q at h2
  unfold WORD at h2
  split
  · constructor <;> omega
  · constructor <;> omega

theorem decimal_chars_ne_nil (i : Int) : decimal_chars i ≠ [] := by
  unfold decimal_chars
  by_cases h0 : i = 0
  · subst h0
    simp
  · rw [if_neg h0]
    have hne : Nat.digits 10 i.natAbs ≠ [] :=
      Nat.digits_ne_nil_iff_ne_zero.mpr (by omega)
    intro h
    have hl := congrArg List.length h
    rw [List.length_append] at hl
    unfold msd_chars at hl
    rw [List.length_map, List.length_reverse] at hl
    have := List.length_pos.mpr hne
    simp only [List.length_nil] at hl
    omega

theorem hex12_ne_nil (a : Nat) : hex12 a ≠ [] := by
  intro h
  have hl := congrArg List.length h
  rw [hex12_length] at hl
  simp only [List.length_nil] at hl
  omega

theorem decimal_chars_length_le (i : Int) (hmin : INTPTR_MIN ≤ i) (hmax : i ≤ INTPTR_MAX) :
    (decimal_chars i).length ≤ 20 := by
  have hn : i.natAbs ≤ 9223372036854775808 := by
    simp only [INTPTR_MIN, INTPTR_MAX] at hmin hmax
    omega
  have hd := digits10_len_le i.natAbs hn
  unfold decimal_chars
  rw [List.length_append]
  have h1 : (if i < 0 then ['-'] else ([] : List Char)).length ≤ 1 := by
    split <;> simp
  have h2 : (if i = 0 then ['0'] else msd_chars 10 i.natAbs).length ≤ 19 := by
    split
    · simp
    · rw [msd_chars_length]
      exact hd
  omega

/-- C31: every call of `shbt_itoa` the printers make succeeds and leaves a
non-empty numeral in the 128-byte `str_buf`, whatever the buffer held before.
The calls are: base 10 without padding on a signal number, signal code, pid
or uid (any value an `intptr_t` represents, which includes every `int`), made
by `shbt_print_signal`; base 16 with padding 12 on the fault address cast to
`intptr_t` (any 64-bit address), made by `shbt_print_signal`; base 10 without
padding on the frame index cast to `intptr_t` (any `size_t`), made by
`shbt_print_collected_backtrace_fd`. The decimal numerals have at most 20
characters and the address at most 16. -/
theorem printer_numerals_fit (buf : Buffer) (i : Int) (a k : Nat)
    (hmin : INTPTR_MIN ≤ i) (hmax : i ≤ INTPTR_MAX) :
    ((shbt_itoa i buf 128 10 0).ret = true ∧
      read_cstr (shbt_itoa i buf 128 10 0).buf 128 0 = decimal_chars i ∧
      decimal_chars i ≠ [] ∧ (decimal_chars i).length ≤ 20) ∧
    ((shbt_itoa (to_intptr a) buf 128 16 12).ret = true ∧
      read_cstr (shbt_itoa (to_intptr a) buf 128 16 12).buf 128 0 = hex12 a ∧
      hex12 a ≠ [] ∧ (hex12 a).length ≤ 16) ∧
    ((shbt_itoa (to_intptr k) buf 128 10 0).ret = true ∧
      read_cstr (shbt_itoa (to_intptr k) buf 128 10 0).buf 128 0 = decimal_chars (to_intptr k) ∧
      decimal_chars (to_intptr k) ≠ [] ∧ (decimal_chars (to_intptr k)).length ≤ 20) ∧
    (∀ s : PrintState, (s.itoa i 10 0).str_buf = (shbt_itoa i s.str_buf 128 10 0).buf ∧
      (s.itoa (to_intptr a) 16 12).str_buf = (shbt_itoa (to_intptr a) s.str_buf 128 16 12).buf) := by
  obtain ⟨k1, k2⟩ := to_intptr_range k
  refine ⟨⟨(itoa_decimal i buf hmin hmax).1, (itoa_decimal i buf hmin hmax).2,
      decimal_chars_ne_nil i, decimal_chars_length_le i hmin hmax⟩,
    ⟨(itoa_hex12 a buf).1, (itoa_hex12 a buf).2, hex12_ne_nil a, ?_⟩,
    ⟨(itoa_decimal _ buf k1 k2).1, (itoa_decimal _ buf k1 k2).2, decimal_chars_ne_nil _,
      decimal_chars_length_le _ k1 k2⟩, fun s => ⟨rfl, rfl⟩⟩
  rw [hex12_length]
  have := digits16_len_le (a % WORD) (Nat.mod_lt _ (by unfold WORD; norm_num))
  omega

/-- Witness for C31: the most negative `int`, the largest address and the
largest `size_t` frame index. -/
theorem printer_numerals_fit_witness :
    INTPTR_MIN ≤ (-2147483648 : Int) ∧ (-2147483648 : Int) ≤ INTPTR_MAX ∧
    (shbt_itoa (-2147483648) zero_buf 128 10 0).ret = true ∧
    (shbt_itoa (to_intptr 18446744073709551615) zero_buf 128 16 12).ret = true ∧
    (shbt_itoa (to_intptr 18446744073709551615) zero_buf 128 10 0).ret = true :=
  ⟨by unfold INTPTR_MIN; norm_num, by unfold INTPTR_MAX; norm_num,
    (printer_numerals_fit zero_buf (-2147483648) 18446744073709551615 18446744073709551615
      (by unfold INTPTR_MIN; norm_num) (by unfold INTPTR_MAX; norm_num)).1.1,
    (printer_numerals_fit zero_buf (-2147483648) 18446744073709551615 18446744073709551615
      (by unfold INTPTR_MIN; norm_num) (by unfold INTPTR_MAX; norm_num)).2.1.1,
    (printer_numerals_fit zero_buf (-2147483648) 18446744073709551615 18446744073709551615
      (by unfold INTPTR_MIN; norm_num) (by unfold INTPTR_MAX; norm_num)).2.2.1.1⟩

end Shbt
